import Mathlib

/-!
Cricket statistics: ETL merge pipeline and query engine.

A shallow embedding of `src/etl/import_kaggle.js` (the three domain passes, the
role pass) and of the read-side handlers of `src/backend/src/index.ts`
(player list, single lookup, comparison, pagination, leaderboard, era
distribution, country contribution, dashboard).

Conventions of the embedding.

* JavaScript numbers that the program only stores, compares or adds as
  integers are `Int` (exact; the program stays far below `2^53`).  Numbers read
  by `parseFloat` are finite doubles, every one of which is a rational, so they
  are `Rat`; `NaN` is `none`.  Infinities are not represented.
* `parseFloat`, the string-to-number coercion of the language and
  `toLowerCase` are passed as a function argument: every statement holds for
  each such function.
* A CSV cell that is missing from a row behaves in every use below exactly like
  the empty text (`parseInt(undefined)` is `NaN`, `undefined || ''` is `''`,
  `!undefined` is true), so row cells are `String`.  The `Player` cell, on
  which the program calls a method, is taken to be present.
* The `players` map is an insertion-ordered list of entries keyed by `name`.
* The query parameters `page` and `limit` reach the handlers through
  `Number(...)`; they are integers here, negative ones included, and
  `slice` treats them as the language does.
* An object literal that a handler uses as a dictionary is the list of its
  own properties; a lookup also finds the names the object inherits from
  `Object.prototype`, and `Object.values` lists array-index names first.
* A handler that throws sends no body: its model returns `none`.
-/

namespace Cricket

/-! ## Text helpers -/

/-- White space of the language (`\s`, also what `trim` and `parseInt` strip):
white-space code points together with the line terminators. -/
def isJSWhitespace (c : Char) : Bool :=
  let n := c.toNat
  n == 9 || n == 10 || n == 11 || n == 12 || n == 13 || n == 32 || n == 160 ||
  n == 5760 || (8192 ≤ n && n ≤ 8202) || n == 8232 || n == 8233 || n == 8239 ||
  n == 8287 || n == 12288 || n == 65279

/-- Line terminators: the characters that `.` of a regular expression refuses. -/
def isLineTerminator (c : Char) : Bool :=
  let n := c.toNat
  n == 10 || n == 13 || n == 8232 || n == 8233

/-- `String.prototype.trim` on a list of characters. -/
def trimChars (l : List Char) : List Char :=
  ((l.dropWhile isJSWhitespace).reverse.dropWhile isJSWhitespace).reverse

/-- Value of a digit character in the given radix (10 or 16), if it is one. -/
def digitValue (radix : Nat) (c : Char) : Option Nat :=
  let n := c.toNat
  if 48 ≤ n ∧ n ≤ 57 then some (n - 48)
  else if radix = 16 ∧ 97 ≤ n ∧ n ≤ 102 then some (n - 87)
  else if radix = 16 ∧ 65 ≤ n ∧ n ≤ 70 then some (n - 55)
  else none

/-- Reads the longest run of digits at the front; `acc` is the value so far and
`seen` tells whether a digit was read. -/
def readDigits (radix : Nat) : List Char → Nat → Bool → Option Nat
  | [], acc, seen => if seen then some acc else none
  | c :: cs, acc, seen =>
    match digitValue radix c with
    | some d => readDigits radix cs (acc * radix + d) true
    | none => if seen then some acc else none

/-- Removes a `0x` or `0X` marker and reports the radix. -/
def stripRadix : List Char → Nat × List Char
  | '0' :: 'x' :: r => (16, r)
  | '0' :: 'X' :: r => (16, r)
  | cs => (10, cs)

/-- The built-in `parseInt(text)` with no radix argument: leading white space
is skipped, a sign is read, a `0x` marker selects base 16, and the longest run
of digits is converted; `none` is `NaN`. -/
def parseInt (text : String) : Option Int :=
  let cs := text.toList.dropWhile isJSWhitespace
  let signed : Bool × List Char :=
    match cs with
    | '-' :: r => (true, r)
    | '+' :: r => (false, r)
    | _ => (false, cs)
  let rr := stripRadix signed.2
  match readDigits rr.1 rr.2 0 false with
  | some v => some (if signed.1 then -(v : Int) else (v : Int))
  | none => none

/-- The expression `parseInt(cell) || 0`. -/
def intOrZero (cell : String) : Int :=
  (parseInt cell).getD 0

/-- The expression `parseFloat(cell) || 0`. -/
def floatOrZero (parseFloat : String → Option Rat) (cell : String) : Rat :=
  (parseFloat cell).getD 0

/-- `text.split(sep)` for a one-character separator, on character lists. -/
def splitOnChar (sep : Char) : List Char → List (List Char)
  | [] => [[]]
  | c :: cs =>
    if c = sep then [] :: splitOnChar sep cs
    else
      match splitOnChar sep cs with
      | [] => [[c]]
      | p :: ps => (c :: p) :: ps

/-- `text.replace(pat, '')` with a string pattern: the first occurrence of
`pat` is removed. -/
def removeFirst (pat : List Char) : List Char → List Char
  | [] => []
  | c :: cs =>
    if (c :: cs).take pat.length = pat then (c :: cs).drop pat.length
    else c :: removeFirst pat cs

/-- The expression `label.toLowerCase().replace(marker, '')` that turns the
label of a source file into the format of its rows.  The labels are the ASCII
constants of the `formats` arrays. -/
def formatOfLabel (marker : String) (label : String) : String :=
  String.mk (removeFirst marker.toList (label.toList.map Char.toLower))

/-! ## parsePlayer and parseSpan -/

/-- The tail `\s*\(([^)]+)\)$` of the pattern of `parsePlayer`: the text is
white space, an opening bracket, a non-empty run without a closing bracket, a
closing bracket, and then ends.  Returns the run. -/
def matchCountrySuffix (rest : List Char) : Option (List Char) :=
  match rest.dropWhile isJSWhitespace with
  | '(' :: body =>
    match body.reverse with
    | ')' :: innerRev =>
      if innerRev ≠ [] ∧ ')' ∉ innerRev then some innerRev.reverse else none
    | _ => none
  | _ => none

/-- The lazy group `(.+?)`: `taken` (reversed) is the group read so far; it
grows by one character that is not a line terminator until the tail matches. -/
def matchLazyName : List Char → List Char → Option (List Char × List Char)
  | taken, [] =>
    match matchCountrySuffix [] with
    | some g => some (taken.reverse, g)
    | none => none
  | taken, c :: cs =>
    match matchCountrySuffix (c :: cs) with
    | some g => some (taken.reverse, g)
    | none => if isLineTerminator c then none else matchLazyName (c :: taken) cs

/-- The match of `/^(.+?)\s*\(([^)]+)\)$/` against the text: both groups. -/
def matchPlayer (text : List Char) : Option (List Char × List Char) :=
  match text with
  | [] => none
  | c :: cs => if isLineTerminator c then none else matchLazyName [c] cs

/-- A resolved identity. -/
structure Identity where
  name : String
  country : String
deriving DecidableEq, Repr

/-- Source function `parsePlayer`. -/
def parsePlayer (playerString : String) : Identity :=
  match matchPlayer playerString.toList with
  | some (g1, g2) => { name := String.mk (trimChars g1), country := String.mk (trimChars g2) }
  | none => { name := String.mk (trimChars playerString.toList), country := "Unknown" }

/-- One bound of a span as `parseSpan` leaves it: `null`, `NaN`, or a year. -/
inductive SpanBound where
  | null
  | nan
  | year (n : Int)
deriving DecidableEq, Repr

/-- The expression `part ? parseInt(part) : null` for a part that exists. -/
def spanPart (part : List Char) : SpanBound :=
  if part = [] then SpanBound.null
  else
    match parseInt (String.mk part) with
    | some n => SpanBound.year n
    | none => SpanBound.nan

/-- The pair returned by `parseSpan`. -/
structure Span where
  start : SpanBound
  stop : SpanBound
deriving DecidableEq, Repr

/-- Source function `parseSpan`; the field `end` of the source is `stop`. -/
def parseSpan (spanString : String) : Span :=
  if spanString = "" then { start := SpanBound.null, stop := SpanBound.null }
  else
    let parts := splitOnChar '-' spanString.toList
    { start := match parts with
        | p0 :: _ => spanPart p0
        | [] => SpanBound.null
      stop := match parts with
        | _ :: p1 :: _ => spanPart p1
        | _ => SpanBound.null }

/-! ## Data model -/

/-- An entry of the `players` map. -/
structure Player where
  id : Nat
  name : String
  country : String
  primary_role : String
deriving DecidableEq, Repr

/-- A record of `playerStats`.  The three fields that a batting row does not
write (`best_bowling`, `five_wickets`, `ten_wickets`) are `none` while the
record does not have them.  The field `matches` of the source is
`matchesPlayed` (the word is reserved here). -/
structure Stat where
  player_id : Nat
  player_name : String
  player_country : String
  format : String
  span_start : SpanBound
  span_end : SpanBound
  matchesPlayed : Int
  innings : Int
  not_out : Int
  runs : Int
  highest : String
  average : Rat
  balls_faced : Int
  strike_rate : Rat
  hundreds : Int
  fifties : Int
  fours : Int
  sixes : Int
  catches : Int
  stumpings : Int
  wickets : Int
  bowling_average : Rat
  bowling_economy : Rat
  bowling_strike_rate : Rat
  best_bowling : Option String
  five_wickets : Option Int
  ten_wickets : Option Int
deriving DecidableEq

/-- The module state of the ETL: the `players` map (entries in insertion
order) and the `playerStats` array. -/
structure Store where
  players : List Player
  playerStats : List Stat
deriving DecidableEq

/-- The state at module load: an empty map and an empty array. -/
def Store.empty : Store := { players := [], playerStats := [] }

/-- `players.has(name)`. -/
def playersHas (players : List Player) (name : String) : Bool :=
  players.any (fun p => p.name = name)

/-- `players.get(name)`. -/
def playersGet (players : List Player) (name : String) : Option Player :=
  players.find? (fun p => p.name = name)

/-- `players.set(name, player)`: the entry of an existing key is replaced in
its place, a new key is appended. -/
def playersSet (players : List Player) (name : String) (player : Player) : List Player :=
  if playersHas players name then
    players.map (fun p => if p.name = name then player else p)
  else players ++ [player]

/-- `playerStats.find(pred)` followed by assignments to the found object:
the first record satisfying `pred` is replaced by its image under `f`. -/
def updateFirst (pred : Stat → Bool) (f : Stat → Stat) : List Stat → List Stat
  | [] => []
  | r :: rs => if pred r then f r :: rs else r :: updateFirst pred f rs

/-- Cells of a row of a batting file that the pass reads. -/
structure BattingRow where
  Player : String
  Span : String
  Mat : String
  Inns : String
  NO : String
  Runs : String
  HS : String
  Ave : String
  BF : String
  SR : String
  col100 : String
  col50 : String
  col4s : String
  col6s : String
deriving DecidableEq, Repr

/-- Cells of a row of a bowling file that the pass reads. -/
structure BowlingRow where
  Player : String
  Span : String
  Mat : String
  Inns : String
  Wkts : String
  Ave : String
  Econ : String
  SR : String
  BBI : String
  col5 : String
  col10 : String
deriving DecidableEq, Repr

/-- Cells of a row of a fielding file that the pass reads. -/
structure FieldingRow where
  Player : String
  Mat : String
  Inns : String
  Ct : String
  St : String
deriving DecidableEq, Repr

/-! ## The three domain passes -/

/-- The `formats` array of `processBattingData`. -/
def battingFormats : List String := ["ODI data", "t20", "test"]

/-- The `formats` array of `processBowlingData`. -/
def bowlingFormats : List String := ["Bowling_ODI", "Bowling_t20", "Bowling_test"]

/-- The `formats` array of `processFieldingData`. -/
def fieldingFormats : List String := ["Fielding_ODI", "Fielding_t20", "Fielding_test"]

/-- The `data` handler of `processBattingData` for one row of the file
labelled `format`.  `players.get(name)` follows the `has`/`set` of the same
name, so it finds an entry; the `none` branch is never taken. -/
def battingRowStep (parseFloat : String → Option Rat) (format : String) (s : Store)
    (row : BattingRow) : Store :=
  let pc := parsePlayer row.Player
  let span := parseSpan row.Span
  let players :=
    if !playersHas s.players pc.name then
      playersSet s.players pc.name
        { id := s.players.length + 1, name := pc.name, country := pc.country,
          primary_role := "batsman" }
    else s.players
  match playersGet players pc.name with
  | none => { s with players := players }
  | some player =>
    { players := players
      playerStats := s.playerStats ++ [{
        player_id := player.id
        player_name := pc.name
        player_country := pc.country
        format := formatOfLabel " data" format
        span_start := span.start
        span_end := span.stop
        matchesPlayed := intOrZero row.Mat
        innings := intOrZero row.Inns
        not_out := intOrZero row.NO
        runs := intOrZero row.Runs
        highest := row.HS
        average := floatOrZero parseFloat row.Ave
        balls_faced := intOrZero row.BF
        strike_rate := floatOrZero parseFloat row.SR
        hundreds := intOrZero row.col100
        fifties := intOrZero row.col50
        fours := intOrZero row.col4s
        sixes := intOrZero row.col6s
        catches := 0
        stumpings := 0
        wickets := 0
        bowling_average := 0
        bowling_economy := 0
        bowling_strike_rate := 0
        best_bowling := none
        five_wickets := none
        ten_wickets := none }] }

/-- The assignments of the `if (existingStats)` branch of the bowling pass. -/
def bowlingUpdate (parseFloat : String → Option Rat) (row : BowlingRow) (r : Stat) : Stat :=
  { r with
    wickets := intOrZero row.Wkts
    bowling_average := floatOrZero parseFloat row.Ave
    bowling_economy := floatOrZero parseFloat row.Econ
    bowling_strike_rate := floatOrZero parseFloat row.SR
    best_bowling := some row.BBI
    five_wickets := some (intOrZero row.col5)
    ten_wickets := some (intOrZero row.col10) }

/-- The `data` handler of `processBowlingData` for one row of the file
labelled `format`.  `players.get(name)` follows the `has`/`set` of the same
name, so it finds an entry; the `none` branch is never taken. -/
def bowlingRowStep (parseFloat : String → Option Rat) (format : String) (s : Store)
    (row : BowlingRow) : Store :=
  let pc := parsePlayer row.Player
  let span := parseSpan row.Span
  let players :=
    if !playersHas s.players pc.name then
      playersSet s.players pc.name
        { id := s.players.length + 1, name := pc.name, country := pc.country,
          primary_role := "bowler" }
    else s.players
  let isKey : Stat → Bool := fun stat =>
    stat.player_name = pc.name ∧ stat.format = formatOfLabel "bowling_" format
  match playersGet players pc.name with
  | none => { s with players := players }
  | some player =>
    if s.playerStats.any isKey then
      { players := players
        playerStats := updateFirst isKey (bowlingUpdate parseFloat row) s.playerStats }
    else
      { players := players
        playerStats := s.playerStats ++ [{
          player_id := player.id
          player_name := pc.name
          player_country := pc.country
          format := formatOfLabel "bowling_" format
          span_start := span.start
          span_end := span.stop
          matchesPlayed := intOrZero row.Mat
          innings := intOrZero row.Inns
          not_out := 0
          runs := 0
          highest := ""
          average := 0
          balls_faced := 0
          strike_rate := 0
          hundreds := 0
          fifties := 0
          fours := 0
          sixes := 0
          catches := 0
          stumpings := 0
          wickets := intOrZero row.Wkts
          bowling_average := floatOrZero parseFloat row.Ave
          bowling_economy := floatOrZero parseFloat row.Econ
          bowling_strike_rate := floatOrZero parseFloat row.SR
          best_bowling := some row.BBI
          five_wickets := some (intOrZero row.col5)
          ten_wickets := some (intOrZero row.col10) }] }

/-- The assignments of the `if (existingStats)` branch of the fielding pass. -/
def fieldingUpdate (row : FieldingRow) (r : Stat) : Stat :=
  { r with catches := intOrZero row.Ct, stumpings := intOrZero row.St }

/-- The `data` handler of `processFieldingData` for one row of the file
labelled `format`. -/
def fieldingRowStep (format : String) (s : Store) (row : FieldingRow) : Store :=
  let pc := parsePlayer row.Player
  let isKey : Stat → Bool := fun stat =>
    stat.player_name = pc.name ∧ stat.format = formatOfLabel "fielding_" format
  if s.playerStats.any isKey then
    { s with playerStats := updateFirst isKey (fieldingUpdate row) s.playerStats }
  else
    let player : Player :=
      match playersGet s.players pc.name with
      | some p => p
      | none =>
        { id := s.players.length + 1, name := pc.name, country := pc.country,
          primary_role := "wicket-keeper" }
    let players :=
      if !playersHas s.players pc.name then playersSet s.players pc.name player
      else s.players
    { players := players
      playerStats := s.playerStats ++ [{
        player_id := player.id
        player_name := pc.name
        player_country := pc.country
        format := formatOfLabel "fielding_" format
        span_start := SpanBound.null
        span_end := SpanBound.null
        matchesPlayed := intOrZero row.Mat
        innings := intOrZero row.Inns
        not_out := 0
        runs := 0
        highest := ""
        average := 0
        balls_faced := 0
        strike_rate := 0
        hundreds := 0
        fifties := 0
        fours := 0
        sixes := 0
        catches := intOrZero row.Ct
        stumpings := intOrZero row.St
        wickets := 0
        bowling_average := 0
        bowling_economy := 0
        bowling_strike_rate := 0
        best_bowling := some ""
        five_wickets := some 0
        ten_wickets := some 0 }] }

/-- The loop over the files of one domain: a file that does not exist
(`none`) is skipped, the rows of an existing file are handled in order. -/
def processFiles {ρ : Type} (labels : List String) (step : String → Store → ρ → Store)
    (files : String → Option (List ρ)) (s : Store) : Store :=
  labels.foldl
    (fun acc label =>
      match files label with
      | none => acc
      | some rows => rows.foldl (step label) acc)
    s

/-- Source function `processBattingData`. -/
def processBattingData (parseFloat : String → Option Rat)
    (files : String → Option (List BattingRow)) (s : Store) : Store :=
  processFiles battingFormats (battingRowStep parseFloat) files s

/-- Source function `processBowlingData`. -/
def processBowlingData (parseFloat : String → Option Rat)
    (files : String → Option (List BowlingRow)) (s : Store) : Store :=
  processFiles bowlingFormats (bowlingRowStep parseFloat) files s

/-- Source function `processFieldingData`. -/
def processFieldingData (files : String → Option (List FieldingRow)) (s : Store) : Store :=
  processFiles fieldingFormats fieldingRowStep files s

/-- The three passes of `runETL`, in the order of the source, from the state
at module load. -/
def mergeAll (parseFloat : String → Option Rat)
    (batting : String → Option (List BattingRow))
    (bowling : String → Option (List BowlingRow))
    (fielding : String → Option (List FieldingRow)) : Store :=
  processFieldingData fielding
    (processBowlingData parseFloat bowling
      (processBattingData parseFloat batting Store.empty))

/-! ## The role pass -/

/-- The body of the `players.forEach` callback of `runETL`: the new value of
`primary_role` of `player`. -/
def classifyRole (playerStats : List Stat) (player : Player) : String :=
  let playerStatsList := playerStats.filter (fun stat => stat.player_name = player.name)
  let hasBowling := playerStatsList.any (fun stat => decide (stat.wickets > 0))
  let hasBatting := playerStatsList.any (fun stat => decide (stat.runs > 1000))
  let hasFielding := playerStatsList.any (fun stat => decide (stat.stumpings > 0))
  if hasBowling && hasBatting then "all-rounder"
  else if hasBowling then "bowler"
  else if hasFielding then "wicket-keeper"
  else "batsman"

/-- The role pass of `runETL`: every entry of the map gets its role. -/
def rolePass (s : Store) : Store :=
  { s with
    players := s.players.map
      (fun player => { player with primary_role := classifyRole s.playerStats player }) }

/-- The data that `runETL` writes: the three passes followed by the role
pass. -/
def runETL (parseFloat : String → Option Rat)
    (batting : String → Option (List BattingRow))
    (bowling : String → Option (List BowlingRow))
    (fielding : String → Option (List FieldingRow)) : Store :=
  rolePass (mergeAll parseFloat batting bowling fielding)

/-! ## Values of the language, as the query handlers see them -/

/-- A value read from a record by name: `undefined`, `null`, a number or a
text. -/
inductive JSVal where
  | undefined
  | null
  | num (q : Rat)
  | str (s : String)
deriving DecidableEq

/-- Truthiness (`value && ...`, `value || 0`, `!value`). -/
def truthy : JSVal → Bool
  | JSVal.undefined => false
  | JSVal.null => false
  | JSVal.num q => decide (q ≠ 0)
  | JSVal.str s => decide (s ≠ "")

/-- The coercion to a number; `none` is `NaN`.  The empty text is `0`; every
other text is converted by the language, here `strToNum`. -/
def toNumber (strToNum : String → Option Rat) : JSVal → Option Rat
  | JSVal.undefined => none
  | JSVal.null => some 0
  | JSVal.num q => some q
  | JSVal.str s => if s = "" then some 0 else strToNum s

/-- The comparison `value > 0`. -/
def gtZero (strToNum : String → Option Rat) (v : JSVal) : Bool :=
  match toNumber strToNum v with
  | some q => decide (0 < q)
  | none => false

/-- The call `isNaN(value)`. -/
def jsIsNaN (strToNum : String → Option Rat) (v : JSVal) : Bool :=
  (toNumber strToNum v).isNone

/-- The expression `value || 0`. -/
def orZero (v : JSVal) : JSVal :=
  if truthy v then v else JSVal.num 0

/-- The subtraction `x - y`; `none` is `NaN`. -/
def jsSub (strToNum : String → Option Rat) (x y : JSVal) : Option Rat :=
  match toNumber strToNum x, toNumber strToNum y with
  | some a, some b => some (a - b)
  | _, _ => none

/-- A span bound as the snapshot file holds it (`NaN` is written as `null`). -/
def spanValue : SpanBound → JSVal
  | SpanBound.null => JSVal.null
  | SpanBound.nan => JSVal.null
  | SpanBound.year n => JSVal.num n

/-- The member access `stat[key]` for a record of the snapshot.  A name that is
no field of the record gives `undefined`; the handlers below treat an inherited
member exactly as they treat `undefined`, since it is no positive number. -/
def getField (stat : Stat) (key : String) : JSVal :=
  match key with
  | "player_id" => JSVal.num stat.player_id
  | "player_name" => JSVal.str stat.player_name
  | "player_country" => JSVal.str stat.player_country
  | "format" => JSVal.str stat.format
  | "span_start" => spanValue stat.span_start
  | "span_end" => spanValue stat.span_end
  | "matches" => JSVal.num stat.matchesPlayed
  | "innings" => JSVal.num stat.innings
  | "not_out" => JSVal.num stat.not_out
  | "runs" => JSVal.num stat.runs
  | "highest" => JSVal.str stat.highest
  | "average" => JSVal.num stat.average
  | "balls_faced" => JSVal.num stat.balls_faced
  | "strike_rate" => JSVal.num stat.strike_rate
  | "hundreds" => JSVal.num stat.hundreds
  | "fifties" => JSVal.num stat.fifties
  | "fours" => JSVal.num stat.fours
  | "sixes" => JSVal.num stat.sixes
  | "catches" => JSVal.num stat.catches
  | "stumpings" => JSVal.num stat.stumpings
  | "wickets" => JSVal.num stat.wickets
  | "bowling_average" => JSVal.num stat.bowling_average
  | "bowling_economy" => JSVal.num stat.bowling_economy
  | "bowling_strike_rate" => JSVal.num stat.bowling_strike_rate
  | "best_bowling" =>
    match stat.best_bowling with
    | some b => JSVal.str b
    | none => JSVal.undefined
  | "five_wickets" =>
    match stat.five_wickets with
    | some n => JSVal.num n
    | none => JSVal.undefined
  | "ten_wickets" =>
    match stat.ten_wickets with
    | some n => JSVal.num n
    | none => JSVal.undefined
  | _ => JSVal.undefined

/-! ## Arrays: slice and sort -/

/-- The relative index that `slice` makes of an integer argument for an array
of length `len`: a negative argument counts from the end, and the result is
kept inside `0 .. len`. -/
def relIndex (len : Nat) (i : Int) : Nat :=
  if i < 0 then (len + i).toNat else min i.toNat len

/-- `array.slice(start, stop)` for integer arguments. -/
def jsSlice {α : Type} (l : List α) (start stop : Int) : List α :=
  (l.drop (relIndex l.length start)).take
    (relIndex l.length stop - relIndex l.length start)

/-- The order that a comparator induces: `a` may stay in front of `b` unless
the comparator returns a positive number (`NaN` counts as zero). -/
def notAfter {α : Type} (cmp : α → α → Option Rat) (a b : α) : Bool :=
  match cmp a b with
  | some q => decide (q ≤ 0)
  | none => true

/-- `array.sort(cmp)`.  The sort of the language is stable; for a comparator
that orders the elements consistently its result is the one arrangement of the
elements that is ordered and keeps elements the comparator does not separate in
their former order.  Insertion from the right computes that arrangement. -/
def jsSort {α : Type} (cmp : α → α → Option Rat) (l : List α) : List α :=
  l.insertionSort (fun a b => notAfter cmp a b = true)

/-! ## Pagination of `GET /api/players` -/

/-- The body that `GET /api/players` sends. -/
structure Page (α : Type) where
  data : List α
  total : Nat
  page : Int
  limit : Int
  totalPages : Option Int

/-- The pagination at the end of `GET /api/players`, applied to the filtered
list `finalPlayers`; `page` and `limit` are `Number(page)` and `Number(limit)`,
taken as integers.  `totalPages` is `Math.ceil(total / limit)`, which is no
finite number (`none`) for `limit = 0`. -/
def paginate {α : Type} (finalPlayers : List α) (page limit : Int) : Page α :=
  let startIndex := (page - 1) * limit
  let endIndex := startIndex + limit
  { data := jsSlice finalPlayers startIndex endIndex
    total := finalPlayers.length
    page := page
    limit := limit
    totalPages :=
      if limit = 0 then none
      else some (Int.ceil ((finalPlayers.length : Rat) / (limit : Rat))) }

/-! ## Leaderboard -/

/-- The handler of `GET /api/leaderboard`; `limit` is `Number(limit)` as an
integer. -/
def leaderboard (strToNum : String → Option Rat) (playerStats : List Stat)
    (format : String) (type : String) (limit : Int) : List Stat :=
  let filteredStats := playerStats.filter (fun stat => stat.format = format)
  let filteredStats := filteredStats.filter (fun stat =>
    let value := getField stat type
    truthy value && gtZero strToNum value && !jsIsNaN strToNum value)
  let sorted := jsSort
    (fun a b => jsSub strToNum (orZero (getField b type)) (orZero (getField a type)))
    filteredStats
  jsSlice sorted 0 limit

/-! ## Era distribution -/

/-- One element of the answer of `GET /api/analytics/era-distribution`,
without the mean. -/
structure EraSummary where
  decade : String
  min : JSVal
  q1 : JSVal
  median : JSVal
  q3 : JSVal
  max : JSVal
  count : Nat
deriving DecidableEq

/-- `array[i]`: `undefined` outside the array. -/
def jsIndex (l : List JSVal) (i : Nat) : JSVal :=
  l.getD i JSVal.undefined

/-- `Math.floor(n * 0.25)`, `Math.floor(n * 0.5)` and `Math.floor(n * 0.75)`
for `num / den` equal to `1/4`, `1/2` and `3/4`: these fractions are exact
binary fractions, so the product is exact and its floor is the integer
quotient. -/
def floorFraction (n num den : Nat) : Nat :=
  n * num / den

/-- The key of a decade: `Math.floor(span_start / 10) * 10` followed by `s`. -/
def decadeKey (spanStart : Int) : String :=
  toString (Int.fdiv spanStart 10 * 10) ++ "s"

/-- `distribution[key].push(value)` after `distribution[key]` was created if
it was missing.  Keys of this shape end in `s`, so the object lists them in
insertion order. -/
def bucketPush (distribution : List (String × List JSVal)) (key : String) (value : JSVal) :
    List (String × List JSVal) :=
  if distribution.any (fun kv => kv.1 = key) then
    distribution.map (fun kv => if kv.1 = key then (kv.1, kv.2 ++ [value]) else kv)
  else distribution ++ [(key, [value])]

/-- The callback of `filteredStats.forEach` in the era distribution. -/
def eraStep (metric : String) (distribution : List (String × List JSVal)) (stat : Stat) :
    List (String × List JSVal) :=
  match stat.span_start with
  | SpanBound.year n =>
    if n ≠ 0 then bucketPush distribution (decadeKey n) (getField stat metric)
    else distribution
  | _ => distribution

/-- The callback of `Object.entries(distribution).map`: the summary of one
decade. -/
def summarize (strToNum : String → Option Rat) (decade : String) (values : List JSVal) :
    EraSummary :=
  let sorted := jsSort (fun a b => jsSub strToNum a b) values
  { decade := decade
    min := jsIndex sorted 0
    q1 := jsIndex sorted (floorFraction sorted.length 1 4)
    median := jsIndex sorted (floorFraction sorted.length 1 2)
    q3 := jsIndex sorted (floorFraction sorted.length 3 4)
    max := jsIndex sorted (sorted.length - 1)
    count := values.length }

/-- The handler of `GET /api/analytics/era-distribution`. -/
def eraDistribution (strToNum : String → Option Rat) (playerStats : List Stat)
    (format : String) (metric : String) : List EraSummary :=
  let filteredStats := playerStats.filter (fun stat =>
    decide (stat.format = format) && truthy (getField stat metric) &&
      gtZero strToNum (getField stat metric))
  let distribution := filteredStats.foldl (eraStep metric) []
  distribution.map (fun kv => summarize strToNum kv.1 kv.2)

/-! ## Country contribution -/

/-- One element of the answer of `GET /api/analytics/country-contribution`,
without the two floating-point means. -/
structure CountryEntry where
  country : String
  player_count : Nat
  total_runs : Int
  total_wickets : Int
deriving DecidableEq

/-- The names that every object literal inherits from `Object.prototype`.  The
value found under each of them is an object or a function, hence truthy. -/
def objectPrototypeKeys : List String :=
  ["constructor", "__defineGetter__", "__defineSetter__", "hasOwnProperty",
   "__lookupGetter__", "__lookupSetter__", "isPrototypeOf", "propertyIsEnumerable",
   "toString", "valueOf", "__proto__", "toLocaleString"]

/-- The callback of `filteredStats.forEach` in the country contribution; `acc`
holds the own properties of `countryStats` in insertion order.  For a country
that names an inherited member, `countryStats[country]` is that member: the
test `!countryStats[country]` fails, the three updates are made on the
inherited member, and `countryStats` gets no own property. -/
def countryStep (acc : List CountryEntry) (stat : Stat) : List CountryEntry :=
  let country := stat.player_country
  if country ∈ objectPrototypeKeys then acc
  else
    let acc1 :=
      if acc.any (fun e => e.country = country) then acc
      else acc ++ [{ country := country, player_count := 0, total_runs := 0, total_wickets := 0 }]
    acc1.map (fun e =>
      if e.country = country then
        { e with
          player_count := e.player_count + 1
          total_runs := e.total_runs + stat.runs
          total_wickets := e.total_wickets + stat.wickets }
      else e)

/-- Whether a property name is an array index (a canonical decimal numeral
below `2^32 - 1`), and then its value. -/
def arrayIndex (key : String) : Option Nat :=
  let cs := key.toList
  if cs ≠ [] ∧ cs.all Char.isDigit ∧ (cs = ['0'] ∨ cs.head? ≠ some '0') then
    let v := cs.foldl (fun acc c => acc * 10 + (c.toNat - 48)) 0
    if v < 4294967295 then some v else none
  else none

/-- `Object.values(countryStats)`: the properties named by array indices come
first, by ascending index, then the others in insertion order. -/
def objectValues (acc : List CountryEntry) : List CountryEntry :=
  (acc.filter (fun e => (arrayIndex e.country).isSome)).insertionSort
      (fun a b => (arrayIndex a.country).getD 0 ≤ (arrayIndex b.country).getD 0)
    ++ acc.filter (fun e => !(arrayIndex e.country).isSome)

/-- The handler of `GET /api/analytics/country-contribution`. -/
def countryContribution (playerStats : List Stat) (format : String) : List CountryEntry :=
  let filteredStats := playerStats.filter (fun stat => stat.format = format)
  let countryStats := filteredStats.foldl countryStep []
  jsSort (fun a b => some ((b.total_runs : Rat) - (a.total_runs : Rat)))
    (objectValues countryStats)

/-! ## Comparison, single lookup and the player list -/

/-- The object literal that `GET /api/compare` builds for one stat record, as
the list of its properties. -/
def comparedFields (stat : Stat) : List (String × JSVal) :=
  [("runs", JSVal.num stat.runs),
   ("average", JSVal.num stat.average),
   ("strike_rate", JSVal.num stat.strike_rate),
   ("hundreds", JSVal.num stat.hundreds),
   ("fifties", JSVal.num stat.fifties),
   ("wickets", JSVal.num stat.wickets),
   ("bowling_average", JSVal.num stat.bowling_average),
   ("matches", JSVal.num stat.matchesPlayed)]

/-- The assignment `acc[key] = value` on the own properties of an object
literal (in insertion order): an existing property keeps its place and gets the
value, a new one is appended; assigning to `__proto__` sets the prototype and
creates no own property. -/
def objectAssign {β : Type} (acc : List (String × β)) (key : String) (value : β) :
    List (String × β) :=
  if key = "__proto__" then acc
  else if acc.any (fun kv => kv.1 = key) then
    acc.map (fun kv => if kv.1 = key then (kv.1, value) else kv)
  else acc ++ [(key, value)]

/-- The own properties of an object in the order in which they are listed and
serialised: those named by array indices first, by ascending index, then the
others in insertion order. -/
def ownProperties {β : Type} (acc : List (String × β)) : List (String × β) :=
  (acc.filter (fun kv => (arrayIndex kv.1).isSome)).insertionSort
      (fun a b => (arrayIndex a.1).getD 0 ≤ (arrayIndex b.1).getD 0)
    ++ acc.filter (fun kv => !(arrayIndex kv.1).isSome)

/-- One element of the answer of `GET /api/compare`. -/
structure CompareEntry where
  id : Nat
  name : String
  country : String
  primary_role : String
  stats : List (String × List (String × JSVal))
deriving DecidableEq

/-- The answer of `GET /api/compare`: status 400 or the comparison. -/
inductive CompareResponse where
  | badRequest
  | ok (comparison : List CompareEntry)
deriving DecidableEq

/-- The expression `playerIds.split(',').map(id => parseInt(id.trim()))`;
`none` is `NaN`. -/
def parseIdList (playerIds : String) : List (Option Int) :=
  (splitOnChar ',' playerIds.toList).map (fun id => parseInt (String.mk (trimChars id)))

/-- The callback of `selectedPlayers.map` in `GET /api/compare`. -/
def compareEntry (playerStats : List Stat) (player : Player) : CompareEntry :=
  let stats := playerStats.filter (fun stat => stat.player_name = player.name)
  let formatStats := stats.foldl
    (fun acc stat => objectAssign acc stat.format (comparedFields stat)) []
  { id := player.id
    name := player.name
    country := player.country
    primary_role := player.primary_role
    stats := ownProperties formatStats }

/-- The handler of `GET /api/compare`.  `playerIds` is the query parameter
`players` (`none` when it is absent) and `metrics` the query parameter
`metrics` or its default `'runs,average,strike_rate'`; the handler reads
`metrics` and never uses it. -/
def comparePlayers (players : List Player) (playerStats : List Stat)
    (playerIds : Option String) (_metrics : String) : CompareResponse :=
  match playerIds with
  | none => CompareResponse.badRequest
  | some text =>
    if text = "" then CompareResponse.badRequest
    else
      let ids := parseIdList text
      let selectedPlayers := players.filter (fun p => decide (some (p.id : Int) ∈ ids))
      CompareResponse.ok (selectedPlayers.map (compareEntry playerStats))

/-- The answer of `GET /api/players/:id`: status 404 or the player with its
stat records. -/
inductive LookupResponse where
  | notFound
  | found (player : Player) (stats : List Stat)
deriving DecidableEq

/-- The handler of `GET /api/players/:id`; `id` is the text of the path
parameter. -/
def playerById (players : List Player) (playerStats : List Stat) (id : String) :
    LookupResponse :=
  let playerId := parseInt id
  match players.find? (fun p => decide (some (p.id : Int) = playerId)) with
  | none => LookupResponse.notFound
  | some player =>
    LookupResponse.found player
      (playerStats.filter (fun stat => stat.player_name = player.name))

/-- Whether the text `hay` starts with the text `needle`. -/
def startsWithChars : List Char → List Char → Bool
  | _, [] => true
  | [], _ :: _ => false
  | h :: hs, n :: ns => decide (h = n) && startsWithChars hs ns

/-- `hay.includes(needle)` on character lists. -/
def includesChars : List Char → List Char → Bool
  | [], needle => needle.isEmpty
  | h :: hs, needle => startsWithChars (h :: hs) needle || includesChars hs needle

/-- An element of `data` in the answer of `GET /api/players`: the player with
the property `stats` added. -/
structure PlayerWithStats where
  player : Player
  stats : List Stat
deriving DecidableEq

/-- A filter of `GET /api/players` that the handler applies only when the
query parameter is truthy (present and not empty). -/
def filterWhenGiven {α : Type} (param : Option String) (keep : String → α → Bool)
    (l : List α) : List α :=
  match param with
  | none => l
  | some value => if value = "" then l else l.filter (keep value)

/-- The filtering part of `GET /api/players` (the list `finalPlayers`);
`toLowerCase` is `String.prototype.toLowerCase`. -/
def finalPlayers (toLowerCase : String → String) (players : List Player)
    (playerStats : List Stat) (search country role format : Option String) :
    List PlayerWithStats :=
  let filteredPlayers := players
  let filteredPlayers := filterWhenGiven search
    (fun search p => includesChars (toLowerCase p.name).toList (toLowerCase search).toList)
    filteredPlayers
  let filteredPlayers := filterWhenGiven country
    (fun country p => decide (p.country = country)) filteredPlayers
  let filteredPlayers := filterWhenGiven role
    (fun role p => decide (p.primary_role = role)) filteredPlayers
  let playersWithStats := filteredPlayers.map (fun player =>
    { player := player
      stats := playerStats.filter (fun stat => stat.player_name = player.name) })
  filterWhenGiven format
    (fun format player => player.stats.any (fun stat => decide (stat.format = format)))
    playersWithStats

/-- The handler of `GET /api/players`. -/
def listPlayers (toLowerCase : String → String) (players : List Player)
    (playerStats : List Stat) (search country role format : Option String)
    (page limit : Int) : Page PlayerWithStats :=
  paginate (finalPlayers toLowerCase players playerStats search country role format) page limit

/-! ## Properties named by the specification -/

/-- Some record of player `name` has `wickets > 0`. -/
def HasBowling (stats : List Stat) (name : String) : Prop :=
  ∃ r ∈ stats, r.player_name = name ∧ r.wickets > 0

/-- Some record of player `name` has `runs > 1000`. -/
def HasBatting (stats : List Stat) (name : String) : Prop :=
  ∃ r ∈ stats, r.player_name = name ∧ r.runs > 1000

/-- Some record of player `name` has `stumpings > 0`. -/
def HasFielding (stats : List Stat) (name : String) : Prop :=
  ∃ r ∈ stats, r.player_name = name ∧ r.stumpings > 0

/-- The role rule in the words of the specification: `role` is one of the
four roles, and it is the first of all-rounder, bowler, wicket-keeper, batsman
whose condition holds. -/
def RoleRule (stats : List Stat) (name : String) (role : String) : Prop :=
  (role = "all-rounder" ∨ role = "bowler" ∨ role = "wicket-keeper" ∨ role = "batsman") ∧
  (role = "all-rounder" ↔ HasBowling stats name ∧ HasBatting stats name) ∧
  (role = "bowler" ↔ HasBowling stats name ∧ ¬ HasBatting stats name) ∧
  (role = "wicket-keeper" ↔ ¬ HasBowling stats name ∧ HasFielding stats name) ∧
  (role = "batsman" ↔ ¬ HasBowling stats name ∧ ¬ HasFielding stats name)

/-! ## Sample inputs -/

/-- A `parseFloat` for the sample rows: it reads the decimals that occur in
them. -/
def sampleParseFloat (text : String) : Option Rat :=
  if text = "44.83" then some (4483 / 100)
  else if text = "86.23" then some (8623 / 100)
  else if text = "44.48" then some (4448 / 100)
  else if text = "5.10" then some (51 / 10)
  else if text = "52.2" then some (522 / 10)
  else none

/-- The batting row of the scenario of the specification. -/
def sachinBattingRow : BattingRow :=
  { Player := "Sachin Tendulkar (IND)", Span := "1989-2012", Mat := "463", Inns := "452",
    NO := "41", Runs := "18426", HS := "200*", Ave := "44.83", BF := "21367", SR := "86.23",
    col100 := "49", col50 := "96", col4s := "2016", col6s := "195" }

/-- A bowling row for the same name and format. -/
def sachinBowlingRow : BowlingRow :=
  { Player := "Sachin Tendulkar (IND)", Span := "1989-2012", Mat := "463", Inns := "270",
    Wkts := "154", Ave := "44.48", Econ := "5.10", SR := "52.2", BBI := "5/32",
    col5 := "2", col10 := "0" }

/-! ## Notions for the statements -/

/-- The resolved names of the rows of one domain, in the order in which the
pass handles them (`player` reads the `Player` cell). -/
def rowNames {ρ : Type} (labels : List String) (files : String → Option (List ρ))
    (player : ρ → String) : List String :=
  labels.flatMap (fun label =>
    match files label with
    | none => []
    | some rows => rows.map (fun row => (parsePlayer (player row)).name))

/-- The resolved names of all rows in the order of the run: batting, bowling,
fielding. -/
def allRowNames (batting : String → Option (List BattingRow))
    (bowling : String → Option (List BowlingRow))
    (fielding : String → Option (List FieldingRow)) : List String :=
  rowNames battingFormats batting BattingRow.Player ++
    (rowNames bowlingFormats bowling BowlingRow.Player ++
      rowNames fieldingFormats fielding FieldingRow.Player)

/-- The distinct elements of a list in the order of their first occurrence. -/
def firstSeen (names : List String) : List String :=
  (names.reverse.dedup).reverse

/-- The invariant of the registry after the rows with resolved names `ns`. -/
def RegistryInv (s : Store) (ns : List String) : Prop :=
  s.players.map (fun p => p.name) = firstSeen ns ∧
  s.players.map (fun p => p.id) = List.range' 1 s.players.length ∧
  ∀ r ∈ s.playerStats, r.player_name ∈ ns

/-- The number that the metric of a record denotes (`0` when the member is
no number). -/
def metricNumber (strToNum : String → Option Rat) (type : String) (r : Stat) : Rat :=
  (toNumber strToNum (getField r type)).getD 0

/-- The metric of a record is present (neither missing nor `null`) and
denotes a number greater than zero. -/
def metricPositive (strToNum : String → Option Rat) (type : String) (r : Stat) : Bool :=
  match getField r type with
  | JSVal.undefined => false
  | JSVal.null => false
  | v =>
    match toNumber strToNum v with
    | some q => decide (0 < q)
    | none => false

/-- The records that a leaderboard ranks, in the order of the snapshot: those
of the requested format whose metric is present and greater than zero. -/
def ranked (strToNum : String → Option Rat) (playerStats : List Stat)
    (format : String) (type : String) : List Stat :=
  playerStats.filter (fun r => decide (r.format = format) && metricPositive strToNum type r)

/-- A stat record with the given name, country, format, runs and wickets and
nothing else. -/
def sampleStat (name country format : String) (runs wickets : Int) : Stat :=
  { player_id := 1, player_name := name, player_country := country, format := format,
    span_start := SpanBound.null, span_end := SpanBound.null, matchesPlayed := 0,
    innings := 0, not_out := 0, runs := runs, highest := "", average := 0, balls_faced := 0,
    strike_rate := 0, hundreds := 0, fifties := 0, fours := 0, sixes := 0, catches := 0,
    stumpings := 0, wickets := wickets, bowling_average := 0, bowling_economy := 0,
    bowling_strike_rate := 0, best_bowling := none, five_wickets := none, ten_wickets := none }

/-- A snapshot for the leaderboard: three ODI records with positive runs (two
of them tied), one ODI record without runs and one Test record. -/
def sampleLeaderboardStats : List Stat :=
  [sampleStat "A" "IND" "odi" 100 0, sampleStat "B" "AUS" "odi" 300 0,
   sampleStat "C" "AUS" "odi" 100 0, sampleStat "D" "ENG" "odi" 0 5,
   sampleStat "E" "ENG" "test" 900 0]

/-- A coercion of texts to numbers for the sample inputs: no text is a
number. -/
def sampleStrToNum (_ : String) : Option Rat := none

/-- A filtered list of 45 players. -/
def samplePlayers : List Player :=
  (List.range 45).map (fun i =>
    { id := i + 1, name := "Player", country := "IND", primary_role := "batsman" })

/-- The number that a value denotes (`0` when it is no number). -/
def numberOf (strToNum : String → Option Rat) (v : JSVal) : Rat :=
  (toNumber strToNum v).getD 0

/-- The decade key under which the era distribution files a record: none when
`span_start` is missing or zero. -/
def eraKey (r : Stat) : Option String :=
  match r.span_start with
  | SpanBound.year n => if n ≠ 0 then some (decadeKey n) else none
  | _ => none

/-- The records that the era distribution puts in the bucket `decade`, in the
order of the snapshot: those of the format whose metric is present and
positive and whose `span_start` gives that decade. -/
def bucketRecords (strToNum : String → Option Rat) (playerStats : List Stat)
    (format metric decade : String) : List Stat :=
  (playerStats.filter (fun r =>
    decide (r.format = format) && metricPositive strToNum metric r)).filter
    (fun r => decide (eraKey r = some decade))

/-- The invariant of the loop that fills `distribution`, after the records
`seen`: keys are distinct, every key holds the values of the records of its
decade in order, and every decade that occurred has its key. -/
def BucketInv (metric : String) (distribution : List (String × List JSVal))
    (seen : List Stat) : Prop :=
  (distribution.map (fun kv => kv.1)).Nodup ∧
  (∀ kv ∈ distribution,
    kv.2 = (seen.filter (fun r => decide (eraKey r = some kv.1))).map
      (fun r => getField r metric)) ∧
  (∀ kv ∈ distribution, kv.2 ≠ []) ∧
  (∀ r ∈ seen, ∀ k, eraKey r = some k → k ∈ distribution.map (fun kv => kv.1))

/-- Four records of the nineties with runs 30, 10, 40 and 20. -/
def sampleEraStats : List Stat :=
  [{ sampleStat "A" "IND" "odi" 30 0 with span_start := SpanBound.year 1990 },
   { sampleStat "B" "IND" "odi" 10 0 with span_start := SpanBound.year 1994 },
   { sampleStat "C" "AUS" "odi" 40 0 with span_start := SpanBound.year 1999 },
   { sampleStat "D" "AUS" "odi" 20 0 with span_start := SpanBound.year 1992 }]

/-- What the specification asks of the entry of country `c` for the records
`seen`: the number of records of the country, the sum of their runs and the
sum of their wickets. -/
def countryTotals (seen : List Stat) (c : String) : CountryEntry :=
  { country := c
    player_count := (seen.filter (fun r => decide (r.player_country = c))).length
    total_runs := ((seen.filter (fun r => decide (r.player_country = c))).map
      (fun r => r.runs)).sum
    total_wickets := ((seen.filter (fun r => decide (r.player_country = c))).map
      (fun r => r.wickets)).sum }

/-- The invariant of the loop that fills `countryStats`, after the records
`seen`: countries are distinct and own no inherited name, every entry holds
the totals of its country, and every country that occurred and is no inherited
name has its entry. -/
def CountryInv (acc : List CountryEntry) (seen : List Stat) : Prop :=
  (acc.map (fun e => e.country)).Nodup ∧
  (∀ e ∈ acc, e = countryTotals seen e.country) ∧
  (∀ e ∈ acc, e.country ∉ objectPrototypeKeys ∧
    e.country ∈ seen.map (fun r => r.player_country)) ∧
  (∀ r ∈ seen, r.player_country ∉ objectPrototypeKeys →
    r.player_country ∈ acc.map (fun e => e.country))

/-- The key of a stat record. -/
def statKey (r : Stat) : String × String :=
  (r.player_name, r.format)

/-- Every opening bracket of the text is followed, later in the text, by a
closing bracket. -/
def parensClosed : List Char → Bool
  | [] => true
  | c :: cs => (decide (c ≠ '(') || decide (')' ∈ cs)) && parensClosed cs

/-- `text.trim()` on strings. -/
def jsTrim (text : String) : String :=
  String.mk (trimChars text.toList)

/-- The resolved identities of the rows of one domain, in the order in which
the pass handles them (`player` reads the `Player` cell). -/
def rowIdentities {ρ : Type} (labels : List String) (files : String → Option (List ρ))
    (player : ρ → String) : List Identity :=
  labels.flatMap (fun label =>
    match files label with
    | none => []
    | some rows => rows.map (fun row => parsePlayer (player row)))

/-- The resolved identities of all rows in the order of the run: batting,
bowling, fielding. -/
def allRowIdentities (batting : String → Option (List BattingRow))
    (bowling : String → Option (List BowlingRow))
    (fielding : String → Option (List FieldingRow)) : List Identity :=
  rowIdentities battingFormats batting BattingRow.Player ++
    (rowIdentities bowlingFormats bowling BowlingRow.Player ++
      rowIdentities fieldingFormats fielding FieldingRow.Player)

/-- The invariant that ties stat records to the registry, after the rows with
resolved identities `ids`: every record carries the id of a registered player
of its name and the country of some row of its name, every registered player
has the country of the first row of its name, and every name seen is
registered. -/
def DenormInv (s : Store) (ids : List Identity) : Prop :=
  (∀ r ∈ s.playerStats, ∃ p ∈ s.players, p.name = r.player_name ∧ p.id = r.player_id) ∧
  (∀ r ∈ s.playerStats,
    ({ name := r.player_name, country := r.player_country } : Identity) ∈ ids) ∧
  (∀ p ∈ s.players,
    ids.find? (fun i => decide (i.name = p.name)) =
      some { name := p.name, country := p.country }) ∧
  (∀ i ∈ ids, playersHas s.players i.name = true)

/-- Two batting rows of one player whose country token differs between the
formats. -/
def jayasuriyaOdiRow : BattingRow :=
  { Player := "ST Jayasuriya (Asia/SL)", Span := "1989-2011", Mat := "445", Inns := "433",
    NO := "18", Runs := "13430", HS := "189", Ave := "", BF := "14725", SR := "",
    col100 := "28", col50 := "68", col4s := "1500", col6s := "270" }

/-- The row of the same player in the T20 file. -/
def jayasuriyaT20Row : BattingRow :=
  { Player := "ST Jayasuriya (SL)", Span := "2006-2011", Mat := "31", Inns := "30",
    NO := "3", Runs := "629", HS := "88", Ave := "", BF := "486", SR := "",
    col100 := "0", col50 := "4", col4s := "76", col6s := "23" }

/-- A registry that holds one player, registered from the row
`ST Jayasuriya (Asia/SL)`. -/
def jayasuriyaStore : Store :=
  battingRowStep sampleParseFloat "ODI data" Store.empty jayasuriyaOdiRow

/-- A bowling row of the same name with another country token. -/
def jayasuriyaBowlingRow : BowlingRow :=
  { Player := "ST Jayasuriya (SL)", Span := "1989-2011", Mat := "445", Inns := "368",
    Wkts := "323", Ave := "", Econ := "", SR := "", BBI := "6/29", col5 := "4", col10 := "0" }

/-- A fielding row of the same name with another country token. -/
def jayasuriyaFieldingRow : FieldingRow :=
  { Player := "ST Jayasuriya (SL)", Mat := "445", Inns := "441", Ct := "123", St := "0" }

/-- A snapshot with two players and the records of the first in two formats. -/
def sampleSnapshotPlayers : List Player :=
  [{ id := 1, name := "A", country := "IND", primary_role := "batsman" },
   { id := 2, name := "B", country := "AUS", primary_role := "bowler" }]

/-- The stat records of the sample snapshot. -/
def sampleSnapshotStats : List Stat :=
  [sampleStat "A" "IND" "odi" 100 0, sampleStat "B" "AUS" "odi" 20 30,
   sampleStat "A" "IND" "test" 50 1]
/-- A filter that is given (present and not empty) is satisfied; a filter that
is not given asks nothing. -/
def passes (param : Option String) (test : String → Bool) : Bool :=
  match param with
  | none => true
  | some value => decide (value = "") || test value

/-- The player satisfies every filter that is given: its name contains the
search text when both are put in lower case, its country and its role are the
requested ones, and some stat record of its name has the requested format. -/
def selected (toLowerCase : String → String) (playerStats : List Stat)
    (search country role format : Option String) (p : Player) : Bool :=
  passes search (fun s => includesChars (toLowerCase p.name).toList (toLowerCase s).toList) &&
  passes country (fun c => decide (p.country = c)) &&
  passes role (fun r => decide (p.primary_role = r)) &&
  passes format (fun f =>
    playerStats.any (fun stat => decide (stat.player_name = p.name ∧ stat.format = f)))

/-- A lower-casing for the sample inputs: ASCII letters only. -/
def sampleToLower (text : String) : String :=
  String.mk (text.toList.map Char.toLower)

/-! ## Dashboard -/

/-- One value of `countryStats` in the dashboard; `players` is the `Set` of
names, in insertion order. -/
structure DashboardCountry where
  country : String
  players : List String
  totalRuns : Int
  totalWickets : Int
deriving DecidableEq

/-- `set.add(name)` on a `Set` of texts. -/
def setAdd (set : List String) (name : String) : List String :=
  if name ∈ set then set else set ++ [name]

/-- The callback of `filteredStats.forEach` in the dashboard; `acc` holds the
own properties of `countryStats` in insertion order.  For a country that names
an inherited member, `countryStats[country]` is that member: the test
`!countryStats[country]` fails, `countryStats[country].players` is `undefined`
and the call of `add` on it throws (`none`). -/
def dashboardCountryStep (acc : List DashboardCountry) (stat : Stat) :
    Option (List DashboardCountry) :=
  let country := stat.player_country
  if country ∈ objectPrototypeKeys then none
  else
    let acc1 :=
      if acc.any (fun e => e.country = country) then acc
      else acc ++ [{ country := country, players := [], totalRuns := 0, totalWickets := 0 }]
    some (acc1.map (fun e =>
      if e.country = country then
        { e with
          players := setAdd e.players stat.player_name
          totalRuns := e.totalRuns + stat.runs
          totalWickets := e.totalWickets + stat.wickets }
      else e))

/-- The loop `filteredStats.forEach` of the dashboard: it stops at the first
record on which the callback throws. -/
def dashboardCountries : List Stat → List DashboardCountry → Option (List DashboardCountry)
  | [], acc => some acc
  | stat :: rest, acc =>
    match dashboardCountryStep acc stat with
    | none => none
    | some acc1 => dashboardCountries rest acc1

/-- One element of `topCountries`. -/
structure TopCountry where
  country : String
  playerCount : Nat
  totalRuns : Int
  totalWickets : Int
deriving DecidableEq

/-- The `summary` of the dashboard. -/
structure DashboardSummary where
  totalPlayers : Nat
  totalStats : Nat
  totalRuns : Int
  totalWickets : Int
  totalMatches : Int
  totalCenturies : Int
  totalFifties : Int
deriving DecidableEq

/-- The body that `GET /api/analytics/dashboard-stats` sends. -/
structure Dashboard where
  summary : DashboardSummary
  topRunScorers : List Stat
  topWicketTakers : List Stat
  topAverages : List Stat
  topCountries : List TopCountry

/-- The handler of `GET /api/analytics/dashboard-stats`; `none` when the
handler throws and sends no body.  The integer fields of a record are numbers,
for which `stat.runs || 0` is `stat.runs`. -/
def dashboardStats (players : List Player) (playerStats : List Stat) (format : String) :
    Option Dashboard :=
  let filteredStats := playerStats.filter (fun stat => stat.format = format)
  let totalRuns := filteredStats.foldl (fun sum stat => sum + stat.runs) 0
  let totalWickets := filteredStats.foldl (fun sum stat => sum + stat.wickets) 0
  let totalMatches := filteredStats.foldl (fun sum stat => sum + stat.matchesPlayed) 0
  let totalCenturies := filteredStats.foldl (fun sum stat => sum + stat.hundreds) 0
  let totalFifties := filteredStats.foldl (fun sum stat => sum + stat.fifties) 0
  let topRunScorers := jsSlice
    (jsSort (fun a b => some ((b.runs : Rat) - (a.runs : Rat)))
      (filteredStats.filter (fun stat => decide (stat.runs > 0)))) 0 5
  let topWicketTakers := jsSlice
    (jsSort (fun a b => some ((b.wickets : Rat) - (a.wickets : Rat)))
      (filteredStats.filter (fun stat => decide (stat.wickets > 0)))) 0 5
  let topAverages := jsSlice
    (jsSort (fun a b => some (b.average - a.average))
      (filteredStats.filter (fun stat => decide (stat.average > 0) && decide (stat.runs > 1000))))
    0 5
  match dashboardCountries filteredStats [] with
  | none => none
  | some countryStats =>
    let values := (ownProperties (countryStats.map (fun e => (e.country, e)))).map
      (fun kv => kv.2)
    let topCountries := jsSlice
      (jsSort (fun a b => some ((b.totalRuns : Rat) - (a.totalRuns : Rat)))
        (values.map (fun data =>
          { country := data.country
            playerCount := data.players.length
            totalRuns := data.totalRuns
            totalWickets := data.totalWickets }))) 0 10
    some
      { summary :=
          { totalPlayers := players.length
            totalStats := playerStats.length
            totalRuns := totalRuns
            totalWickets := totalWickets
            totalMatches := totalMatches
            totalCenturies := totalCenturies
            totalFifties := totalFifties }
        topRunScorers := topRunScorers
        topWicketTakers := topWicketTakers
        topAverages := topAverages
        topCountries := topCountries }

/-! ## Notions for the statements on the era distribution and the dashboard -/

/-- The record has a `span_start`: the field holds a year (it is not `null`). -/
def hasSpanStart (r : Stat) : Bool :=
  match r.span_start with
  | SpanBound.year _ => true
  | _ => false

/-- A record with runs whose span cell was `0-5`: its `span_start` is the
year zero. -/
def zeroYearStat : Stat :=
  { sampleStat "A" "IND" "odi" 100 0 with span_start := (parseSpan "0-5").start }

/-- The distinct names of a list, in the order of their first occurrence, as a
`Set` collects them. -/
def distinctNames (names : List String) : List String :=
  names.foldl setAdd []

/-- What the dashboard holds for the country `c` after the records `seen`: the
distinct names of the records of the country and the sums of their runs and
wickets. -/
def dashboardTotals (seen : List Stat) (c : String) : DashboardCountry :=
  { country := c
    players := distinctNames ((seen.filter (fun r => decide (r.player_country = c))).map
      (fun r => r.player_name))
    totalRuns := ((seen.filter (fun r => decide (r.player_country = c))).map
      (fun r => r.runs)).sum
    totalWickets := ((seen.filter (fun r => decide (r.player_country = c))).map
      (fun r => r.wickets)).sum }

/-- The invariant of the loop that fills `countryStats` in the dashboard,
after the records `seen`. -/
def DashboardInv (acc : List DashboardCountry) (seen : List Stat) : Prop :=
  (acc.map (fun e => e.country)).Nodup ∧
  (∀ e ∈ acc, e = dashboardTotals seen e.country) ∧
  (∀ e ∈ acc, e.country ∈ seen.map (fun r => r.player_country)) ∧
  (∀ r ∈ seen, r.player_country ∈ acc.map (fun e => e.country))

/-- Two records of the format, the second with the country `constructor`. -/
def inheritedCountryStats : List Stat :=
  [sampleStat "A" "IND" "odi" 100 0, sampleStat "B" "constructor" "odi" 50 0]

/-- Two records of the format for `IND`, with runs 100 and 200. -/
def indiaStats : List Stat :=
  [sampleStat "A" "IND" "odi" 100 0, sampleStat "B" "IND" "odi" 200 0]

/-! ## Theorems -/

/-! ### The role pass -/

theorem any_filter_name_iff (stats : List Stat) (name : String) (q : Stat → Prop)
    [DecidablePred q] :
    ((stats.filter (fun stat => stat.player_name = name)).any (fun stat => decide (q stat)) = true)
      ↔ ∃ r ∈ stats, r.player_name = name ∧ q r := by
  simp only [List.any_eq_true, List.mem_filter, decide_eq_true_eq]
  constructor
  · rintro ⟨r, ⟨hr, hn⟩, hq⟩
    exact ⟨r, hr, hn, hq⟩
  · rintro ⟨r, hr, hn, hq⟩
    exact ⟨r, ⟨hr, hn⟩, hq⟩

theorem classifyRole_rule (stats : List Stat) (player : Player) :
    RoleRule stats player.name (classifyRole stats player) := by
  have hb := any_filter_name_iff stats player.name (fun r => r.wickets > 0)
  have hr := any_filter_name_iff stats player.name (fun r => r.runs > 1000)
  have hf := any_filter_name_iff stats player.name (fun r => r.stumpings > 0)
  unfold RoleRule HasBowling HasBatting HasFielding classifyRole
  simp only []
  rw [← hb, ← hr, ← hf]
  cases h1 : (stats.filter (fun stat => stat.player_name = player.name)).any
      (fun stat => decide (stat.wickets > 0)) <;>
  cases h2 : (stats.filter (fun stat => stat.player_name = player.name)).any
      (fun stat => decide (stat.runs > 1000)) <;>
  cases h3 : (stats.filter (fun stat => stat.player_name = player.name)).any
      (fun stat => decide (stat.stumpings > 0)) <;>
  simp

/-- C1: the role pass leaves the stat records and the id, name and country of
every player as they were, and gives every player, whatever role it had, the
role that the rule of the specification names for the final stat records:
all-rounder iff some record of the player has wickets > 0 and some record has
runs > 1000, otherwise bowler iff some record has wickets > 0, otherwise
wicket-keeper iff some record has stumpings > 0, otherwise batsman. -/
theorem rolePass_assigns_role (s : Store) :
    (rolePass s).playerStats = s.playerStats ∧
    List.Forall₂
      (fun before after =>
        after.id = before.id ∧ after.name = before.name ∧ after.country = before.country ∧
        RoleRule (rolePass s).playerStats after.name after.primary_role)
      s.players (rolePass s).players := by
  refine ⟨rfl, ?_⟩
  unfold rolePass
  simp only [List.forall₂_map_right_iff]
  apply List.forall₂_same.2
  intro p _
  exact ⟨rfl, rfl, rfl, classifyRole_rule s.playerStats p⟩

/-! ### The registry and the stat list under one row -/

/-- The map after the `if (!players.has(name)) players.set(...)` of a row. -/
theorem playersGet_after_ensure (players : List Player) (name : String) (p : Player)
    (hp : p.name = name) :
    ∃ q, playersGet (if !playersHas players name then playersSet players name p else players)
      name = some q := by
  by_cases h : playersHas players name = true
  · simp only [h, Bool.not_true, Bool.false_eq_true, if_false]
    unfold playersHas at h
    unfold playersGet
    rw [List.any_eq_true] at h
    obtain ⟨x, hx, hxn⟩ := h
    cases hf : players.find? (fun p => decide (p.name = name)) with
    | some q => exact ⟨q, rfl⟩
    | none =>
      rw [List.find?_eq_none] at hf
      exact absurd hxn (hf x hx)
  · have h2 : playersHas players name = false := by simpa using h
    simp only [h2, Bool.not_false, if_true, playersSet, Bool.false_eq_true, if_false]
    unfold playersHas at h2
    unfold playersGet
    refine ⟨p, ?_⟩
    rw [List.find?_append]
    have : players.find? (fun p => decide (p.name = name)) = none := by
      rw [List.find?_eq_none]
      intro x hx
      have := (List.any_eq_false.1 h2) x hx
      simpa using this
    simp [this, hp]

theorem updateFirst_split (pred : Stat → Bool) (f : Stat → Stat) (l : List Stat)
    (h : l.any pred = true) :
    ∃ before old after, l = before ++ old :: after ∧ (∀ r ∈ before, pred r = false) ∧
      pred old = true ∧ updateFirst pred f l = before ++ f old :: after := by
  induction l with
  | nil => simp at h
  | cons r rs ih =>
    by_cases hr : pred r = true
    · exact ⟨[], r, rs, rfl, by simp, hr, by simp [updateFirst, hr]⟩
    · have hr2 : pred r = false := by simpa using hr
      have h2 : rs.any pred = true := by simpa [List.any_cons, hr2] using h
      obtain ⟨b, o, a, e1, e2, e3, e4⟩ := ih h2
      refine ⟨r :: b, o, a, by simp [e1], ?_, e3, ?_⟩
      · intro x hx
        rcases List.mem_cons.1 hx with rfl | hx
        · exact hr2
        · exact e2 x hx
      · simp [updateFirst, hr2, e4]

theorem bowlingRowStep_stats_of_existing (parseFloat : String → Option Rat) (format : String)
    (s : Store) (row : BowlingRow)
    (h : s.playerStats.any (fun stat =>
      decide (stat.player_name = (parsePlayer row.Player).name ∧
        stat.format = formatOfLabel "bowling_" format)) = true) :
    (bowlingRowStep parseFloat format s row).playerStats =
      updateFirst (fun stat =>
        decide (stat.player_name = (parsePlayer row.Player).name ∧
          stat.format = formatOfLabel "bowling_" format))
        (bowlingUpdate parseFloat row) s.playerStats := by
  obtain ⟨q, hq⟩ := playersGet_after_ensure s.players (parsePlayer row.Player).name
    { id := s.players.length + 1, name := (parsePlayer row.Player).name,
      country := (parsePlayer row.Player).country, primary_role := "bowler" } rfl
  unfold bowlingRowStep
  simp only [hq, h, if_true]

/-- C3: when the store holds a record for the key of a bowling row, the row
step keeps the number of stat records, keeps every record except the first
one with that key, and in that record writes only `wickets`,
`bowling_average`, `bowling_economy`, `bowling_strike_rate`, `best_bowling`,
`five_wickets` and `ten_wickets`: the identity fields, the span, every batting
field and every fielding field keep their values. -/
theorem bowlingRowStep_frame (parseFloat : String → Option Rat) (format : String)
    (s : Store) (row : BowlingRow)
    (h : ∃ r ∈ s.playerStats, r.player_name = (parsePlayer row.Player).name ∧
      r.format = formatOfLabel "bowling_" format) :
    (bowlingRowStep parseFloat format s row).playerStats.length = s.playerStats.length ∧
    ∃ before old after new,
      s.playerStats = before ++ old :: after ∧
      (bowlingRowStep parseFloat format s row).playerStats = before ++ new :: after ∧
      (∀ r ∈ before, ¬ (r.player_name = (parsePlayer row.Player).name ∧
        r.format = formatOfLabel "bowling_" format)) ∧
      (old.player_name = (parsePlayer row.Player).name ∧
        old.format = formatOfLabel "bowling_" format) ∧
      new = { old with
        wickets := intOrZero row.Wkts
        bowling_average := floatOrZero parseFloat row.Ave
        bowling_economy := floatOrZero parseFloat row.Econ
        bowling_strike_rate := floatOrZero parseFloat row.SR
        best_bowling := some row.BBI
        five_wickets := some (intOrZero row.col5)
        ten_wickets := some (intOrZero row.col10) } ∧
      new.player_id = old.player_id ∧ new.player_name = old.player_name ∧
      new.player_country = old.player_country ∧ new.format = old.format ∧
      new.span_start = old.span_start ∧ new.span_end = old.span_end ∧
      new.matchesPlayed = old.matchesPlayed ∧ new.innings = old.innings ∧
      new.not_out = old.not_out ∧ new.runs = old.runs ∧ new.highest = old.highest ∧
      new.average = old.average ∧ new.balls_faced = old.balls_faced ∧
      new.strike_rate = old.strike_rate ∧ new.hundreds = old.hundreds ∧
      new.fifties = old.fifties ∧ new.fours = old.fours ∧ new.sixes = old.sixes ∧
      new.catches = old.catches ∧ new.stumpings = old.stumpings := by
  have hany : s.playerStats.any (fun stat =>
      decide (stat.player_name = (parsePlayer row.Player).name ∧
        stat.format = formatOfLabel "bowling_" format)) = true := by
    rw [List.any_eq_true]
    obtain ⟨r, hr, hk⟩ := h
    exact ⟨r, hr, by simpa using hk⟩
  rw [bowlingRowStep_stats_of_existing parseFloat format s row hany]
  obtain ⟨b, o, a, e1, e2, e3, e4⟩ :=
    updateFirst_split _ (bowlingUpdate parseFloat row) s.playerStats hany
  refine ⟨by rw [e4, e1]; simp, b, o, a, bowlingUpdate parseFloat row o, e1, e4, ?_, ?_, ?_⟩
  · intro r hr
    simpa using e2 r hr
  · simpa using e3
  · simp [bowlingUpdate]

/-- The scenario of the specification as an instance of C3: after the batting
row of Sachin Tendulkar (runs 18426, average 44.83), a bowling row for the same
name and format keeps the single record, its runs and its average, and sets its
wickets. -/
theorem bowlingRowStep_frame_witness :
    (∃ r ∈ (battingRowStep sampleParseFloat "ODI data" Store.empty sachinBattingRow).playerStats,
      r.player_name = (parsePlayer sachinBowlingRow.Player).name ∧
      r.format = formatOfLabel "bowling_" "Bowling_ODI") ∧
    (bowlingRowStep sampleParseFloat "Bowling_ODI"
        (battingRowStep sampleParseFloat "ODI data" Store.empty sachinBattingRow)
        sachinBowlingRow).playerStats.length =
      (battingRowStep sampleParseFloat "ODI data" Store.empty sachinBattingRow).playerStats.length ∧
    (battingRowStep sampleParseFloat "ODI data" Store.empty sachinBattingRow).players =
      [{ id := 1, name := "Sachin Tendulkar", country := "IND", primary_role := "batsman" }] ∧
    (battingRowStep sampleParseFloat "ODI data" Store.empty sachinBattingRow).playerStats.map
      (fun r => (r.runs, r.average, r.wickets)) = [(18426, 4483 / 100, 0)] ∧
    (bowlingRowStep sampleParseFloat "Bowling_ODI"
        (battingRowStep sampleParseFloat "ODI data" Store.empty sachinBattingRow)
        sachinBowlingRow).playerStats.map
      (fun r => (r.runs, r.average, r.wickets)) = [(18426, 4483 / 100, 154)] :=
  ⟨by decide,
   (bowlingRowStep_frame sampleParseFloat "Bowling_ODI"
      (battingRowStep sampleParseFloat "ODI data" Store.empty sachinBattingRow)
      sachinBowlingRow (by decide)).1,
   by decide, by rfl, by rfl⟩

/-! ### Duplicate keys -/

/-- C2, the code at the failing input: a batting file that lists one player
twice leaves two stat records with the same `(player_name, format)`, so the
keys of the stat list are not distinct. -/
theorem battingRowStep_duplicate_key :
    (mergeAll sampleParseFloat
        (fun label => if label = "ODI data" then some [sachinBattingRow, sachinBattingRow] else none)
        (fun _ => none) (fun _ => none)).playerStats.map statKey =
      [("Sachin Tendulkar", "odi"), ("Sachin Tendulkar", "odi")] ∧
    ¬ ((mergeAll sampleParseFloat
        (fun label => if label = "ODI data" then some [sachinBattingRow, sachinBattingRow] else none)
        (fun _ => none) (fun _ => none)).playerStats.map statKey).Nodup := by
  have h : (mergeAll sampleParseFloat
        (fun label => if label = "ODI data" then some [sachinBattingRow, sachinBattingRow] else none)
        (fun _ => none) (fun _ => none)).playerStats.map statKey =
      [("Sachin Tendulkar", "odi"), ("Sachin Tendulkar", "odi")] := by
    decide
  refine ⟨h, ?_⟩
  rw [h]
  decide

theorem mem_firstSeen (ns : List String) (x : String) : x ∈ firstSeen ns ↔ x ∈ ns := by
  simp [firstSeen]

theorem firstSeen_nodup (ns : List String) : (firstSeen ns).Nodup := by
  simp [firstSeen, List.nodup_reverse, List.nodup_dedup]

/-- A name that returns later keeps its first place. -/
theorem firstSeen_sample : firstSeen ["a", "b", "a", "c", "b"] = ["a", "b", "c"] := by
  decide

theorem firstSeen_snoc (ns : List String) (x : String) :
    firstSeen (ns ++ [x]) = if x ∈ firstSeen ns then firstSeen ns else firstSeen ns ++ [x] := by
  unfold firstSeen
  rw [List.reverse_append]
  simp only [List.reverse_cons, List.reverse_nil, List.nil_append, List.singleton_append]
  by_cases h : x ∈ ns
  · have h2 : x ∈ ns.reverse := by simpa using h
    rw [List.dedup_cons_of_mem h2]
    simp [h]
  · have h2 : x ∉ ns.reverse := by simpa using h
    rw [List.dedup_cons_of_not_mem h2]
    simp [h]

theorem playersHas_iff (players : List Player) (name : String) :
    playersHas players name = true ↔ name ∈ players.map (fun p => p.name) := by
  unfold playersHas
  simp only [List.any_eq_true, decide_eq_true_eq, List.mem_map]

/-- The registry part of a row: the map after `if (!players.has(name))
players.set(name, p)` for a new entry `p` with the next id. -/
theorem ensure_registry (players : List Player) (name : String) (p : Player) (ns : List String)
    (hp : p.name = name) (hid : p.id = players.length + 1)
    (h1 : players.map (fun p => p.name) = firstSeen ns)
    (h2 : players.map (fun p => p.id) = List.range' 1 players.length) :
    (if !playersHas players name then playersSet players name p else players).map
        (fun p => p.name) = firstSeen (ns ++ [name]) ∧
    (if !playersHas players name then playersSet players name p else players).map
        (fun p => p.id) =
      List.range' 1 (if !playersHas players name then playersSet players name p else players).length := by
  rw [firstSeen_snoc]
  by_cases h : playersHas players name = true
  · have hm : name ∈ firstSeen ns := by
      rw [← h1]; exact (playersHas_iff players name).1 h
    simp [h, hm, h1, h2]
  · have hf : playersHas players name = false := by simpa using h
    have hm : name ∉ firstSeen ns := by
      rw [← h1]; intro hc; exact h ((playersHas_iff players name).2 hc)
    simp only [hf, Bool.not_false, if_true, playersSet, Bool.false_eq_true, if_false, hm,
      List.map_append, List.map_cons, List.map_nil, h1, hp, h2, hid, List.length_append,
      List.length_cons, List.length_nil, true_and]
    rw [Nat.zero_add, List.range'_1_concat, Nat.add_comm 1]

theorem updateFirst_names (pred : Stat → Bool) (f : Stat → Stat)
    (hf : ∀ r, (f r).player_name = r.player_name) (l : List Stat) :
    (updateFirst pred f l).map (fun r => r.player_name) = l.map (fun r => r.player_name) := by
  induction l with
  | nil => rfl
  | cons r rs ih =>
    by_cases hr : pred r = true
    · simp [updateFirst, hr, hf]
    · simp [updateFirst, hr, ih]

theorem names_subset_of_map_eq {l1 l2 : List Stat} {ns : List String}
    (h : l1.map (fun r => r.player_name) = l2.map (fun r => r.player_name))
    (h2 : ∀ r ∈ l2, r.player_name ∈ ns) : ∀ r ∈ l1, r.player_name ∈ ns := by
  intro r hr
  have : r.player_name ∈ l1.map (fun r => r.player_name) := List.mem_map_of_mem _ hr
  rw [h] at this
  obtain ⟨r2, hr2, e⟩ := List.mem_map.1 this
  rw [← e]
  exact h2 r2 hr2

theorem battingRowStep_inv (parseFloat : String → Option Rat) (format : String) (s : Store)
    (row : BattingRow) (ns : List String) (h : RegistryInv s ns) :
    RegistryInv (battingRowStep parseFloat format s row)
      (ns ++ [(parsePlayer row.Player).name]) := by
  obtain ⟨h1, h2, h3⟩ := h
  obtain ⟨e1, e2⟩ := ensure_registry s.players (parsePlayer row.Player).name
    { id := s.players.length + 1, name := (parsePlayer row.Player).name,
      country := (parsePlayer row.Player).country, primary_role := "batsman" } ns rfl rfl h1 h2
  unfold battingRowStep
  simp only []
  split
  · refine ⟨e1, e2, ?_⟩
    intro r hr
    exact List.mem_append_left _ (h3 r hr)
  · refine ⟨e1, e2, ?_⟩
    intro r hr
    rcases List.mem_append.1 hr with hr | hr
    · exact List.mem_append_left _ (h3 r hr)
    · rw [List.mem_singleton] at hr
      subst hr
      simp

theorem bowlingRowStep_inv (parseFloat : String → Option Rat) (format : String) (s : Store)
    (row : BowlingRow) (ns : List String) (h : RegistryInv s ns) :
    RegistryInv (bowlingRowStep parseFloat format s row)
      (ns ++ [(parsePlayer row.Player).name]) := by
  obtain ⟨h1, h2, h3⟩ := h
  obtain ⟨e1, e2⟩ := ensure_registry s.players (parsePlayer row.Player).name
    { id := s.players.length + 1, name := (parsePlayer row.Player).name,
      country := (parsePlayer row.Player).country, primary_role := "bowler" } ns rfl rfl h1 h2
  unfold bowlingRowStep
  simp only []
  split
  · refine ⟨e1, e2, ?_⟩
    intro r hr
    exact List.mem_append_left _ (h3 r hr)
  · split
    · refine ⟨e1, e2, ?_⟩
      intro r hr
      refine List.mem_append_left _ (names_subset_of_map_eq ?_ h3 r hr)
      exact updateFirst_names _ (bowlingUpdate parseFloat row) (fun r => rfl) _
    · refine ⟨e1, e2, ?_⟩
      intro r hr
      rcases List.mem_append.1 hr with hr | hr
      · exact List.mem_append_left _ (h3 r hr)
      · rw [List.mem_singleton] at hr
        subst hr
        simp

theorem fieldingRowStep_inv (format : String) (s : Store)
    (row : FieldingRow) (ns : List String) (h : RegistryInv s ns) :
    RegistryInv (fieldingRowStep format s row)
      (ns ++ [(parsePlayer row.Player).name]) := by
  obtain ⟨h1, h2, h3⟩ := h
  unfold fieldingRowStep
  simp only []
  split
  · rename_i hany
    rw [List.any_eq_true] at hany
    obtain ⟨r0, hr0, hk⟩ := hany
    have hn : r0.player_name = (parsePlayer row.Player).name := by
      have := hk; simp only [decide_eq_true_eq] at this; exact this.1
    have hmem : (parsePlayer row.Player).name ∈ firstSeen ns := by
      rw [mem_firstSeen, ← hn]; exact h3 r0 hr0
    refine ⟨?_, h2, ?_⟩
    · rw [firstSeen_snoc, if_pos hmem]; exact h1
    · intro r hr
      refine List.mem_append_left _ (names_subset_of_map_eq ?_ h3 r hr)
      exact updateFirst_names _ (fieldingUpdate row) (fun r => rfl) _
  · by_cases hh : playersHas s.players (parsePlayer row.Player).name = true
    · have hmem : (parsePlayer row.Player).name ∈ firstSeen ns := by
        rw [← h1]; exact (playersHas_iff _ _).1 hh
      refine ⟨?_, ?_, ?_⟩
      · simp only [hh, Bool.not_true, Bool.false_eq_true, if_false]
        rw [firstSeen_snoc, if_pos hmem]; exact h1
      · simp only [hh, Bool.not_true, Bool.false_eq_true, if_false]
        exact h2
      · intro r hr
        rcases List.mem_append.1 hr with hr | hr
        · exact List.mem_append_left _ (h3 r hr)
        · rw [List.mem_singleton] at hr
          subst hr
          simp
    · have hf : playersHas s.players (parsePlayer row.Player).name = false := by simpa using hh
      have hget : playersGet s.players (parsePlayer row.Player).name = none := by
        unfold playersGet
        rw [List.find?_eq_none]
        intro x hx
        have := (List.any_eq_false.1 hf) x hx
        simpa using this
      obtain ⟨e1, e2⟩ := ensure_registry s.players (parsePlayer row.Player).name
        { id := s.players.length + 1, name := (parsePlayer row.Player).name,
          country := (parsePlayer row.Player).country, primary_role := "wicket-keeper" }
        ns rfl rfl h1 h2
      simp only [hget]
      refine ⟨e1, e2, ?_⟩
      intro r hr
      rcases List.mem_append.1 hr with hr | hr
      · exact List.mem_append_left _ (h3 r hr)
      · rw [List.mem_singleton] at hr
        subst hr
        simp

theorem foldl_rows_inv {ρ : Type} (step : Store → ρ → Store) (player : ρ → String)
    (hstep : ∀ s row ns, RegistryInv s ns →
      RegistryInv (step s row) (ns ++ [(parsePlayer (player row)).name]))
    (rows : List ρ) (s : Store) (ns : List String) (h : RegistryInv s ns) :
    RegistryInv (rows.foldl step s)
      (ns ++ rows.map (fun row => (parsePlayer (player row)).name)) := by
  induction rows generalizing s ns with
  | nil => simpa using h
  | cons row rows ih =>
    have := ih (step s row) _ (hstep s row ns h)
    simpa [List.append_assoc] using this

theorem processFiles_inv {ρ : Type} (labels : List String) (step : String → Store → ρ → Store)
    (player : ρ → String) (files : String → Option (List ρ))
    (hstep : ∀ label s row ns, RegistryInv s ns →
      RegistryInv (step label s row) (ns ++ [(parsePlayer (player row)).name]))
    (s : Store) (ns : List String) (h : RegistryInv s ns) :
    RegistryInv (processFiles labels step files s) (ns ++ rowNames labels files player) := by
  unfold processFiles rowNames
  induction labels generalizing s ns with
  | nil => simpa using h
  | cons label labels ih =>
    simp only [List.foldl_cons, List.flatMap_cons]
    cases hfile : files label with
    | none =>
      simpa using ih s ns h
    | some rows =>
      have := ih _ _ (foldl_rows_inv (step label) player (hstep label) rows s ns h)
      simpa [List.append_assoc] using this

/-- C4: after the three passes from the empty store, the registry lists the
distinct resolved names of all rows in the order in which they were first seen,
one Player per name, and the ids of the players in that order are
`1, 2, ..., n`. -/
theorem registry_ids_dense (parseFloat : String → Option Rat)
    (batting : String → Option (List BattingRow))
    (bowling : String → Option (List BowlingRow))
    (fielding : String → Option (List FieldingRow)) :
    (mergeAll parseFloat batting bowling fielding).players.map (fun p => p.name) =
      firstSeen (allRowNames batting bowling fielding) ∧
    ((mergeAll parseFloat batting bowling fielding).players.map (fun p => p.name)).Nodup ∧
    (∀ name, name ∈ allRowNames batting bowling fielding ↔
      name ∈ (mergeAll parseFloat batting bowling fielding).players.map (fun p => p.name)) ∧
    (mergeAll parseFloat batting bowling fielding).players.map (fun p => p.id) =
      List.range' 1 (mergeAll parseFloat batting bowling fielding).players.length := by
  have h0 : RegistryInv Store.empty [] := by
    refine ⟨by simp [Store.empty, firstSeen], by simp [Store.empty], by simp [Store.empty]⟩
  have h1 := processFiles_inv battingFormats (battingRowStep parseFloat) BattingRow.Player
    batting (fun label s row ns h => battingRowStep_inv parseFloat label s row ns h) _ _ h0
  have h2 := processFiles_inv bowlingFormats (bowlingRowStep parseFloat) BowlingRow.Player
    bowling (fun label s row ns h => bowlingRowStep_inv parseFloat label s row ns h) _ _ h1
  have h3 := processFiles_inv fieldingFormats fieldingRowStep FieldingRow.Player
    fielding (fun label s row ns h => fieldingRowStep_inv label s row ns h) _ _ h2
  have h4 : RegistryInv (mergeAll parseFloat batting bowling fielding)
      (allRowNames batting bowling fielding) := by
    simpa [mergeAll, processBattingData, processBowlingData, processFieldingData, allRowNames,
      List.append_assoc] using h3
  obtain ⟨a, b, _⟩ := h4
  refine ⟨a, ?_, ?_, b⟩
  · rw [a]; exact firstSeen_nodup _
  · intro name
    rw [a, mem_firstSeen]

/-! ### Slices and sorts -/

theorem relIndex_natCast (len n : Nat) : relIndex len (n : Int) = min n len := by
  unfold relIndex
  have : ¬ ((n : Int) < 0) := by omega
  simp [this]

theorem jsSlice_zero_natCast {α : Type} (l : List α) (n : Nat) :
    jsSlice l 0 (n : Int) = l.take n := by
  unfold jsSlice
  rw [relIndex_natCast]
  have h0 : relIndex l.length 0 = 0 := by simp [relIndex]
  rw [h0]
  simp only [List.drop_zero, Nat.sub_zero]
  rcases Nat.le_total n l.length with h | h
  · rw [Nat.min_eq_left h]
  · rw [Nat.min_eq_right h, List.take_of_length_le (le_refl _), List.take_of_length_le h]

theorem jsSlice_sublist {α : Type} (l : List α) (a b : Int) : (jsSlice l a b).Sublist l := by
  unfold jsSlice
  exact (List.take_sublist _ _).trans (List.drop_sublist _ _)

theorem orderedInsert_congr {α : Type} (r r2 : α → α → Prop) [DecidableRel r] [DecidableRel r2]
    (a : α) (l : List α) (h : ∀ b ∈ l, (r a b ↔ r2 a b)) :
    List.orderedInsert r a l = List.orderedInsert r2 a l := by
  induction l with
  | nil => rfl
  | cons b l ih =>
    have hb := h b (List.mem_cons_self _ _)
    by_cases hr : r a b
    · have hr2 : r2 a b := hb.1 hr
      simp [List.orderedInsert, hr, hr2]
    · have hr2 : ¬ r2 a b := fun hc => hr (hb.2 hc)
      simp only [List.orderedInsert, hr, hr2, if_false]
      rw [ih (fun c hc => h c (List.mem_cons_of_mem _ hc))]

theorem insertionSort_congr {α : Type} (r r2 : α → α → Prop) [DecidableRel r] [DecidableRel r2]
    (l : List α) (h : ∀ a ∈ l, ∀ b ∈ l, (r a b ↔ r2 a b)) :
    List.insertionSort r l = List.insertionSort r2 l := by
  induction l with
  | nil => rfl
  | cons a l ih =>
    simp only [List.insertionSort]
    rw [ih (fun x hx y hy => h x (List.mem_cons_of_mem _ hx) y (List.mem_cons_of_mem _ hy))]
    apply orderedInsert_congr
    intro b hb
    have hb2 : b ∈ l := (List.perm_insertionSort r2 l).subset hb
    exact h a (List.mem_cons_self _ _) b (List.mem_cons_of_mem _ hb2)

/-- A sort by a comparator that, on the elements of the list, is the sign of
a difference of keys: the result is a rearrangement, ordered by the key, and
elements with equal keys keep their order. -/
theorem jsSort_by_key {α : Type} (cmp : α → α → Option Rat) (key : α → Rat) (l : List α)
    (h : ∀ a ∈ l, ∀ b ∈ l, cmp a b = some (key a - key b)) :
    (jsSort cmp l).Perm l ∧
    (jsSort cmp l).Pairwise (fun a b => key a ≤ key b) ∧
    ∀ v : Rat, (jsSort cmp l).filter (fun a => decide (key a = v)) =
      l.filter (fun a => decide (key a = v)) := by
  have hcongr : jsSort cmp l = l.insertionSort (fun a b => key a ≤ key b) := by
    unfold jsSort
    apply insertionSort_congr
    intro a ha b hb
    unfold notAfter
    rw [h a ha b hb]
    simp
  haveI : IsTotal α (fun a b => key a ≤ key b) := ⟨fun a b => le_total _ _⟩
  haveI : IsTrans α (fun a b => key a ≤ key b) := ⟨fun a b c hab hbc => le_trans hab hbc⟩
  rw [hcongr]
  refine ⟨List.perm_insertionSort _ l, List.sorted_insertionSort _ l, ?_⟩
  intro v
  have hsub : (l.filter (fun a => decide (key a = v))).Sublist
      (l.insertionSort (fun a b => key a ≤ key b)) := by
    apply List.sublist_insertionSort
    · rw [List.pairwise_iff_forall_sublist]
      intro a b hab
      have ha : a ∈ l.filter (fun a => decide (key a = v)) := hab.subset (by simp)
      have hb : b ∈ l.filter (fun a => decide (key a = v)) := hab.subset (by simp)
      simp only [List.mem_filter, decide_eq_true_eq] at ha hb
      rw [ha.2, hb.2]
    · exact List.filter_sublist _
  have hsub2 : (l.filter (fun a => decide (key a = v))).Sublist
      ((l.insertionSort (fun a b => key a ≤ key b)).filter (fun a => decide (key a = v))) := by
    have := hsub.filter (fun a => decide (key a = v))
    simpa [List.filter_filter] using this
  have hperm : ((l.insertionSort (fun a b => key a ≤ key b)).filter
      (fun a => decide (key a = v))).Perm (l.filter (fun a => decide (key a = v))) :=
    (List.perm_insertionSort _ l).filter _
  exact (hsub2.eq_of_length hperm.length_eq.symm).symm
/-! ### Leaderboard -/

theorem leaderboard_filter_eq (strToNum : String → Option Rat) (type : String) (r : Stat) :
    (truthy (getField r type) && gtZero strToNum (getField r type) &&
      !jsIsNaN strToNum (getField r type)) = metricPositive strToNum type r := by
  unfold metricPositive gtZero jsIsNaN
  cases hv : getField r type with
  | undefined => simp [truthy]
  | null => simp [truthy]
  | num q =>
    simp only [truthy, toNumber, Option.isNone_some, Bool.not_false, Bool.and_true]
    by_cases hq : 0 < q
    · have : q ≠ 0 := ne_of_gt hq
      simp [hq, this]
    · simp [hq]
  | str s =>
    by_cases hs : s = ""
    · simp [truthy, toNumber, hs]
    · cases hn : strToNum s with
      | none => simp [truthy, toNumber, hs, hn]
      | some q => simp [truthy, toNumber, hs, hn]

theorem leaderboard_filtered_eq (strToNum : String → Option Rat) (playerStats : List Stat)
    (format type : String) :
    (playerStats.filter (fun stat => decide (stat.format = format))).filter (fun stat =>
      truthy (getField stat type) && gtZero strToNum (getField stat type) &&
        !jsIsNaN strToNum (getField stat type)) = ranked strToNum playerStats format type := by
  unfold ranked
  rw [List.filter_filter]
  congr 1
  funext r
  rw [leaderboard_filter_eq, Bool.and_comm]

theorem metricPositive_spec (strToNum : String → Option Rat) (type : String) (r : Stat)
    (h : metricPositive strToNum type r = true) :
    truthy (getField r type) = true ∧
    toNumber strToNum (getField r type) = some (metricNumber strToNum type r) ∧
    0 < metricNumber strToNum type r := by
  have h2 := h
  rw [← leaderboard_filter_eq] at h2
  simp only [Bool.and_eq_true] at h2
  obtain ⟨⟨ht, hg⟩, _⟩ := h2
  unfold gtZero at hg
  unfold metricNumber
  cases hn : toNumber strToNum (getField r type) with
  | none => simp [hn] at hg
  | some q =>
    rw [hn] at hg
    exact ⟨ht, rfl, by simpa using hg⟩

theorem leaderboard_cmp (strToNum : String → Option Rat) (type : String) (a b : Stat)
    (ha : metricPositive strToNum type a = true) (hb : metricPositive strToNum type b = true) :
    jsSub strToNum (orZero (getField b type)) (orZero (getField a type)) =
      some ((- metricNumber strToNum type a) - (- metricNumber strToNum type b)) := by
  obtain ⟨ta, na, _⟩ := metricPositive_spec strToNum type a ha
  obtain ⟨tb, nb, _⟩ := metricPositive_spec strToNum type b hb
  unfold jsSub orZero
  simp only [ta, tb, if_true, na, nb]
  congr 1
  ring

/-- The sorted array of the leaderboard handler, before the slice. -/
theorem leaderboard_sorted (strToNum : String → Option Rat) (playerStats : List Stat)
    (format type : String) :
    ∃ full : List Stat,
      (∀ limit : Int, leaderboard strToNum playerStats format type limit = jsSlice full 0 limit) ∧
      full.Perm (ranked strToNum playerStats format type) ∧
      full.Pairwise (fun a b => metricNumber strToNum type b ≤ metricNumber strToNum type a) ∧
      ∀ v : Rat, full.filter (fun r => decide (metricNumber strToNum type r = v)) =
        (ranked strToNum playerStats format type).filter
          (fun r => decide (metricNumber strToNum type r = v)) := by
  have hpos : ∀ a ∈ ranked strToNum playerStats format type,
      metricPositive strToNum type a = true := by
    intro a ha
    unfold ranked at ha
    simp only [List.mem_filter, Bool.and_eq_true] at ha
    exact ha.2.2
  obtain ⟨h1, h2, h3⟩ := jsSort_by_key
    (fun a b => jsSub strToNum (orZero (getField b type)) (orZero (getField a type)))
    (fun r => - metricNumber strToNum type r) (ranked strToNum playerStats format type)
    (fun a ha b hb => leaderboard_cmp strToNum type a b (hpos a ha) (hpos b hb))
  refine ⟨_, ?_, h1, ?_, ?_⟩
  · intro limit
    unfold leaderboard
    simp only []
    rw [leaderboard_filtered_eq]
  · exact h2.imp (fun h => by simpa using h)
  · intro v
    have := h3 (-v)
    simpa [neg_inj] using this

/-- Every record that the leaderboard returns is one of the ranked records. -/
theorem leaderboard_subset_ranked (strToNum : String → Option Rat) (playerStats : List Stat)
    (format type : String) (limit : Int) (r : Stat)
    (hr : r ∈ leaderboard strToNum playerStats format type limit) :
    r ∈ ranked strToNum playerStats format type := by
  obtain ⟨full, h1, h2, _, _⟩ := leaderboard_sorted strToNum playerStats format type
  rw [h1 limit] at hr
  exact h2.subset ((jsSlice_sublist full 0 limit).subset hr)

/-- C5 (amended): the list that the leaderboard returns is in descending order
of the requested metric, ties allowed: the metric of a returned record is
greater than or equal to the metric of every record after it, in particular
of the next one (and the metric of every returned record is a number). -/
theorem leaderboard_descending (strToNum : String → Option Rat) (playerStats : List Stat)
    (format type : String) (limit : Int) :
    (leaderboard strToNum playerStats format type limit).Chain'
      (fun a b => metricNumber strToNum type a ≥ metricNumber strToNum type b) ∧
    (leaderboard strToNum playerStats format type limit).Pairwise
      (fun a b => metricNumber strToNum type a ≥ metricNumber strToNum type b) ∧
    (leaderboard strToNum playerStats format type limit).Forall
      (fun r => toNumber strToNum (getField r type) = some (metricNumber strToNum type r)) := by
  obtain ⟨full, h1, _, h3, _⟩ := leaderboard_sorted strToNum playerStats format type
  have hp : (leaderboard strToNum playerStats format type limit).Pairwise
      (fun a b => metricNumber strToNum type a ≥ metricNumber strToNum type b) := by
    rw [h1 limit]
    exact h3.sublist (jsSlice_sublist full 0 limit)
  refine ⟨List.Pairwise.chain' hp, hp, ?_⟩
  rw [List.forall_iff_forall_mem]
  intro r hr
  have hr2 := leaderboard_subset_ranked strToNum playerStats format type limit r hr
  unfold ranked at hr2
  simp only [List.mem_filter, Bool.and_eq_true] at hr2
  exact (metricPositive_spec strToNum type r hr2.2.2).2.1

/-- C5 as stated fails: two records of the format with the same positive runs
are both returned, and the first is not strictly greater than the second. -/
theorem leaderboard_not_strictly_descending :
    ¬ (leaderboard sampleStrToNum
        [sampleStat "A" "IND" "odi" 100 0, sampleStat "B" "AUS" "odi" 100 0] "odi" "runs" 50).Chain'
      (fun a b => metricNumber sampleStrToNum "runs" a > metricNumber sampleStrToNum "runs" b) := by
  have h : leaderboard sampleStrToNum
      [sampleStat "A" "IND" "odi" 100 0, sampleStat "B" "AUS" "odi" 100 0] "odi" "runs" 50 =
      [sampleStat "A" "IND" "odi" 100 0, sampleStat "B" "AUS" "odi" 100 0] := by
    with_unfolding_all decide
  have h2 : ¬ (metricNumber sampleStrToNum "runs" (sampleStat "A" "IND" "odi" 100 0) >
      metricNumber sampleStrToNum "runs" (sampleStat "B" "AUS" "odi" 100 0)) := by
    with_unfolding_all decide
  rw [h]
  simpa [List.chain'_cons] using h2

/-- C6: for every limit `N` (a count), the leaderboard is the first `N`
elements of a list `full` that is a rearrangement of exactly the records whose
format is the requested one and whose metric is present and greater than zero,
is in descending order of the metric, and keeps records with equal metric
values in their snapshot order; hence every returned record has the format and
a present positive metric, and at most `N` records are returned. -/
theorem leaderboard_top_of_stable_sort (strToNum : String → Option Rat)
    (playerStats : List Stat) (format type : String) (N : Nat) :
    ∃ full : List Stat,
      leaderboard strToNum playerStats format type (N : Int) = full.take N ∧
      full.Perm (playerStats.filter (fun r =>
        decide (r.format = format) && metricPositive strToNum type r)) ∧
      full.Pairwise (fun a b => metricNumber strToNum type b ≤ metricNumber strToNum type a) ∧
      (∀ v : Rat, full.filter (fun r => decide (metricNumber strToNum type r = v)) =
        (playerStats.filter (fun r =>
          decide (r.format = format) && metricPositive strToNum type r)).filter
          (fun r => decide (metricNumber strToNum type r = v))) ∧
      (leaderboard strToNum playerStats format type (N : Int)).Forall (fun r =>
        r ∈ playerStats ∧ r.format = format ∧
        getField r type ≠ JSVal.undefined ∧ getField r type ≠ JSVal.null ∧
        toNumber strToNum (getField r type) = some (metricNumber strToNum type r) ∧
        0 < metricNumber strToNum type r) ∧
      (leaderboard strToNum playerStats format type (N : Int)).length ≤ N := by
  obtain ⟨full, h1, h2, h3, h4⟩ := leaderboard_sorted strToNum playerStats format type
  have hT : leaderboard strToNum playerStats format type (N : Int) = full.take N := by
    rw [h1, jsSlice_zero_natCast]
  refine ⟨full, hT, h2, h3, h4, ?_, ?_⟩
  · rw [List.forall_iff_forall_mem]
    intro r hr
    have hr2 := leaderboard_subset_ranked strToNum playerStats format type (N : Int) r hr
    unfold ranked at hr2
    simp only [List.mem_filter, Bool.and_eq_true, decide_eq_true_eq] at hr2
    obtain ⟨hm, hf, hp⟩ := hr2
    obtain ⟨ht, hn, h0⟩ := metricPositive_spec strToNum type r hp
    refine ⟨hm, hf, ?_, ?_, hn, h0⟩
    · intro hc; rw [hc] at ht; simp [truthy] at ht
    · intro hc; rw [hc] at ht; simp [truthy] at ht
  · rw [hT]
    simp [List.length_take]

/-- The leaderboard on a sample: of three ranked records, two of them tied,
the top two are the record with the most runs and the first of the tied
ones. -/
theorem leaderboard_sample_top_two :
    leaderboard sampleStrToNum sampleLeaderboardStats "odi" "runs" 2 =
      [sampleStat "B" "AUS" "odi" 300 0, sampleStat "A" "IND" "odi" 100 0] ∧
    leaderboard sampleStrToNum sampleLeaderboardStats "odi" "runs" 50 =
      [sampleStat "B" "AUS" "odi" 300 0, sampleStat "A" "IND" "odi" 100 0,
       sampleStat "C" "AUS" "odi" 100 0] := by
  constructor <;> with_unfolding_all decide

/-- A negative limit is no count: `slice(0, -1)` drops the last ranked record
and returns the others. -/
theorem leaderboard_negative_limit :
    leaderboard sampleStrToNum sampleLeaderboardStats "odi" "runs" (-1) =
      [sampleStat "B" "AUS" "odi" 300 0, sampleStat "A" "IND" "odi" 100 0] := by
  with_unfolding_all decide

/-! ### Pagination -/

theorem relIndex_nonneg (len : Nat) (i : Int) (h : 0 ≤ i) : relIndex len i = min i.toNat len := by
  unfold relIndex
  have : ¬ (i < 0) := by omega
  simp [this]

theorem take_drop_window {α : Type} (l : List α) (a k : Nat) :
    (l.drop (min a l.length)).take (min (a + k) l.length - min a l.length) =
      (l.drop a).take k := by
  rcases Nat.lt_or_ge a l.length with h | h
  · rw [Nat.min_eq_left (Nat.le_of_lt h)]
    rcases Nat.le_total (a + k) l.length with h2 | h2
    · rw [Nat.min_eq_left h2, Nat.add_sub_cancel_left]
    · rw [Nat.min_eq_right h2]
      rw [List.take_of_length_le (by simp), List.take_of_length_le (by simp; omega)]
  · rw [Nat.min_eq_right h, List.drop_of_length_le (le_refl _), List.drop_of_length_le h]
    simp

/-- The data of page `page` for `page ≥ 1` and `limit ≥ 1`: the window of
`limit` positions that starts at `(page - 1) * limit`. -/
theorem paginate_data {α : Type} (l : List α) (page limit : Int) (hp : 1 ≤ page)
    (hl : 1 ≤ limit) :
    (paginate l page limit).data = (l.drop ((page - 1) * limit).toNat).take limit.toNat := by
  have h0 : 0 ≤ (page - 1) * limit := Int.mul_nonneg (by omega) (by omega)
  have h1 : 0 ≤ (page - 1) * limit + limit := by omega
  unfold paginate jsSlice
  simp only []
  rw [relIndex_nonneg _ _ h0, relIndex_nonneg _ _ h1]
  have : ((page - 1) * limit + limit).toNat = ((page - 1) * limit).toNat + limit.toNat := by
    omega
  rw [this]
  exact take_drop_window l _ _

theorem windows_concat {α : Type} (k : Nat) (m : Nat) (l : List α) (h : l.length ≤ m * k) :
    (List.range m).flatMap (fun i => (l.drop (i * k)).take k) = l := by
  induction m generalizing l with
  | zero =>
    have : l = [] := List.length_eq_zero.1 (by omega)
    simp [this]
  | succ m ih =>
    rw [List.range_succ_eq_map, List.flatMap_cons, List.flatMap_map]
    have hd : (l.drop k).length ≤ m * k := by
      rw [List.length_drop, Nat.succ_mul] at *
      omega
    have := ih (l.drop k) hd
    simp only [Nat.zero_mul, List.drop_zero, Function.comp_def, Nat.succ_mul]
    have e : (fun i => ((l.drop k).drop (i * k)).take k) =
        (fun i => (l.drop (i * k + k)).take k) := by
      funext i
      rw [List.drop_drop, Nat.add_comm]
    rw [e] at this
    rw [this, List.take_append_drop]

theorem ceil_div_eq (n : Nat) (k : Int) (hk : 1 ≤ k) :
    Int.ceil ((n : Rat) / (k : Rat)) = ((n : Int) + k - 1) / k := by
  have hk0 : (0 : Int) < k := by omega
  have hkq : (0 : Rat) < (k : Rat) := by exact_mod_cast hk0
  rw [Int.ceil_eq_iff]
  have h1 := Int.ediv_add_emod ((n : Int) + k - 1) k
  have h2 := Int.emod_nonneg ((n : Int) + k - 1) (by omega : k ≠ 0)
  have h3 := Int.emod_lt_of_pos ((n : Int) + k - 1) hk0
  generalize ((n : Int) + k - 1) / k = z at *
  generalize ((n : Int) + k - 1) % k = r at *
  constructor
  · rw [lt_div_iff₀ hkq]
    have : (z - 1) * k < (n : Int) := by nlinarith
    exact_mod_cast this
  · rw [div_le_iff₀ hkq]
    have : (n : Int) ≤ z * k := by nlinarith
    exact_mod_cast this

theorem ceil_div_bounds (n : Nat) (k : Int) (hk : 1 ≤ k) :
    0 ≤ Int.ceil ((n : Rat) / (k : Rat)) ∧
    (n : Int) ≤ Int.ceil ((n : Rat) / (k : Rat)) * k := by
  rw [ceil_div_eq n k hk]
  have hk0 : (0 : Int) < k := by omega
  have h1 := Int.ediv_add_emod ((n : Int) + k - 1) k
  have h3 := Int.emod_lt_of_pos ((n : Int) + k - 1) hk0
  have h4 : 0 ≤ ((n : Int) + k - 1) / k := Int.ediv_nonneg (by omega) (by omega)
  refine ⟨h4, ?_⟩
  generalize ((n : Int) + k - 1) / k = z at *
  generalize ((n : Int) + k - 1) % k = r at *
  nlinarith

/-- C7 (amended): for a filtered list of 45 players, `limit = 20` and
`page = 3`, the data list is the last five players (positions 40 to 44), not
empty, and `totalPages` is 3. -/
theorem paginate_third_page {α : Type} (l : List α) (h : l.length = 45) :
    (paginate l 3 20).data = l.drop 40 ∧
    (paginate l 3 20).data.length = 5 ∧
    (paginate l 3 20).total = 45 ∧
    (paginate l 3 20).totalPages = some 3 := by
  have hd : (paginate l 3 20).data = l.drop 40 := by
    rw [paginate_data l 3 20 (by decide) (by decide)]
    have e1 : ((3 - 1) * 20 : Int).toNat = 40 := by decide
    have e2 : (20 : Int).toNat = 20 := by decide
    rw [e1, e2]
    exact List.take_of_length_le (by simp [h])
  refine ⟨hd, ?_, ?_, ?_⟩
  · rw [hd]; simp [h]
  · simp [paginate, h]
  · have hc := ceil_div_eq l.length 20 (by decide)
    rw [h] at hc
    have e : (paginate l 3 20).totalPages =
        some (Int.ceil ((l.length : Rat) / ((20 : Int) : Rat))) := by
      simp [paginate]
    rw [e, h, hc]
    decide

/-- An instance of the amended C7: the third page of 45 sample players. -/
theorem paginate_third_page_witness :
    samplePlayers.length = 45 ∧
    ((paginate samplePlayers 3 20).data = samplePlayers.drop 40 ∧
      (paginate samplePlayers 3 20).data.length = 5 ∧
      (paginate samplePlayers 3 20).total = 45 ∧
      (paginate samplePlayers 3 20).totalPages = some 3) :=
  ⟨by decide, paginate_third_page samplePlayers (by decide)⟩

/-- C7 as stated fails: with 45 players, `limit = 20` and `page = 3` the data
list is not empty. -/
theorem paginate_third_page_not_empty :
    samplePlayers.length = 45 ∧
    ¬ ((paginate samplePlayers 3 20).data = [] ∧
      (paginate samplePlayers 3 20).totalPages = some 3) := by
  refine ⟨by decide, ?_⟩
  intro hc
  have h : (paginate samplePlayers 3 20).data.length = 5 := by decide
  rw [hc.1] at h
  simp at h

/-- C8: for a page size `limit ≥ 1` the operation reports the length of the
filtered list as `total` and `ceil(total / limit)` as `totalPages`; page `p`
(for `p ≥ 1`) is the window of the positions `(p - 1) * limit` up to but
excluding `p * limit`; the pages `1, ..., totalPages` in order, put together,
are the filtered list; every page after `totalPages` is empty. -/
theorem paginate_partition {α : Type} (l : List α) (limit : Int) (hl : 1 ≤ limit) :
    (∀ page, (paginate l page limit).total = l.length) ∧
    (∀ page, (paginate l page limit).totalPages =
      some (Int.ceil ((l.length : Rat) / (limit : Rat)))) ∧
    Int.ceil ((l.length : Rat) / (limit : Rat)) = ((l.length : Int) + limit - 1) / limit ∧
    (List.range (Int.ceil ((l.length : Rat) / (limit : Rat))).toNat).flatMap
      (fun i => (paginate l ((i : Int) + 1) limit).data) = l ∧
    (∀ page, 1 ≤ page → (paginate l page limit).data =
      (l.drop ((page - 1) * limit).toNat).take limit.toNat) ∧
    (∀ page, Int.ceil ((l.length : Rat) / (limit : Rat)) < page →
      (paginate l page limit).data = []) := by
  obtain ⟨hc0, hc1⟩ := ceil_div_bounds l.length limit hl
  have hne : limit ≠ 0 := by omega
  refine ⟨fun _ => rfl, ?_, ceil_div_eq l.length limit hl, ?_,
    fun page hp => paginate_data l page limit hp hl, ?_⟩
  · intro page
    simp [paginate, hne]
  · have e : (fun i : Nat => (paginate l ((i : Int) + 1) limit).data) =
        (fun i : Nat => (l.drop (i * limit.toNat)).take limit.toNat) := by
      funext i
      rw [paginate_data l _ limit (by omega) hl]
      have : (((i : Int) + 1 - 1) * limit).toNat = i * limit.toNat := by
        have h1 : ((i : Int) + 1 - 1) * limit = ((i * limit.toNat : Nat) : Int) := by
          have : ((limit.toNat : Nat) : Int) = limit := Int.toNat_of_nonneg (by omega)
          push_cast
          rw [this]
          ring
        rw [h1, Int.toNat_natCast]
      rw [this]
    rw [e]
    apply windows_concat
    have h1 : ((l.length : Nat) : Int) ≤
        (((Int.ceil ((l.length : Rat) / (limit : Rat))).toNat * limit.toNat : Nat) : Int) := by
      push_cast
      rw [Int.toNat_of_nonneg hc0, Int.toNat_of_nonneg (by omega : 0 ≤ limit)]
      exact hc1
    exact_mod_cast h1
  · intro page hp
    rw [paginate_data l page limit (by omega) hl]
    have h1 : l.length ≤ ((page - 1) * limit).toNat := by
      have h2 : (l.length : Int) ≤ (page - 1) * limit := by
        have : Int.ceil ((l.length : Rat) / (limit : Rat)) ≤ page - 1 := by omega
        calc (l.length : Int) ≤ Int.ceil ((l.length : Rat) / (limit : Rat)) * limit := hc1
          _ ≤ (page - 1) * limit := Int.mul_le_mul_of_nonneg_right this (by omega)
      omega
    rw [List.drop_of_length_le h1]
    exact List.take_nil

/-- An instance of C8: 45 sample players in pages of 20. -/
theorem paginate_partition_witness :
    (1 : Int) ≤ 20 ∧
    (List.range (Int.ceil ((samplePlayers.length : Rat) / ((20 : Int) : Rat))).toNat).flatMap
      (fun i => (paginate samplePlayers ((i : Int) + 1) 20).data) = samplePlayers :=
  ⟨by decide, (paginate_partition samplePlayers 20 (by decide)).2.2.2.1⟩

/-! ### Era distribution -/

theorem eraStep_eq (metric : String) (dist : List (String × List JSVal)) (r : Stat) :
    eraStep metric dist r =
      match eraKey r with
      | some k => bucketPush dist k (getField r metric)
      | none => dist := by
  unfold eraStep eraKey
  cases r.span_start with
  | null => rfl
  | nan => rfl
  | year n =>
    by_cases h : n ≠ 0
    · simp [h]
    · simp [h]

theorem bucketPush_inv (metric : String) (dist : List (String × List JSVal)) (seen : List Stat)
    (r : Stat) (k : String) (hk : eraKey r = some k) (h : BucketInv metric dist seen) :
    BucketInv metric (bucketPush dist k (getField r metric)) (seen ++ [r]) := by
  obtain ⟨h1, h2, h3, h4⟩ := h
  unfold bucketPush
  by_cases hany : dist.any (fun kv => decide (kv.1 = k)) = true
  · simp only [hany, if_true]
    have hkeys : (dist.map (fun kv => if kv.1 = k then (kv.1, kv.2 ++ [getField r metric]) else kv)).map
        (fun kv => kv.1) = dist.map (fun kv => kv.1) := by
      rw [List.map_map]
      apply List.map_congr_left
      intro kv _
      by_cases hc : kv.1 = k <;> simp [hc]
    refine ⟨by rw [hkeys]; exact h1, ?_, ?_, ?_⟩
    · intro kv hkv
      obtain ⟨kv0, hkv0, e⟩ := List.mem_map.1 hkv
      by_cases hc : kv0.1 = k
      · simp only [hc, if_true] at e
        subst e
        simp only [List.filter_append, List.map_append]
        rw [← hc, ← h2 kv0 hkv0]
        simp [hk, hc]
      · simp only [hc, if_false] at e
        subst e
        simp only [List.filter_append, List.map_append]
        rw [← h2 kv0 hkv0]
        have : ¬ (some k = some kv0.1) := by
          intro hh; exact hc (Option.some.inj hh).symm
        simp [hk, this]
    · intro kv hkv
      obtain ⟨kv0, hkv0, e⟩ := List.mem_map.1 hkv
      by_cases hc : kv0.1 = k
      · simp only [hc, if_true] at e
        subst e
        simp
      · simp only [hc, if_false] at e
        subst e
        exact h3 kv0 hkv0
    · intro r2 hr2 k2 hk2
      rw [hkeys]
      rcases List.mem_append.1 hr2 with hr2 | hr2
      · exact h4 r2 hr2 k2 hk2
      · rw [List.mem_singleton] at hr2
        subst hr2
        rw [hk] at hk2
        have : k = k2 := Option.some.inj hk2
        subst this
        rw [List.any_eq_true] at hany
        obtain ⟨kv, hkv, e⟩ := hany
        exact List.mem_map.2 ⟨kv, hkv, by simpa using e⟩
  · have hany2 : dist.any (fun kv => decide (kv.1 = k)) = false := by
      cases hb : dist.any (fun kv => decide (kv.1 = k)) with
      | true => exact absurd hb hany
      | false => rfl
    simp only [hany2, Bool.false_eq_true, if_false]
    have hnot : k ∉ dist.map (fun kv => kv.1) := by
      intro hc
      obtain ⟨kv, hkv, e⟩ := List.mem_map.1 hc
      have := (List.any_eq_false.1 hany2) kv hkv
      simp [e] at this
    have hnone : seen.filter (fun r => decide (eraKey r = some k)) = [] := by
      rw [List.filter_eq_nil_iff]
      intro r2 hr2 hc
      exact hnot (h4 r2 hr2 k (by simpa using hc))
    refine ⟨?_, ?_, ?_, ?_⟩
    · rw [List.map_append, List.nodup_append]
      refine ⟨h1, by simp, ?_⟩
      intro x hx hx2
      simp only [List.map_cons, List.map_nil, List.mem_singleton] at hx2
      subst hx2
      exact hnot hx
    · intro kv hkv
      rcases List.mem_append.1 hkv with hkv | hkv
      · simp only [List.filter_append, List.map_append]
        rw [← h2 kv hkv]
        have : ¬ (some k = some kv.1) := by
          intro hh
          exact hnot (List.mem_map.2 ⟨kv, hkv, (Option.some.inj hh).symm⟩)
        simp [hk, this]
      · rw [List.mem_singleton] at hkv
        subst hkv
        simp [List.filter_append, hnone, hk]
    · intro kv hkv
      rcases List.mem_append.1 hkv with hkv | hkv
      · exact h3 kv hkv
      · rw [List.mem_singleton] at hkv
        subst hkv
        simp
    · intro r2 hr2 k2 hk2
      rw [List.map_append]
      rcases List.mem_append.1 hr2 with hr2 | hr2
      · exact List.mem_append_left _ (h4 r2 hr2 k2 hk2)
      · rw [List.mem_singleton] at hr2
        subst hr2
        rw [hk] at hk2
        have : k = k2 := Option.some.inj hk2
        subst this
        simp

theorem eraStep_inv (metric : String) (dist : List (String × List JSVal)) (seen : List Stat)
    (r : Stat) (h : BucketInv metric dist seen) :
    BucketInv metric (eraStep metric dist r) (seen ++ [r]) := by
  rw [eraStep_eq]
  cases hk : eraKey r with
  | some k => exact bucketPush_inv metric dist seen r k hk h
  | none =>
    obtain ⟨h1, h2, h3, h4⟩ := h
    refine ⟨h1, ?_, h3, ?_⟩
    · intro kv hkv
      rw [h2 kv hkv]
      simp [List.filter_append, hk]
    · intro r2 hr2 k2 hk2
      rcases List.mem_append.1 hr2 with hr2 | hr2
      · exact h4 r2 hr2 k2 hk2
      · rw [List.mem_singleton] at hr2
        subst hr2
        rw [hk] at hk2
        cases hk2

theorem eraFold_inv (metric : String) (l : List Stat) (dist : List (String × List JSVal))
    (seen : List Stat) (h : BucketInv metric dist seen) :
    BucketInv metric (l.foldl (eraStep metric) dist) (seen ++ l) := by
  induction l generalizing dist seen with
  | nil => simpa using h
  | cons r l ih =>
    have := ih _ _ (eraStep_inv metric dist seen r h)
    simpa [List.append_assoc] using this

theorem floorFraction_lt (n num den : Nat) (hn : 0 < n) (hlt : num < den) :
    floorFraction n num den < n := by
  unfold floorFraction
  apply Nat.div_lt_of_lt_mul
  rw [Nat.mul_comm den n]
  exact Nat.mul_lt_mul_of_pos_left hlt hn

theorem jsIndex_getElem (l : List JSVal) (i : Nat) (h : i < l.length) :
    l[i]? = some (jsIndex l i) := by
  unfold jsIndex
  simp [List.getD, List.getElem?_eq_getElem h]

theorem era_filter_eq (strToNum : String → Option Rat) (format metric : String) (r : Stat) :
    (decide (r.format = format) && truthy (getField r metric) &&
      gtZero strToNum (getField r metric)) =
    (decide (r.format = format) && metricPositive strToNum metric r) := by
  have h := leaderboard_filter_eq strToNum metric r
  have h2 : gtZero strToNum (getField r metric) = true →
      jsIsNaN strToNum (getField r metric) = false := by
    unfold gtZero jsIsNaN
    cases toNumber strToNum (getField r metric) <;> simp
  rw [← h, Bool.and_assoc]
  cases hf : decide (r.format = format) <;> cases ht : truthy (getField r metric) <;>
    cases hg : gtZero strToNum (getField r metric) <;> simp
  exact h2 hg

theorem jsSub_of_numeric (strToNum : String → Option Rat) (a b : JSVal)
    (ha : toNumber strToNum a = some (numberOf strToNum a))
    (hb : toNumber strToNum b = some (numberOf strToNum b)) :
    jsSub strToNum a b = some (numberOf strToNum a - numberOf strToNum b) := by
  unfold jsSub
  rw [ha, hb]

/-- The summary of a bucket of numeric values. -/
theorem summarize_spec (strToNum : String → Option Rat) (decade : String) (values : List JSVal)
    (hne : values ≠ [])
    (hnum : ∀ v ∈ values, toNumber strToNum v = some (numberOf strToNum v)) :
    ∃ sorted : List JSVal,
      sorted.Perm values ∧
      sorted.Pairwise (fun a b => numberOf strToNum a ≤ numberOf strToNum b) ∧
      (summarize strToNum decade values).decade = decade ∧
      (summarize strToNum decade values).count = values.length ∧
      sorted[0]? = some (summarize strToNum decade values).min ∧
      sorted[values.length / 4]? = some (summarize strToNum decade values).q1 ∧
      sorted[values.length / 2]? = some (summarize strToNum decade values).median ∧
      sorted[3 * values.length / 4]? = some (summarize strToNum decade values).q3 ∧
      sorted[values.length - 1]? = some (summarize strToNum decade values).max := by
  obtain ⟨h1, h2, _⟩ := jsSort_by_key (fun a b => jsSub strToNum a b) (numberOf strToNum) values
    (fun a ha b hb => jsSub_of_numeric strToNum a b (hnum a ha) (hnum b hb))
  have hlen : (jsSort (fun a b => jsSub strToNum a b) values).length = values.length :=
    h1.length_eq
  have hpos : 0 < values.length := List.length_pos.2 hne
  refine ⟨jsSort (fun a b => jsSub strToNum a b) values, h1, h2, rfl, rfl, ?_, ?_, ?_, ?_, ?_⟩
  · exact jsIndex_getElem _ 0 (by omega)
  · have := jsIndex_getElem (jsSort (fun a b => jsSub strToNum a b) values)
      (floorFraction (jsSort (fun a b => jsSub strToNum a b) values).length 1 4)
      (floorFraction_lt _ 1 4 (by omega) (by decide))
    simpa [floorFraction, hlen, summarize] using this
  · have := jsIndex_getElem (jsSort (fun a b => jsSub strToNum a b) values)
      (floorFraction (jsSort (fun a b => jsSub strToNum a b) values).length 1 2)
      (floorFraction_lt _ 1 2 (by omega) (by decide))
    simpa [floorFraction, hlen, summarize] using this
  · have := jsIndex_getElem (jsSort (fun a b => jsSub strToNum a b) values)
      (floorFraction (jsSort (fun a b => jsSub strToNum a b) values).length 3 4)
      (floorFraction_lt _ 3 4 (by omega) (by decide))
    simpa [floorFraction, hlen, summarize, Nat.mul_comm] using this
  · have := jsIndex_getElem (jsSort (fun a b => jsSub strToNum a b) values)
      ((jsSort (fun a b => jsSub strToNum a b) values).length - 1) (by omega)
    simpa [hlen, summarize] using this

/-- C9: every element that the era distribution returns summarises a non-empty
bucket, the metric values of the records of its decade; with `s` the values in
ascending order and `n` their number, `min = s[0]`, `q1 = s[floor(n/4)]`,
`median = s[floor(n/2)]`, `q3 = s[floor(3n/4)]`, `max = s[n-1]` and
`count = n`, each an element of the bucket (no interpolation).  For the values
10, 20, 30, 40 this gives `q1 = 20`, `median = 30`, `q3 = 40`. -/
theorem eraDistribution_quartiles (strToNum : String → Option Rat) (playerStats : List Stat)
    (format metric : String) :
    (∀ e ∈ eraDistribution strToNum playerStats format metric,
      ∃ values sorted : List JSVal,
        values = (bucketRecords strToNum playerStats format metric e.decade).map
          (fun r => getField r metric) ∧
        values ≠ [] ∧
        sorted.Perm values ∧
        sorted.Pairwise (fun a b => numberOf strToNum a ≤ numberOf strToNum b) ∧
        e.count = values.length ∧
        sorted[0]? = some e.min ∧
        sorted[values.length / 4]? = some e.q1 ∧
        sorted[values.length / 2]? = some e.median ∧
        sorted[3 * values.length / 4]? = some e.q3 ∧
        sorted[values.length - 1]? = some e.max) ∧
    summarize strToNum "1990s" [JSVal.num 10, JSVal.num 20, JSVal.num 30, JSVal.num 40] =
      { decade := "1990s", min := JSVal.num 10, q1 := JSVal.num 20, median := JSVal.num 30,
        q3 := JSVal.num 40, max := JSVal.num 40, count := 4 } := by
  constructor
  · intro e he
    unfold eraDistribution at he
    simp only [] at he
    obtain ⟨kv, hkv, rfl⟩ := List.mem_map.1 he
    have hfilt : playerStats.filter (fun stat =>
        decide (stat.format = format) && truthy (getField stat metric) &&
          gtZero strToNum (getField stat metric)) =
        playerStats.filter (fun r =>
          decide (r.format = format) && metricPositive strToNum metric r) := by
      congr 1
      funext r
      exact era_filter_eq strToNum format metric r
    rw [hfilt] at hkv
    have hinv := eraFold_inv metric
      (playerStats.filter (fun r =>
        decide (r.format = format) && metricPositive strToNum metric r)) [] []
      ⟨by simp, by simp, by simp, by simp⟩
    rw [List.nil_append] at hinv
    obtain ⟨_, i2, i3, _⟩ := hinv
    have hv := i2 kv hkv
    have hne := i3 kv hkv
    have hnum : ∀ v ∈ kv.2, toNumber strToNum v = some (numberOf strToNum v) := by
      intro v hv2
      rw [hv] at hv2
      obtain ⟨r, hr, rfl⟩ := List.mem_map.1 hv2
      have hr2 := (List.mem_filter.1 (List.mem_filter.1 hr).1).2
      simp only [Bool.and_eq_true] at hr2
      exact (metricPositive_spec strToNum metric r hr2.2).2.1
    obtain ⟨sorted, s1, s2, s3, s4, s5, s6, s7, s8, s9⟩ :=
      summarize_spec strToNum kv.1 kv.2 hne hnum
    refine ⟨kv.2, sorted, ?_, hne, s1, s2, s4, s5, s6, s7, s8, s9⟩
    rw [s3]
    exact hv
  · with_unfolding_all rfl

/-- An instance of C9: four records of the nineties with runs 30, 10, 40 and
20 give one element with `min = 10`, `q1 = 20`, `median = 30`, `q3 = 40`,
`max = 40` and `count = 4`. -/
theorem eraDistribution_quartiles_witness :
    eraDistribution sampleStrToNum sampleEraStats "odi" "runs" =
      [{ decade := "1990s", min := JSVal.num 10, q1 := JSVal.num 20, median := JSVal.num 30,
         q3 := JSVal.num 40, max := JSVal.num 40, count := 4 }] ∧
    ∃ values sorted : List JSVal,
      values = (bucketRecords sampleStrToNum sampleEraStats "odi" "runs" "1990s").map
        (fun r => getField r "runs") ∧
      values ≠ [] ∧
      sorted.Perm values ∧
      sorted.Pairwise (fun a b => numberOf sampleStrToNum a ≤ numberOf sampleStrToNum b) ∧
      4 = values.length ∧
      sorted[0]? = some (JSVal.num 10) ∧
      sorted[values.length / 4]? = some (JSVal.num 20) ∧
      sorted[values.length / 2]? = some (JSVal.num 30) ∧
      sorted[3 * values.length / 4]? = some (JSVal.num 40) ∧
      sorted[values.length - 1]? = some (JSVal.num 40) :=
  ⟨by with_unfolding_all decide,
   (eraDistribution_quartiles sampleStrToNum sampleEraStats "odi" "runs").1
     { decade := "1990s", min := JSVal.num 10, q1 := JSVal.num 20, median := JSVal.num 30,
       q3 := JSVal.num 40, max := JSVal.num 40, count := 4 }
     (by with_unfolding_all decide)⟩

/-! ### Country contribution -/

theorem countryTotals_snoc (seen : List Stat) (r : Stat) (c : String) :
    countryTotals (seen ++ [r]) c =
      if r.player_country = c then
        { countryTotals seen c with
          player_count := (countryTotals seen c).player_count + 1
          total_runs := (countryTotals seen c).total_runs + r.runs
          total_wickets := (countryTotals seen c).total_wickets + r.wickets }
      else countryTotals seen c := by
  unfold countryTotals
  by_cases h : r.player_country = c
  · simp [List.filter_append, h]
  · simp [List.filter_append, h]

theorem countryStep_inv (acc : List CountryEntry) (seen : List Stat) (r : Stat)
    (h : CountryInv acc seen) : CountryInv (countryStep acc r) (seen ++ [r]) := by
  obtain ⟨h1, h2, h3, h4⟩ := h
  unfold countryStep
  simp only []
  by_cases hp : r.player_country ∈ objectPrototypeKeys
  · simp only [hp, if_true]
    refine ⟨h1, ?_, ?_, ?_⟩
    · intro e he
      rw [countryTotals_snoc]
      have : r.player_country ≠ e.country := by
        intro hc
        exact (h3 e he).1 (hc ▸ hp)
      rw [if_neg this]
      exact h2 e he
    · intro e he
      refine ⟨(h3 e he).1, ?_⟩
      rw [List.map_append]
      exact List.mem_append_left _ (h3 e he).2
    · intro r2 hr2 hn
      rcases List.mem_append.1 hr2 with hr2 | hr2
      · exact h4 r2 hr2 hn
      · rw [List.mem_singleton] at hr2
        subst hr2
        exact absurd hp hn
  · simp only [hp, if_false]
    have hkeys : ∀ l : List CountryEntry,
        (l.map (fun e =>
          if e.country = r.player_country then
            { e with
              player_count := e.player_count + 1
              total_runs := e.total_runs + r.runs
              total_wickets := e.total_wickets + r.wickets }
          else e)).map (fun e => e.country) = l.map (fun e => e.country) := by
      intro l
      rw [List.map_map]
      apply List.map_congr_left
      intro e _
      by_cases hc : e.country = r.player_country <;> simp [hc]
    have hupd : ∀ e : CountryEntry, e = countryTotals seen e.country →
        (if e.country = r.player_country then
            { e with
              player_count := e.player_count + 1
              total_runs := e.total_runs + r.runs
              total_wickets := e.total_wickets + r.wickets }
          else e) =
        countryTotals (seen ++ [r])
          (if e.country = r.player_country then
            { e with
              player_count := e.player_count + 1
              total_runs := e.total_runs + r.runs
              total_wickets := e.total_wickets + r.wickets }
          else e).country := by
      intro e he
      by_cases hc : e.country = r.player_country
      · simp only [hc, if_true]
        rw [countryTotals_snoc, if_pos rfl]
        rw [← hc, ← he]
      · simp only [hc, if_false]
        rw [countryTotals_snoc, if_neg (fun hh => hc hh.symm)]
        exact he
    by_cases hany : acc.any (fun e => decide (e.country = r.player_country)) = true
    · simp only [hany, if_true]
      refine ⟨by rw [hkeys]; exact h1, ?_, ?_, ?_⟩
      · intro e he
        obtain ⟨e0, he0, rfl⟩ := List.mem_map.1 he
        exact hupd e0 (h2 e0 he0)
      · intro e he
        have hc : e.country ∈ acc.map (fun e => e.country) := by
          rw [← hkeys acc]; exact List.mem_map_of_mem _ he
        obtain ⟨e0, he0, e0c⟩ := List.mem_map.1 hc
        rw [← e0c]
        refine ⟨(h3 e0 he0).1, ?_⟩
        rw [List.map_append]
        exact List.mem_append_left _ (h3 e0 he0).2
      · intro r2 hr2 hn
        rw [hkeys]
        rcases List.mem_append.1 hr2 with hr2 | hr2
        · exact h4 r2 hr2 hn
        · rw [List.mem_singleton] at hr2
          subst hr2
          rw [List.any_eq_true] at hany
          obtain ⟨e, he, hc⟩ := hany
          exact List.mem_map.2 ⟨e, he, by simpa using hc⟩
    · have hany2 : acc.any (fun e => decide (e.country = r.player_country)) = false := by
        cases hb : acc.any (fun e => decide (e.country = r.player_country)) with
        | true => exact absurd hb hany
        | false => rfl
      simp only [hany2, Bool.false_eq_true, if_false]
      have hnot : r.player_country ∉ acc.map (fun e => e.country) := by
        intro hc
        obtain ⟨e, he, ec⟩ := List.mem_map.1 hc
        have := (List.any_eq_false.1 hany2) e he
        simp [ec] at this
      have hnone : seen.filter (fun x => decide (x.player_country = r.player_country)) = [] := by
        rw [List.filter_eq_nil_iff]
        intro r2 hr2 hc
        have hc2 : r2.player_country = r.player_country := by simpa using hc
        exact hnot (hc2 ▸ h4 r2 hr2 (hc2 ▸ hp))
      refine ⟨?_, ?_, ?_, ?_⟩
      · rw [hkeys, List.map_append, List.nodup_append]
        refine ⟨h1, by simp, ?_⟩
        intro x hx hx2
        simp only [List.map_cons, List.map_nil, List.mem_singleton] at hx2
        subst hx2
        exact hnot hx
      · intro e he
        obtain ⟨e0, he0, rfl⟩ := List.mem_map.1 he
        apply hupd
        rcases List.mem_append.1 he0 with he0 | he0
        · exact h2 e0 he0
        · rw [List.mem_singleton] at he0
          subst he0
          simp [countryTotals, hnone]
      · intro e he
        have hc := List.mem_map_of_mem (fun e : CountryEntry => e.country) he
        rw [hkeys] at hc
        simp only [] at hc
        rw [List.map_append] at hc
        rcases List.mem_append.1 hc with hc | hc
        · obtain ⟨e0, he0, e0c⟩ := List.mem_map.1 hc
          rw [← e0c]
          refine ⟨(h3 e0 he0).1, ?_⟩
          rw [List.map_append]
          exact List.mem_append_left _ (h3 e0 he0).2
        · simp only [List.map_cons, List.map_nil, List.mem_singleton] at hc
          rw [hc]
          exact ⟨hp, by simp⟩
      · intro r2 hr2 hn
        rw [hkeys, List.map_append]
        rcases List.mem_append.1 hr2 with hr2 | hr2
        · exact List.mem_append_left _ (h4 r2 hr2 hn)
        · rw [List.mem_singleton] at hr2
          subst hr2
          simp

theorem countryFold_inv (l : List Stat) (acc : List CountryEntry) (seen : List Stat)
    (h : CountryInv acc seen) : CountryInv (l.foldl countryStep acc) (seen ++ l) := by
  induction l generalizing acc seen with
  | nil => simpa using h
  | cons r l ih =>
    have := ih _ _ (countryStep_inv acc seen r h)
    simpa [List.append_assoc] using this

theorem objectValues_perm (acc : List CountryEntry) : (objectValues acc).Perm acc := by
  unfold objectValues
  have h1 := List.perm_insertionSort
    (fun a b : CountryEntry => (arrayIndex a.country).getD 0 ≤ (arrayIndex b.country).getD 0)
    (acc.filter (fun e => (arrayIndex e.country).isSome))
  exact (h1.append_right _).trans (List.filter_append_perm _ acc)

/-- What the country contribution does on every snapshot: one entry for each
country of a record of the format that is no inherited name of the accumulator
object, holding the number of records of the country and the sums of their runs
and wickets, in non-increasing order of the summed runs. -/
theorem countryContribution_groups (playerStats : List Stat) (format : String) :
    ((countryContribution playerStats format).map (fun e => e.country)).Nodup ∧
    (∀ c, c ∈ (countryContribution playerStats format).map (fun e => e.country) ↔
      (c ∈ (playerStats.filter (fun r => decide (r.format = format))).map
          (fun r => r.player_country) ∧
        c ∉ objectPrototypeKeys)) ∧
    (∀ e ∈ countryContribution playerStats format,
      e = countryTotals (playerStats.filter (fun r => decide (r.format = format))) e.country) ∧
    (countryContribution playerStats format).Pairwise
      (fun a b => b.total_runs ≤ a.total_runs) := by
  have hinv := countryFold_inv (playerStats.filter (fun r => decide (r.format = format))) [] []
    ⟨by simp, by simp, by simp, by simp⟩
  rw [List.nil_append] at hinv
  obtain ⟨h1, h2, h3, h4⟩ := hinv
  obtain ⟨s1, s2, _⟩ := jsSort_by_key
    (fun a b : CountryEntry => some ((b.total_runs : Rat) - (a.total_runs : Rat)))
    (fun e => - (e.total_runs : Rat))
    (objectValues ((playerStats.filter (fun r => decide (r.format = format))).foldl
      countryStep []))
    (fun a _ b _ => by simp only []; congr 1; ring)
  have hperm : (countryContribution playerStats format).Perm
      ((playerStats.filter (fun r => decide (r.format = format))).foldl countryStep []) :=
    s1.trans (objectValues_perm _)
  refine ⟨?_, ?_, ?_, ?_⟩
  · exact ((hperm.map (fun e => e.country)).nodup_iff).2 h1
  · intro c
    rw [(hperm.map (fun e => e.country)).mem_iff]
    constructor
    · intro hc
      obtain ⟨e, he, rfl⟩ := List.mem_map.1 hc
      exact ⟨(h3 e he).2, (h3 e he).1⟩
    · rintro ⟨hc, hn⟩
      obtain ⟨r, hr, rfl⟩ := List.mem_map.1 hc
      exact h4 r hr hn
  · intro e he
    exact h2 e (hperm.subset he)
  · have : (countryContribution playerStats format).Pairwise
        (fun a b => - (a.total_runs : Rat) ≤ - (b.total_runs : Rat)) := s2
    refine this.imp ?_
    intro a b hab
    have : (b.total_runs : Rat) ≤ (a.total_runs : Rat) := neg_le_neg_iff.1 hab
    exact_mod_cast this

/-- The scenario of the specification: two records for `IND` with runs 100 and
200 give one entry with `total_runs = 300` and `player_count = 2`. -/
theorem countryContribution_sample :
    countryContribution
      [sampleStat "A" "IND" "odi" 100 0, sampleStat "B" "IND" "odi" 200 0] "odi" =
    [{ country := "IND", player_count := 2, total_runs := 300, total_wickets := 0 }] := by
  with_unfolding_all decide

/-- C10, the code at the failing input: a record of the format whose country
is `constructor` gets no entry, because the accumulator object inherits a
member of that name. -/
theorem countryContribution_inherited_name :
    "constructor" ∈ ([sampleStat "A" "constructor" "odi" 100 0].filter
      (fun r => decide (r.format = "odi"))).map (fun r => r.player_country) ∧
    countryContribution [sampleStat "A" "constructor" "odi" 100 0] "odi" = [] := by
  with_unfolding_all decide

/-! ### Keys of the stat list under the bowling and fielding rows -/

theorem updateFirst_keys (pred : Stat → Bool) (f : Stat → Stat)
    (hf : ∀ r, statKey (f r) = statKey r) (l : List Stat) :
    (updateFirst pred f l).map statKey = l.map statKey := by
  induction l with
  | nil => rfl
  | cons r rs ih =>
    by_cases hr : pred r = true
    · simp [updateFirst, hr, hf]
    · simp [updateFirst, hr, ih]

theorem keys_nodup_append_new (l : List Stat) (r : Stat)
    (h : (l.map statKey).Nodup)
    (hnew : l.any (fun stat =>
      decide (stat.player_name = r.player_name ∧ stat.format = r.format)) = false) :
    ((l ++ [r]).map statKey).Nodup := by
  rw [List.map_append, List.nodup_append]
  refine ⟨h, by simp, ?_⟩
  intro k hk hk2
  simp only [List.map_cons, List.map_nil, List.mem_singleton] at hk2
  subst hk2
  obtain ⟨x, hx, e⟩ := List.mem_map.1 hk
  have := (List.any_eq_false.1 hnew) x hx
  unfold statKey at e
  simp only [Prod.mk.injEq] at e
  simp [e.1, e.2] at this

/-- The bowling row looks the key up before it adds a record: a stat list
with distinct keys keeps distinct keys. -/
theorem bowlingRowStep_keys_nodup (parseFloat : String → Option Rat) (format : String)
    (s : Store) (row : BowlingRow) (h : (s.playerStats.map statKey).Nodup) :
    ((bowlingRowStep parseFloat format s row).playerStats.map statKey).Nodup := by
  unfold bowlingRowStep
  simp only []
  split
  · exact h
  · split
    · rw [updateFirst_keys _ (bowlingUpdate parseFloat row) (fun r => rfl)]
      exact h
    · rename_i hany
      apply keys_nodup_append_new _ _ h
      simpa using hany

/-- The fielding row looks the key up before it adds a record: a stat list
with distinct keys keeps distinct keys. -/
theorem fieldingRowStep_keys_nodup (format : String)
    (s : Store) (row : FieldingRow) (h : (s.playerStats.map statKey).Nodup) :
    ((fieldingRowStep format s row).playerStats.map statKey).Nodup := by
  unfold fieldingRowStep
  simp only []
  split
  · rw [updateFirst_keys _ (fieldingUpdate row) (fun r => rfl)]
    exact h
  · rename_i hany
    apply keys_nodup_append_new _ _ h
    simpa using hany


theorem battingRowStep_keys (parseFloat : String → Option Rat) (format : String)
    (s : Store) (row : BattingRow) :
    (battingRowStep parseFloat format s row).playerStats.map statKey =
      s.playerStats.map statKey ++
        [((parsePlayer row.Player).name, formatOfLabel " data" format)] := by
  obtain ⟨q, hq⟩ := playersGet_after_ensure s.players (parsePlayer row.Player).name
    { id := s.players.length + 1, name := (parsePlayer row.Player).name,
      country := (parsePlayer row.Player).country, primary_role := "batsman" } rfl
  unfold battingRowStep
  simp only [hq, List.map_append, List.map_cons, List.map_nil, statKey]

theorem battingRows_keys (parseFloat : String → Option Rat) (format : String)
    (rows : List BattingRow) (s : Store) :
    (rows.foldl (battingRowStep parseFloat format) s).playerStats.map statKey =
      s.playerStats.map statKey ++
        rows.map (fun row => ((parsePlayer row.Player).name, formatOfLabel " data" format)) := by
  induction rows generalizing s with
  | nil => simp
  | cons row rows ih =>
    rw [List.foldl_cons, ih, battingRowStep_keys]
    simp [List.append_assoc]

theorem processBatting_keys (parseFloat : String → Option Rat)
    (batting : String → Option (List BattingRow)) (labels : List String) (s : Store) :
    (processFiles labels (battingRowStep parseFloat) batting s).playerStats.map statKey =
      s.playerStats.map statKey ++
        labels.flatMap (fun label =>
          match batting label with
          | none => []
          | some rows =>
            rows.map (fun row =>
              ((parsePlayer row.Player).name, formatOfLabel " data" label))) := by
  unfold processFiles
  induction labels generalizing s with
  | nil => simp
  | cons label labels ih =>
    rw [List.foldl_cons, ih, List.flatMap_cons]
    cases hfile : batting label with
    | none => simp
    | some rows =>
      simp only []
      rw [battingRows_keys, List.append_assoc]

theorem foldl_keys_nodup {ρ : Type} (step : Store → ρ → Store)
    (hstep : ∀ s row, (s.playerStats.map statKey).Nodup →
      ((step s row).playerStats.map statKey).Nodup)
    (rows : List ρ) (s : Store) (h : (s.playerStats.map statKey).Nodup) :
    ((rows.foldl step s).playerStats.map statKey).Nodup := by
  induction rows generalizing s with
  | nil => exact h
  | cons row rows ih => exact ih _ (hstep s row h)

theorem processFiles_keys_nodup {ρ : Type} (labels : List String)
    (step : String → Store → ρ → Store) (files : String → Option (List ρ))
    (hstep : ∀ label s row, (s.playerStats.map statKey).Nodup →
      ((step label s row).playerStats.map statKey).Nodup)
    (s : Store) (h : (s.playerStats.map statKey).Nodup) :
    ((processFiles labels step files s).playerStats.map statKey).Nodup := by
  unfold processFiles
  induction labels generalizing s with
  | nil => exact h
  | cons label labels ih =>
    rw [List.foldl_cons]
    apply ih
    cases hfile : files label with
    | none => exact h
    | some rows => exact foldl_keys_nodup (step label) (hstep label) rows s h

/-- The stat list has one record per key whenever no batting file lists a
resolved name twice: the bowling and fielding passes never add a second record
for a key. -/
theorem mergeAll_keys_nodup (parseFloat : String → Option Rat)
    (batting : String → Option (List BattingRow))
    (bowling : String → Option (List BowlingRow))
    (fielding : String → Option (List FieldingRow))
    (h : ∀ label rows, batting label = some rows →
      (rows.map (fun row => (parsePlayer row.Player).name)).Nodup) :
    ((mergeAll parseFloat batting bowling fielding).playerStats.map statKey).Nodup := by
  unfold mergeAll processFieldingData processBowlingData processBattingData
  apply processFiles_keys_nodup _ _ _ (fun label s row hs => fieldingRowStep_keys_nodup label s row hs)
  apply processFiles_keys_nodup _ _ _
    (fun label s row hs => bowlingRowStep_keys_nodup parseFloat label s row hs)
  rw [processBatting_keys]
  simp only [Store.empty, List.map_nil, List.nil_append]
  rw [List.nodup_flatMap]
  constructor
  · intro label _
    cases hfile : batting label with
    | none => simp
    | some rows =>
      simp only []
      have hn := h label rows hfile
      have : (rows.map (fun row =>
          ((parsePlayer row.Player).name, formatOfLabel " data" label))).map Prod.fst =
          rows.map (fun row => (parsePlayer row.Player).name) := by
        rw [List.map_map]; rfl
      exact List.Nodup.of_map Prod.fst (this ▸ hn)
  · have hdis : ∀ a b : String, formatOfLabel " data" a ≠ formatOfLabel " data" b →
        List.Disjoint
          (match batting a with
            | none => []
            | some rows =>
              rows.map (fun row => ((parsePlayer row.Player).name, formatOfLabel " data" a)))
          (match batting b with
            | none => []
            | some rows =>
              rows.map (fun row => ((parsePlayer row.Player).name, formatOfLabel " data" b))) := by
      intro a b hab k hka hkb
      have ha : k.2 = formatOfLabel " data" a := by
        cases hfa : batting a with
        | none => rw [hfa] at hka; simp at hka
        | some rows =>
          rw [hfa] at hka
          obtain ⟨row, _, e⟩ := List.mem_map.1 hka
          rw [← e]
      have hb : k.2 = formatOfLabel " data" b := by
        cases hfb : batting b with
        | none => rw [hfb] at hkb; simp at hkb
        | some rows =>
          rw [hfb] at hkb
          obtain ⟨row, _, e⟩ := List.mem_map.1 hkb
          rw [← e]
      exact hab (ha.symm.trans hb)
    unfold battingFormats
    simp only [List.pairwise_cons, List.mem_cons, List.mem_singleton, List.not_mem_nil,
      forall_eq_or_imp, forall_eq, List.Pairwise.nil, and_true, false_implies, implies_true]
    refine ⟨⟨hdis _ _ (by decide), hdis _ _ (by decide)⟩, hdis _ _ (by decide)⟩

/-! ### parsePlayer -/

theorem matchCountrySuffix_eq (rest : List Char) :
    matchCountrySuffix rest =
      match rest.dropWhile isJSWhitespace with
      | [] => none
      | c :: body =>
        if c = '(' then
          match body.reverse with
          | [] => none
          | d :: innerRev =>
            if d = ')' ∧ innerRev ≠ [] ∧ ')' ∉ innerRev then some innerRev.reverse else none
        else none := by
  unfold matchCountrySuffix
  cases h : rest.dropWhile isJSWhitespace with
  | nil => rfl
  | cons c body =>
    by_cases hc : c = '('
    · subst hc
      simp only [if_true]
      cases hb : body.reverse with
      | nil => rfl
      | cons d innerRev =>
        by_cases hd : d = ')'
        · subst hd
          simp
        · simp only [hd, false_and, if_false]
          split
          · rename_i heq
            exact absurd (List.cons.inj heq).1 hd
          · rfl
    · simp only [hc, if_false]
      split
      · rename_i heq
        exact absurd (List.cons.inj heq).1 hc
      · rfl

theorem dropWhile_append_of_all {α : Type} (p : α → Bool) (w r : List α)
    (hw : ∀ x ∈ w, p x = true) : (w ++ r).dropWhile p = r.dropWhile p := by
  induction w with
  | nil => rfl
  | cons x w ih =>
    have hx := hw x (List.mem_cons_self _ _)
    simp only [List.cons_append, List.dropWhile_cons, hx, if_true]
    exact ih (fun y hy => hw y (List.mem_cons_of_mem _ hy))

theorem dropWhile_append_of_not_all {α : Type} (p : α → Bool) (a w : List α)
    (ha : ∃ x ∈ a, p x = false) : (a ++ w).dropWhile p = a.dropWhile p ++ w := by
  induction a with
  | nil => obtain ⟨x, hx, _⟩ := ha; cases hx
  | cons y a ih =>
    by_cases hy : p y = true
    · simp only [List.cons_append, List.dropWhile_cons, hy, if_true]
      apply ih
      obtain ⟨x, hx, hpx⟩ := ha
      rcases List.mem_cons.1 hx with rfl | hx
      · rw [hy] at hpx; cases hpx
      · exact ⟨x, hx, hpx⟩
    · simp [List.dropWhile_cons, hy]

theorem trimChars_append_ws (a w : List Char) (hw : ∀ x ∈ w, isJSWhitespace x = true) :
    trimChars (a ++ w) = trimChars a := by
  unfold trimChars
  by_cases ha : ∃ x ∈ a, isJSWhitespace x = false
  · rw [dropWhile_append_of_not_all _ a w ha, List.reverse_append,
      dropWhile_append_of_all _ w.reverse _ (fun x hx => hw x (List.mem_reverse.1 hx))]
  · have ha2 : ∀ x ∈ a, isJSWhitespace x = true := by
      intro x hx
      cases hb : isJSWhitespace x with
      | true => rfl
      | false => exact absurd ⟨x, hx, hb⟩ ha
    have h1 : (a ++ w).dropWhile isJSWhitespace = [] := by
      rw [List.dropWhile_eq_nil_iff]
      intro x hx
      rcases List.mem_append.1 hx with hx | hx
      · exact ha2 x hx
      · exact hw x hx
    have h2 : a.dropWhile isJSWhitespace = [] := by
      rw [List.dropWhile_eq_nil_iff]
      exact ha2
    rw [h1, h2]

theorem matchCountrySuffix_of_ws (w Y : List Char) (hw : ∀ x ∈ w, isJSWhitespace x = true)
    (hne : Y ≠ []) (hY : ')' ∉ Y) :
    matchCountrySuffix (w ++ '(' :: (Y ++ [')'])) = some Y := by
  rw [matchCountrySuffix_eq, dropWhile_append_of_all _ w _ hw]
  have h1 : ('(' :: (Y ++ [')'])).dropWhile isJSWhitespace = '(' :: (Y ++ [')']) := by
    rw [List.dropWhile_cons]
    have : isJSWhitespace '(' = false := by decide
    simp [this]
  rw [h1]
  simp only [if_true, List.reverse_append, List.reverse_cons, List.reverse_nil, List.nil_append,
    List.singleton_append]
  have h2 : Y.reverse ≠ [] := by simpa using hne
  have h3 : ')' ∉ Y.reverse := by simpa using hY
  simp [h2, h3]

theorem matchCountrySuffix_of_closed (P Y : List Char)
    (hP : ∃ x ∈ P, isJSWhitespace x = false) (hc : parensClosed P = true) :
    matchCountrySuffix (P ++ '(' :: (Y ++ [')'])) = none := by
  rw [matchCountrySuffix_eq, dropWhile_append_of_not_all _ P _ hP]
  induction P with
  | nil => obtain ⟨x, hx, _⟩ := hP; cases hx
  | cons c cs ih =>
    simp only [parensClosed, Bool.and_eq_true, Bool.or_eq_true, decide_eq_true_eq] at hc
    by_cases hw : isJSWhitespace c = true
    · simp only [List.dropWhile_cons, hw, if_true]
      apply ih _ hc.2
      obtain ⟨x, hx, hpx⟩ := hP
      rcases List.mem_cons.1 hx with rfl | hx
      · rw [hw] at hpx; cases hpx
      · exact ⟨x, hx, hpx⟩
    · have hw2 : isJSWhitespace c = false := by
        cases hb : isJSWhitespace c with
        | true => exact absurd hb hw
        | false => rfl
      simp only [List.dropWhile_cons, hw2, Bool.false_eq_true, if_false, List.cons_append]
      by_cases hp : c = '('
      · have hin : ')' ∈ cs := by
          rcases hc.1 with h | h
          · exact absurd hp h
          · exact h
        simp only [hp, if_true]
        have hr : (cs ++ '(' :: (Y ++ [')'])).reverse = ')' :: (cs ++ '(' :: Y).reverse := by
          simp
        rw [hr]
        have hmem : ')' ∈ (cs ++ '(' :: Y).reverse := by
          rw [List.mem_reverse]
          exact List.mem_append_left _ hin
        simp [hin]
      · simp [hp]
theorem matchLazyName_nil (taken : List Char) :
    matchLazyName taken [] = none := by
  rfl

theorem matchLazyName_cons (taken : List Char) (c : Char) (cs : List Char) :
    matchLazyName taken (c :: cs) =
      match matchCountrySuffix (c :: cs) with
      | some g => some (taken.reverse, g)
      | none => if isLineTerminator c then none else matchLazyName (c :: taken) cs := by
  rfl

theorem matchLazyName_spec (Y : List Char) (hne : Y ≠ []) (hY : ')' ∉ Y) (P taken : List Char)
    (hlt : ∀ x ∈ P, isLineTerminator x = false) (hc : parensClosed P = true) :
    ∃ g1, matchLazyName taken (P ++ '(' :: (Y ++ [')'])) = some (g1, Y) ∧
      trimChars g1 = trimChars (taken.reverse ++ P) := by
  induction P generalizing taken with
  | nil =>
    refine ⟨taken.reverse, ?_, by simp⟩
    have h := matchCountrySuffix_of_ws [] Y (by simp) hne hY
    simp only [List.nil_append] at h ⊢
    rw [matchLazyName_cons, h]
  | cons c cs ih =>
    have hc2 := hc
    simp only [parensClosed, Bool.and_eq_true] at hc2
    by_cases hall : ∃ x ∈ c :: cs, isJSWhitespace x = false
    · have hnone := matchCountrySuffix_of_closed (c :: cs) Y hall hc
      have hltc : isLineTerminator c = false := hlt c (List.mem_cons_self _ _)
      obtain ⟨g1, hg, ht⟩ := ih (c :: taken)
        (fun x hx => hlt x (List.mem_cons_of_mem _ hx)) hc2.2
      refine ⟨g1, ?_, ?_⟩
      · rw [List.cons_append] at hnone ⊢
        rw [matchLazyName_cons, hnone]
        simp only [hltc, Bool.false_eq_true, if_false]
        exact hg
      · rw [ht]
        simp
    · have hws : ∀ x ∈ c :: cs, isJSWhitespace x = true := by
        intro x hx
        cases hb : isJSWhitespace x with
        | true => rfl
        | false => exact absurd ⟨x, hx, hb⟩ hall
      have hsome := matchCountrySuffix_of_ws (c :: cs) Y hws hne hY
      refine ⟨taken.reverse, ?_, (trimChars_append_ws _ _ hws).symm⟩
      rw [List.cons_append] at hsome ⊢
      rw [matchLazyName_cons, hsome]

theorem parensClosed_append_space (X : List Char) :
    parensClosed (X ++ [' ']) = parensClosed X := by
  induction X with
  | nil => rfl
  | cons c cs ih =>
    simp only [List.cons_append, parensClosed, ih]
    congr 1
    have : (')' ∈ cs ++ [' ']) ↔ (')' ∈ cs) := by
      simp
    simp [this]

theorem matchPlayer_spec (X Y : List Char)
    (hlt : ∀ x ∈ X, isLineTerminator x = false) (hc : parensClosed X = true)
    (hne : Y ≠ []) (hY : ')' ∉ Y) :
    ∃ g1, matchPlayer (X ++ ' ' :: '(' :: (Y ++ [')'])) = some (g1, Y) ∧
      trimChars g1 = trimChars X := by
  have hsp : isLineTerminator ' ' = false := by decide
  have hlt2 : ∀ x ∈ X ++ [' '], isLineTerminator x = false := by
    intro x hx
    rcases List.mem_append.1 hx with hx | hx
    · exact hlt x hx
    · rw [List.mem_singleton] at hx; rw [hx]; exact hsp
  have hc2 : parensClosed (X ++ [' ']) = true := by rw [parensClosed_append_space]; exact hc
  have hsplit : X ++ ' ' :: '(' :: (Y ++ [')']) = (X ++ [' ']) ++ '(' :: (Y ++ [')']) := by simp
  rw [hsplit]
  have htrim : trimChars (X ++ [' ']) = trimChars X :=
    trimChars_append_ws X [' '] (by intro x hx; rw [List.mem_singleton] at hx; rw [hx]; decide)
  cases hX : X ++ [' '] with
  | nil => simp at hX
  | cons c cs =>
    rw [hX] at hlt2 hc2 htrim
    have hc3 := hc2
    simp only [parensClosed, Bool.and_eq_true] at hc3
    obtain ⟨g1, hg, ht⟩ := matchLazyName_spec Y hne hY cs [c]
      (fun x hx => hlt2 x (List.mem_cons_of_mem _ hx)) hc3.2
    refine ⟨g1, ?_, ?_⟩
    · rw [List.cons_append]
      unfold matchPlayer
      simp only [hlt2 c (List.mem_cons_self _ _), Bool.false_eq_true, if_false]
      exact hg
    · rw [ht, ← htrim]
      rfl

theorem matchCountrySuffix_no_open (rest : List Char) (h : '(' ∉ rest) :
    matchCountrySuffix rest = none := by
  rw [matchCountrySuffix_eq]
  cases hd : rest.dropWhile isJSWhitespace with
  | nil => rfl
  | cons c body =>
    have hmem : c ∈ rest := by
      have : c ∈ rest.dropWhile isJSWhitespace := by rw [hd]; exact List.mem_cons_self _ _
      exact (List.dropWhile_sublist _).subset this
    have : c ≠ '(' := fun hc => h (hc ▸ hmem)
    simp [this]

theorem matchLazyName_no_open (rest taken : List Char) (h : '(' ∉ rest) :
    matchLazyName taken rest = none := by
  induction rest generalizing taken with
  | nil => exact matchLazyName_nil taken
  | cons c cs ih =>
    rw [matchLazyName_cons, matchCountrySuffix_no_open (c :: cs) h]
    simp only []
    split
    · rfl
    · exact ih _ (fun hc => h (List.mem_cons_of_mem _ hc))

/-- C11 (amended): for every text `X` without a line break in which every
opening bracket is closed later, and every non-empty text `Y` without a closing
bracket, `parsePlayer` returns `name = X` (trimmed) and `country = Y` (trimmed)
for the raw identity `X (Y)`; for every raw string that contains no brackets
it returns the whole trimmed string as `name` and `country = "Unknown"`. -/
theorem parsePlayer_spec :
    (∀ X Y : String,
      (∀ x ∈ X.toList, isLineTerminator x = false) → parensClosed X.toList = true →
      Y ≠ "" → ')' ∉ Y.toList →
      parsePlayer (X ++ " (" ++ Y ++ ")") = { name := jsTrim X, country := jsTrim Y }) ∧
    (∀ raw : String, '(' ∉ raw.toList → ')' ∉ raw.toList →
      parsePlayer raw = { name := jsTrim raw, country := "Unknown" }) := by
  constructor
  · intro X Y hlt hc hne hY
    have hne2 : Y.toList ≠ [] := by
      intro h
      apply hne
      cases Y with
      | mk d => simp only [String.toList] at h; subst h; rfl
    obtain ⟨g1, hg, ht⟩ := matchPlayer_spec X.toList Y.toList hlt hc hne2 hY
    have hl : (X ++ " (" ++ Y ++ ")").toList =
        X.toList ++ ' ' :: '(' :: (Y.toList ++ [')']) := by
      simp [String.toList, String.data_append]
    unfold parsePlayer jsTrim
    rw [hl, hg]
    simp only [ht]
  · intro raw h1 _
    have hnone : matchPlayer raw.toList = none := by
      unfold matchPlayer
      cases hr : raw.toList with
      | nil => rfl
      | cons c cs =>
        simp only []
        split
        · rfl
        · apply matchLazyName_no_open
          intro hc
          apply h1
          rw [hr]
          exact List.mem_cons_of_mem _ hc
    unfold parsePlayer jsTrim
    rw [hnone]

/-- An instance of the amended C11: the identity of the scenario of the
specification, and a text without brackets. -/
theorem parsePlayer_spec_witness :
    ((∀ x ∈ "Sachin Tendulkar".toList, isLineTerminator x = false) ∧
      parensClosed "Sachin Tendulkar".toList = true ∧ "IND" ≠ "" ∧ ')' ∉ "IND".toList) ∧
    parsePlayer ("Sachin Tendulkar" ++ " (" ++ "IND" ++ ")") =
      { name := jsTrim "Sachin Tendulkar", country := jsTrim "IND" } ∧
    parsePlayer "  Plain Name " = { name := jsTrim "  Plain Name ", country := "Unknown" } :=
  ⟨by decide,
   parsePlayer_spec.1 "Sachin Tendulkar" "IND" (by decide) (by decide) (by decide) (by decide),
   parsePlayer_spec.2 "  Plain Name " (by decide) (by decide)⟩

/-- C11 as stated fails: `A ()` (empty country), `A (B))` (a closing bracket in
the country), a name with a line break, and `A (B (C)` (an opening bracket in
the name that is never closed) are of the form `X (Y)`, and `parsePlayer` does
not return `X` and `Y` for them. -/
theorem parsePlayer_form_not_enough :
    (parsePlayer ("A" ++ " (" ++ "" ++ ")") = { name := "A ()", country := "Unknown" } ∧
      parsePlayer ("A" ++ " (" ++ "" ++ ")") ≠ { name := jsTrim "A", country := jsTrim "" }) ∧
    (parsePlayer ("A" ++ " (" ++ "B)" ++ ")") = { name := "A (B))", country := "Unknown" } ∧
      parsePlayer ("A" ++ " (" ++ "B)" ++ ")") ≠ { name := jsTrim "A", country := jsTrim "B)" }) ∧
    (parsePlayer ("A\nB" ++ " (" ++ "IND" ++ ")") =
        { name := "A\nB (IND)", country := "Unknown" } ∧
      parsePlayer ("A\nB" ++ " (" ++ "IND" ++ ")") ≠
        { name := jsTrim "A\nB", country := jsTrim "IND" }) ∧
    (parsePlayer ("A (B" ++ " (" ++ "C" ++ ")") = { name := "A", country := "B (C" } ∧
      parsePlayer ("A (B" ++ " (" ++ "C" ++ ")") ≠
        { name := jsTrim "A (B", country := jsTrim "C" }) := by
  decide

/-! ### parseSpan -/

theorem splitOnChar_of_not_mem (sep : Char) (a : List Char) (h : sep ∉ a) :
    splitOnChar sep a = [a] := by
  induction a with
  | nil => rfl
  | cons c cs ih =>
    have hc : c ≠ sep := fun e => h (e ▸ List.mem_cons_self _ _)
    have hcs : sep ∉ cs := fun e => h (List.mem_cons_of_mem _ e)
    simp [splitOnChar, hc, ih hcs]

theorem splitOnChar_append (sep : Char) (a b : List Char) (h : sep ∉ a) :
    splitOnChar sep (a ++ sep :: b) = a :: splitOnChar sep b := by
  induction a with
  | nil => simp [splitOnChar]
  | cons c cs ih =>
    have hc : c ≠ sep := fun e => h (e ▸ List.mem_cons_self _ _)
    have hcs : sep ∉ cs := fun e => h (List.mem_cons_of_mem _ e)
    simp [splitOnChar, hc, ih hcs]

theorem splitOnChar_head (sep : Char) (b : List Char) :
    ∃ rest, splitOnChar sep b = b.takeWhile (fun c => decide (c ≠ sep)) :: rest := by
  induction b with
  | nil => exact ⟨[], rfl⟩
  | cons c cs ih =>
    by_cases hc : c = sep
    · exact ⟨splitOnChar sep cs, by simp [splitOnChar, hc]⟩
    · obtain ⟨rest, hr⟩ := ih
      exact ⟨rest, by simp [splitOnChar, hc, hr]⟩

theorem string_mk_ne_empty (l : List Char) (h : l ≠ []) : String.mk l ≠ "" := by
  intro e
  apply h
  have := congrArg String.data e
  simpa using this

/-- C12 (amended): `parseSpan` returns `{null, null}` for the empty (or
missing) input.  Otherwise the text is cut at every `-` and the first two parts
are decided independently of each other: the start from the text before the
first `-` alone, the end from the text between the first and the second `-`
alone (no end when there is no `-`).  A part that is absent or empty gives
`null`; a part at whose front `parseInt` reads an integer gives that integer;
any other part gives `NaN`, not `null`.  So a malformed end never changes the
start, and a malformed start yields `start = NaN`. -/
theorem parseSpan_spec :
    parseSpan "" = { start := SpanBound.null, stop := SpanBound.null } ∧
    (∀ a b : List Char, '-' ∉ a →
      (parseSpan (String.mk (a ++ '-' :: b))).start = spanPart a ∧
      (parseSpan (String.mk (a ++ '-' :: b))).stop =
        spanPart (b.takeWhile (fun c => decide (c ≠ '-')))) ∧
    (∀ a : List Char, a ≠ [] → '-' ∉ a →
      parseSpan (String.mk a) = { start := spanPart a, stop := SpanBound.null }) ∧
    (∀ part : List Char,
      (part = [] → spanPart part = SpanBound.null) ∧
      (∀ n, part ≠ [] → parseInt (String.mk part) = some n → spanPart part = SpanBound.year n) ∧
      (part ≠ [] → parseInt (String.mk part) = none → spanPart part = SpanBound.nan)) := by
  refine ⟨by decide, ?_, ?_, ?_⟩
  · intro a b ha
    have hne : String.mk (a ++ '-' :: b) ≠ "" := string_mk_ne_empty _ (by simp)
    obtain ⟨rest, hr⟩ := splitOnChar_head '-' b
    unfold parseSpan
    simp only [hne, if_false, String.toList, splitOnChar_append '-' a b ha, hr]
    exact ⟨trivial, trivial⟩
  · intro a hne ha
    have hne2 : String.mk a ≠ "" := string_mk_ne_empty _ hne
    unfold parseSpan
    simp only [hne2, if_false, String.toList, splitOnChar_of_not_mem '-' a ha]
  · intro part
    refine ⟨?_, ?_, ?_⟩
    · intro h; simp [spanPart, h]
    · intro n h hp; simp [spanPart, h, hp]
    · intro h hp; simp [spanPart, h, hp]

/-- An instance of the amended C12: the span `1989-2012`, a malformed end after
a valid start, and a malformed start. -/
theorem parseSpan_spec_witness :
    '-' ∉ "1989".toList ∧
    ((parseSpan (String.mk ("1989".toList ++ '-' :: "20x12".toList))).start =
        spanPart "1989".toList ∧
      (parseSpan (String.mk ("1989".toList ++ '-' :: "20x12".toList))).stop =
        spanPart ("20x12".toList.takeWhile (fun c => decide (c ≠ '-')))) ∧
    parseSpan "1989-2012" = { start := SpanBound.year 1989, stop := SpanBound.year 2012 } ∧
    parseSpan "1989-x" = { start := SpanBound.year 1989, stop := SpanBound.nan } ∧
    parseSpan "x-2012" = { start := SpanBound.nan, stop := SpanBound.year 2012 } ∧
    parseSpan "1989-" = { start := SpanBound.year 1989, stop := SpanBound.null } ∧
    parseSpan "1989" = { start := SpanBound.year 1989, stop := SpanBound.null } :=
  ⟨by decide, parseSpan_spec.2.1 "1989".toList "20x12".toList (by decide),
   by decide, by decide, by decide, by decide, by decide⟩

/-- C12 as stated fails: a start that is no integer gives `NaN`, not `null`; a
start with an integer at its front and other text after it gives that integer,
not `null`; and the end is read from the text up to the second `-`, so the end
text `-3` of `5--3` gives `null`, not `-3`. -/
theorem parseSpan_malformed_not_null :
    (parseInt "abc" = none ∧
      (parseSpan "abc-2000").start = SpanBound.nan ∧
      (parseSpan "abc-2000").start ≠ SpanBound.null) ∧
    ((parseSpan "1989abc-2012").start = SpanBound.year 1989 ∧
      (parseSpan "1989abc-2012").start ≠ SpanBound.null) ∧
    (parseInt "-3" = some (-3) ∧ (parseSpan "5--3").stop = SpanBound.null) := by
  decide

/-! ### Stat records and the registry -/

theorem ensure_cases (players : List Player) (name : String) (p : Player) :
    (playersHas players name = true ∧
      (if !playersHas players name then playersSet players name p else players) = players) ∨
    (playersHas players name = false ∧
      (if !playersHas players name then playersSet players name p else players) =
        players ++ [p]) := by
  cases h : playersHas players name with
  | true => left; simp
  | false => right; simp [playersSet, h]

theorem playersHas_of_mem (players : List Player) (p : Player) (hp : p ∈ players) :
    playersHas players p.name = true := by
  unfold playersHas
  rw [List.any_eq_true]
  exact ⟨p, hp, by simp⟩

theorem playersHas_append (players : List Player) (p : Player) (name : String)
    (h : playersHas players name = true) : playersHas (players ++ [p]) name = true := by
  unfold playersHas at *
  rw [List.any_append, h]
  rfl

theorem playersGet_some (players : List Player) (name : String) (q : Player)
    (h : playersGet players name = some q) : q ∈ players ∧ q.name = name := by
  unfold playersGet at h
  exact ⟨List.mem_of_find?_eq_some h, by simpa using List.find?_some h⟩

theorem playersGet_of_not_has (players : List Player) (name : String)
    (h : playersHas players name = false) : playersGet players name = none := by
  unfold playersGet
  rw [List.find?_eq_none]
  intro x hx
  have := (List.any_eq_false.1 h) x hx
  simpa using this

theorem mem_updateFirst (pred : Stat → Bool) (f : Stat → Stat) (l : List Stat) (r : Stat)
    (h : r ∈ updateFirst pred f l) : r ∈ l ∨ ∃ r0 ∈ l, r = f r0 := by
  induction l with
  | nil => cases h
  | cons x xs ih =>
    by_cases hx : pred x = true
    · simp only [updateFirst, hx, if_true] at h
      rcases List.mem_cons.1 h with rfl | h
      · exact Or.inr ⟨x, List.mem_cons_self _ _, rfl⟩
      · exact Or.inl (List.mem_cons_of_mem _ h)
    · simp only [updateFirst, hx, if_false] at h
      rcases List.mem_cons.1 h with rfl | h
      · exact Or.inl (List.mem_cons_self _ _)
      · rcases ih h with h | ⟨r0, hr0, e⟩
        · exact Or.inl (List.mem_cons_of_mem _ h)
        · exact Or.inr ⟨r0, List.mem_cons_of_mem _ hr0, e⟩

/-- The registry part of the invariant when a row of identity `i` leaves the
registry as it is or appends a new player of that identity. -/
theorem denorm_registry (players players2 : List Player) (ids : List Identity) (i : Identity)
    (p : Player) (hp : p.name = i.name) (hpc : p.country = i.country)
    (hcase : (playersHas players i.name = true ∧ players2 = players) ∨
      (playersHas players i.name = false ∧ players2 = players ++ [p]))
    (h3 : ∀ q ∈ players,
      ids.find? (fun j => decide (j.name = q.name)) = some { name := q.name, country := q.country })
    (h4 : ∀ j ∈ ids, playersHas players j.name = true) :
    (∀ q ∈ players, q ∈ players2) ∧
    (∀ q ∈ players2,
      (ids ++ [i]).find? (fun j => decide (j.name = q.name)) =
        some { name := q.name, country := q.country }) ∧
    (∀ j ∈ ids ++ [i], playersHas players2 j.name = true) := by
  have hold : ∀ q ∈ players,
      (ids ++ [i]).find? (fun j => decide (j.name = q.name)) =
        some { name := q.name, country := q.country } := by
    intro q hq
    rw [List.find?_append, h3 q hq]
    rfl
  rcases hcase with ⟨hhas, e⟩ | ⟨hhas, e⟩
  · subst e
    refine ⟨fun q hq => hq, hold, ?_⟩
    intro j hj
    rcases List.mem_append.1 hj with hj | hj
    · exact h4 j hj
    · rw [List.mem_singleton] at hj
      rw [hj]; exact hhas
  · subst e
    refine ⟨fun q hq => List.mem_append_left _ hq, ?_, ?_⟩
    · intro q hq
      rcases List.mem_append.1 hq with hq | hq
      · exact hold q hq
      · rw [List.mem_singleton] at hq
        subst hq
        have hnone : ids.find? (fun j => decide (j.name = q.name)) = none := by
          rw [List.find?_eq_none]
          intro j hj hc
          have hjn : j.name = i.name := by
            have : j.name = q.name := by simpa using hc
            rw [this, hp]
          have := h4 j hj
          rw [hjn, hhas] at this
          cases this
        rw [List.find?_append, hnone]
        simp [List.find?_cons, hp, hpc]
    · intro j hj
      rcases List.mem_append.1 hj with hj | hj
      · exact playersHas_append _ _ _ (h4 j hj)
      · rw [List.mem_singleton] at hj
        rw [hj, ← hp]
        exact playersHas_of_mem _ _ (List.mem_append_right _ (List.mem_singleton_self _))

theorem identity_eta (i : Identity) : ({ name := i.name, country := i.country } : Identity) = i := by
  cases i; rfl

theorem battingRowStep_denorm (parseFloat : String → Option Rat) (format : String) (s : Store)
    (row : BattingRow) (ids : List Identity) (h : DenormInv s ids) :
    DenormInv (battingRowStep parseFloat format s row) (ids ++ [parsePlayer row.Player]) := by
  obtain ⟨h1, h2, h3, h4⟩ := h
  obtain ⟨hsub, hreg, hhas⟩ := denorm_registry s.players _ ids (parsePlayer row.Player)
    { id := s.players.length + 1, name := (parsePlayer row.Player).name,
      country := (parsePlayer row.Player).country, primary_role := "batsman" } rfl rfl
    (ensure_cases s.players (parsePlayer row.Player).name _) h3 h4
  unfold battingRowStep
  simp only []
  split
  · refine ⟨?_, ?_, hreg, hhas⟩
    · intro r hr
      obtain ⟨q, hq, e⟩ := h1 r hr
      exact ⟨q, hsub q hq, e⟩
    · intro r hr
      exact List.mem_append_left _ (h2 r hr)
  · rename_i player hget
    obtain ⟨hpm, hpn⟩ := playersGet_some _ _ _ hget
    refine ⟨?_, ?_, hreg, hhas⟩
    · intro r hr
      rcases List.mem_append.1 hr with hr | hr
      · obtain ⟨q, hq, e⟩ := h1 r hr
        exact ⟨q, hsub q hq, e⟩
      · rw [List.mem_singleton] at hr
        subst hr
        exact ⟨player, hpm, hpn, rfl⟩
    · intro r hr
      rcases List.mem_append.1 hr with hr | hr
      · exact List.mem_append_left _ (h2 r hr)
      · rw [List.mem_singleton] at hr
        subst hr
        simp only [identity_eta]
        exact List.mem_append_right _ (List.mem_singleton_self _)

theorem bowlingRowStep_denorm (parseFloat : String → Option Rat) (format : String) (s : Store)
    (row : BowlingRow) (ids : List Identity) (h : DenormInv s ids) :
    DenormInv (bowlingRowStep parseFloat format s row) (ids ++ [parsePlayer row.Player]) := by
  obtain ⟨h1, h2, h3, h4⟩ := h
  obtain ⟨hsub, hreg, hhas⟩ := denorm_registry s.players _ ids (parsePlayer row.Player)
    { id := s.players.length + 1, name := (parsePlayer row.Player).name,
      country := (parsePlayer row.Player).country, primary_role := "bowler" } rfl rfl
    (ensure_cases s.players (parsePlayer row.Player).name _) h3 h4
  unfold bowlingRowStep
  simp only []
  split
  · refine ⟨?_, ?_, hreg, hhas⟩
    · intro r hr
      obtain ⟨q, hq, e⟩ := h1 r hr
      exact ⟨q, hsub q hq, e⟩
    · intro r hr
      exact List.mem_append_left _ (h2 r hr)
  · rename_i player hget
    obtain ⟨hpm, hpn⟩ := playersGet_some _ _ _ hget
    split
    · refine ⟨?_, ?_, hreg, hhas⟩
      · intro r hr
        rcases mem_updateFirst _ _ _ _ hr with hr | ⟨r0, hr0, rfl⟩
        · obtain ⟨q, hq, e⟩ := h1 r hr
          exact ⟨q, hsub q hq, e⟩
        · obtain ⟨q, hq, e⟩ := h1 r0 hr0
          exact ⟨q, hsub q hq, e⟩
      · intro r hr
        rcases mem_updateFirst _ _ _ _ hr with hr | ⟨r0, hr0, rfl⟩
        · exact List.mem_append_left _ (h2 r hr)
        · exact List.mem_append_left _ (h2 r0 hr0)
    · refine ⟨?_, ?_, hreg, hhas⟩
      · intro r hr
        rcases List.mem_append.1 hr with hr | hr
        · obtain ⟨q, hq, e⟩ := h1 r hr
          exact ⟨q, hsub q hq, e⟩
        · rw [List.mem_singleton] at hr
          subst hr
          exact ⟨player, hpm, hpn, rfl⟩
      · intro r hr
        rcases List.mem_append.1 hr with hr | hr
        · exact List.mem_append_left _ (h2 r hr)
        · rw [List.mem_singleton] at hr
          subst hr
          simp only [identity_eta]
          exact List.mem_append_right _ (List.mem_singleton_self _)

theorem fieldingRowStep_denorm (format : String) (s : Store)
    (row : FieldingRow) (ids : List Identity) (h : DenormInv s ids) :
    DenormInv (fieldingRowStep format s row) (ids ++ [parsePlayer row.Player]) := by
  obtain ⟨h1, h2, h3, h4⟩ := h
  unfold fieldingRowStep
  simp only []
  split
  · rename_i hany
    rw [List.any_eq_true] at hany
    obtain ⟨r0, hr0, hk⟩ := hany
    have hn : r0.player_name = (parsePlayer row.Player).name := by
      have := hk; simp only [decide_eq_true_eq] at this; exact this.1
    obtain ⟨q0, hq0, e0⟩ := h1 r0 hr0
    have hhas0 : playersHas s.players (parsePlayer row.Player).name = true := by
      rw [← hn, ← e0.1]; exact playersHas_of_mem _ _ hq0
    obtain ⟨_, hreg, hhas⟩ := denorm_registry s.players s.players ids (parsePlayer row.Player)
      { id := 0, name := (parsePlayer row.Player).name,
        country := (parsePlayer row.Player).country, primary_role := "" } rfl rfl
      (Or.inl ⟨hhas0, rfl⟩) h3 h4
    refine ⟨?_, ?_, hreg, hhas⟩
    · intro r hr
      rcases mem_updateFirst _ _ _ _ hr with hr | ⟨r1, hr1, rfl⟩
      · exact h1 r hr
      · exact h1 r1 hr1
    · intro r hr
      rcases mem_updateFirst _ _ _ _ hr with hr | ⟨r1, hr1, rfl⟩
      · exact List.mem_append_left _ (h2 r hr)
      · exact List.mem_append_left _ (h2 r1 hr1)
  · cases hh : playersHas s.players (parsePlayer row.Player).name with
    | true =>
      obtain ⟨hsub, hreg, hhas⟩ := denorm_registry s.players s.players ids
        (parsePlayer row.Player)
        { id := 0, name := (parsePlayer row.Player).name,
          country := (parsePlayer row.Player).country, primary_role := "" } rfl rfl
        (Or.inl ⟨hh, rfl⟩) h3 h4
      obtain ⟨q, hq⟩ := playersGet_after_ensure s.players (parsePlayer row.Player).name
        { id := 0, name := (parsePlayer row.Player).name,
          country := (parsePlayer row.Player).country, primary_role := "" } rfl
      simp only [hh, Bool.not_true, Bool.false_eq_true, if_false] at hq
      obtain ⟨hqm, hqn⟩ := playersGet_some _ _ _ hq
      simp only [Bool.not_true, Bool.false_eq_true, if_false, hq]
      refine ⟨?_, ?_, hreg, hhas⟩
      · intro r hr
        rcases List.mem_append.1 hr with hr | hr
        · exact h1 r hr
        · rw [List.mem_singleton] at hr
          subst hr
          exact ⟨q, hqm, hqn, rfl⟩
      · intro r hr
        rcases List.mem_append.1 hr with hr | hr
        · exact List.mem_append_left _ (h2 r hr)
        · rw [List.mem_singleton] at hr
          subst hr
          simp only [identity_eta]
          exact List.mem_append_right _ (List.mem_singleton_self _)
    | false =>
      obtain ⟨hsub, hreg, hhas⟩ := denorm_registry s.players
        (s.players ++ [(Player.mk (s.players.length + 1) (parsePlayer row.Player).name
          (parsePlayer row.Player).country "wicket-keeper")])
        ids (parsePlayer row.Player)
        { id := s.players.length + 1, name := (parsePlayer row.Player).name,
          country := (parsePlayer row.Player).country, primary_role := "wicket-keeper" } rfl rfl
        (Or.inr ⟨hh, rfl⟩) h3 h4
      simp only [playersGet_of_not_has _ _ hh, Bool.not_false, if_true, playersSet, hh,
        Bool.false_eq_true, if_false]
      refine ⟨?_, ?_, hreg, hhas⟩
      · intro r hr
        rcases List.mem_append.1 hr with hr | hr
        · obtain ⟨q, hq, e⟩ := h1 r hr
          exact ⟨q, hsub q hq, e⟩
        · rw [List.mem_singleton] at hr
          subst hr
          exact ⟨_, List.mem_append_right _ (List.mem_singleton_self _), rfl, rfl⟩
      · intro r hr
        rcases List.mem_append.1 hr with hr | hr
        · exact List.mem_append_left _ (h2 r hr)
        · rw [List.mem_singleton] at hr
          subst hr
          simp only [identity_eta]
          exact List.mem_append_right _ (List.mem_singleton_self _)

theorem foldl_rows_denorm {ρ : Type} (step : Store → ρ → Store) (player : ρ → String)
    (hstep : ∀ s row ids, DenormInv s ids → DenormInv (step s row) (ids ++ [parsePlayer (player row)]))
    (rows : List ρ) (s : Store) (ids : List Identity) (h : DenormInv s ids) :
    DenormInv (rows.foldl step s) (ids ++ rows.map (fun row => parsePlayer (player row))) := by
  induction rows generalizing s ids with
  | nil => simpa using h
  | cons row rows ih =>
    have := ih (step s row) _ (hstep s row ids h)
    simpa [List.append_assoc] using this

theorem processFiles_denorm {ρ : Type} (labels : List String)
    (step : String → Store → ρ → Store) (player : ρ → String)
    (files : String → Option (List ρ))
    (hstep : ∀ label s row ids, DenormInv s ids →
      DenormInv (step label s row) (ids ++ [parsePlayer (player row)]))
    (s : Store) (ids : List Identity) (h : DenormInv s ids) :
    DenormInv (processFiles labels step files s) (ids ++ rowIdentities labels files player) := by
  unfold processFiles rowIdentities
  induction labels generalizing s ids with
  | nil => simpa using h
  | cons label labels ih =>
    simp only [List.foldl_cons, List.flatMap_cons]
    cases hfile : files label with
    | none =>
      simpa using ih s ids h
    | some rows =>
      have := ih _ _ (foldl_rows_denorm (step label) player (hstep label) rows s ids h)
      simpa [List.append_assoc] using this

theorem mergeAll_denorm (parseFloat : String → Option Rat)
    (batting : String → Option (List BattingRow))
    (bowling : String → Option (List BowlingRow))
    (fielding : String → Option (List FieldingRow)) :
    DenormInv (mergeAll parseFloat batting bowling fielding)
      (allRowIdentities batting bowling fielding) := by
  have h0 : DenormInv Store.empty [] := by
    refine ⟨by simp [Store.empty], by simp [Store.empty], by simp [Store.empty], by simp⟩
  have h1 := processFiles_denorm battingFormats (battingRowStep parseFloat) BattingRow.Player
    batting (fun label s row ids h => battingRowStep_denorm parseFloat label s row ids h) _ _ h0
  have h2 := processFiles_denorm bowlingFormats (bowlingRowStep parseFloat) BowlingRow.Player
    bowling (fun label s row ids h => bowlingRowStep_denorm parseFloat label s row ids h) _ _ h1
  have h3 := processFiles_denorm fieldingFormats fieldingRowStep FieldingRow.Player
    fielding (fun label s row ids h => fieldingRowStep_denorm label s row ids h) _ _ h2
  simpa [mergeAll, processBattingData, processBowlingData, processFieldingData,
    allRowIdentities, List.append_assoc] using h3

/-- C13 (amended): after the three passes, every stat record's `player_id` and
`player_name` are the id and name of a Player of the registry (the one
registered under that name), whose country is the country of the first row of
that name; the record's `player_country` is the country of a row of that name,
so it equals the Player's country whenever all rows of a name carry the same
country. -/
theorem stats_denormalized (parseFloat : String → Option Rat)
    (batting : String → Option (List BattingRow))
    (bowling : String → Option (List BowlingRow))
    (fielding : String → Option (List FieldingRow)) :
    (mergeAll parseFloat batting bowling fielding).playerStats.Forall (fun r =>
      ∃ p ∈ (mergeAll parseFloat batting bowling fielding).players,
        p.name = r.player_name ∧ p.id = r.player_id ∧
        (allRowIdentities batting bowling fielding).find? (fun i => decide (i.name = p.name)) =
          some { name := p.name, country := p.country } ∧
        ({ name := r.player_name, country := r.player_country } : Identity) ∈
          allRowIdentities batting bowling fielding) ∧
    ((∀ i ∈ allRowIdentities batting bowling fielding,
        ∀ j ∈ allRowIdentities batting bowling fielding,
          i.name = j.name → i.country = j.country) →
      (mergeAll parseFloat batting bowling fielding).playerStats.Forall (fun r =>
        ∃ p ∈ (mergeAll parseFloat batting bowling fielding).players,
          p.name = r.player_name ∧ p.id = r.player_id ∧ p.country = r.player_country)) := by
  obtain ⟨h1, h2, h3, _⟩ := mergeAll_denorm parseFloat batting bowling fielding
  have hmain : ∀ r ∈ (mergeAll parseFloat batting bowling fielding).playerStats,
      ∃ p ∈ (mergeAll parseFloat batting bowling fielding).players,
        p.name = r.player_name ∧ p.id = r.player_id ∧
        (allRowIdentities batting bowling fielding).find? (fun i => decide (i.name = p.name)) =
          some { name := p.name, country := p.country } ∧
        ({ name := r.player_name, country := r.player_country } : Identity) ∈
          allRowIdentities batting bowling fielding := by
    intro r hr
    obtain ⟨p, hp, hn, hi⟩ := h1 r hr
    exact ⟨p, hp, hn, hi, h3 p hp, h2 r hr⟩
  constructor
  · rw [List.forall_iff_forall_mem]
    exact hmain
  · intro hsame
    rw [List.forall_iff_forall_mem]
    intro r hr
    obtain ⟨p, hp, hn, hi, hf, hm⟩ := hmain r hr
    refine ⟨p, hp, hn, hi, ?_⟩
    have hfm := List.mem_of_find?_eq_some hf
    have := hsame _ hfm _ hm (by simpa using hn)
    simpa using this

/-- An instance of the amended C13: the two rows of Sachin Tendulkar carry the
same country, and the merged record has the id, name and country of the
registered player. -/
theorem stats_denormalized_witness :
    (∀ i ∈ allRowIdentities
        (fun label => if label = "ODI data" then some [sachinBattingRow] else none)
        (fun label => if label = "Bowling_ODI" then some [sachinBowlingRow] else none)
        (fun _ => none),
      ∀ j ∈ allRowIdentities
        (fun label => if label = "ODI data" then some [sachinBattingRow] else none)
        (fun label => if label = "Bowling_ODI" then some [sachinBowlingRow] else none)
        (fun _ => none),
        i.name = j.name → i.country = j.country) ∧
    (mergeAll sampleParseFloat
        (fun label => if label = "ODI data" then some [sachinBattingRow] else none)
        (fun label => if label = "Bowling_ODI" then some [sachinBowlingRow] else none)
        (fun _ => none)).playerStats.Forall (fun r =>
      ∃ p ∈ (mergeAll sampleParseFloat
          (fun label => if label = "ODI data" then some [sachinBattingRow] else none)
          (fun label => if label = "Bowling_ODI" then some [sachinBowlingRow] else none)
          (fun _ => none)).players,
        p.name = r.player_name ∧ p.id = r.player_id ∧ p.country = r.player_country) :=
  ⟨by decide,
   (stats_denormalized sampleParseFloat
      (fun label => if label = "ODI data" then some [sachinBattingRow] else none)
      (fun label => if label = "Bowling_ODI" then some [sachinBowlingRow] else none)
      (fun _ => none)).2 (by decide)⟩

/-- C13 as stated fails: the ODI batting row `ST Jayasuriya (Asia/SL)` registers
the player with country `Asia/SL`; the T20 batting row `ST Jayasuriya (SL)`
creates a stat record with `player_country = "SL"`, which is not the country of
the Player registered under its name. -/
theorem stats_country_not_registered :
    (mergeAll sampleParseFloat
        (fun label =>
          if label = "ODI data" then some [jayasuriyaOdiRow]
          else if label = "t20" then some [jayasuriyaT20Row] else none)
        (fun _ => none) (fun _ => none)).players =
      [{ id := 1, name := "ST Jayasuriya", country := "Asia/SL", primary_role := "batsman" }] ∧
    (mergeAll sampleParseFloat
        (fun label =>
          if label = "ODI data" then some [jayasuriyaOdiRow]
          else if label = "t20" then some [jayasuriyaT20Row] else none)
        (fun _ => none) (fun _ => none)).playerStats.map
      (fun r => (r.player_id, r.player_name, r.player_country, r.format)) =
      [(1, "ST Jayasuriya", "Asia/SL", "odi"), (1, "ST Jayasuriya", "SL", "t20")] ∧
    ¬ (mergeAll sampleParseFloat
        (fun label =>
          if label = "ODI data" then some [jayasuriyaOdiRow]
          else if label = "t20" then some [jayasuriyaT20Row] else none)
        (fun _ => none) (fun _ => none)).playerStats.Forall (fun r =>
      ∃ p ∈ (mergeAll sampleParseFloat
          (fun label =>
            if label = "ODI data" then some [jayasuriyaOdiRow]
            else if label = "t20" then some [jayasuriyaT20Row] else none)
          (fun _ => none) (fun _ => none)).players,
        p.name = r.player_name ∧ p.id = r.player_id ∧ p.country = r.player_country) := by
  decide

/-! ### First writer wins -/

/-- C14: when the registry holds a Player for the name to which a batting,
bowling or fielding row resolves, the row step returns the registry as it was,
whatever country the row names: the id and the country of that Player (and
every other entry) are unchanged and no Player is added. -/
theorem rowSteps_keep_registry (parseFloat : String → Option Rat) (format : String)
    (s : Store) :
    (∀ row : BattingRow, playersHas s.players (parsePlayer row.Player).name = true →
      (battingRowStep parseFloat format s row).players = s.players) ∧
    (∀ row : BowlingRow, playersHas s.players (parsePlayer row.Player).name = true →
      (bowlingRowStep parseFloat format s row).players = s.players) ∧
    (∀ row : FieldingRow, playersHas s.players (parsePlayer row.Player).name = true →
      (fieldingRowStep format s row).players = s.players) := by
  refine ⟨?_, ?_, ?_⟩
  · intro row h
    unfold battingRowStep
    simp only [h, Bool.not_true, Bool.false_eq_true, if_false]
    split <;> rfl
  · intro row h
    unfold bowlingRowStep
    simp only [h, Bool.not_true, Bool.false_eq_true, if_false]
    split
    · rfl
    · split <;> rfl
  · intro row h
    unfold fieldingRowStep
    simp only [h, Bool.not_true, Bool.false_eq_true, if_false]
    split <;> rfl

/-- An instance of C14: the registry holds `ST Jayasuriya` with country
`Asia/SL`; rows of all three domains that name the country `SL` leave it so. -/
theorem rowSteps_keep_registry_witness :
    jayasuriyaStore.players =
      [{ id := 1, name := "ST Jayasuriya", country := "Asia/SL", primary_role := "batsman" }] ∧
    (playersHas jayasuriyaStore.players (parsePlayer jayasuriyaT20Row.Player).name = true ∧
      (battingRowStep sampleParseFloat "t20" jayasuriyaStore jayasuriyaT20Row).players =
        jayasuriyaStore.players) ∧
    (playersHas jayasuriyaStore.players (parsePlayer jayasuriyaBowlingRow.Player).name = true ∧
      (bowlingRowStep sampleParseFloat "Bowling_ODI" jayasuriyaStore jayasuriyaBowlingRow).players =
        jayasuriyaStore.players) ∧
    (playersHas jayasuriyaStore.players (parsePlayer jayasuriyaFieldingRow.Player).name = true ∧
      (fieldingRowStep "Fielding_ODI" jayasuriyaStore jayasuriyaFieldingRow).players =
        jayasuriyaStore.players) :=
  ⟨by decide,
   ⟨by decide, (rowSteps_keep_registry sampleParseFloat "t20" jayasuriyaStore).1
      jayasuriyaT20Row (by decide)⟩,
   ⟨by decide, (rowSteps_keep_registry sampleParseFloat "Bowling_ODI" jayasuriyaStore).2.1
      jayasuriyaBowlingRow (by decide)⟩,
   ⟨by decide, (rowSteps_keep_registry sampleParseFloat "Fielding_ODI" jayasuriyaStore).2.2
      jayasuriyaFieldingRow (by decide)⟩⟩

/-! ### Records created by the bowling and fielding rows -/

theorem any_key_false (stats : List Stat) (name fmt : String)
    (h : ¬ ∃ r ∈ stats, r.player_name = name ∧ r.format = fmt) :
    stats.any (fun stat => decide (stat.player_name = name ∧ stat.format = fmt)) = false := by
  rw [List.any_eq_false]
  intro r hr hc
  exact h ⟨r, hr, by simpa using hc⟩

/-- C15 (amended): a bowling or fielding row whose key has no stat record
appends exactly one record; in it `not_out`, `runs`, `average`, `balls_faced`,
`strike_rate`, `hundreds`, `fifties`, `fours` and `sixes` are zero and `highest`
is the empty string, whatever the row contains, while `matches` and `innings`
are read from the cells `Mat` and `Inns` of the row (zero when the cell is no
number). -/
theorem created_record_batting_fields (parseFloat : String → Option Rat) (format : String)
    (s : Store) :
    (∀ row : BowlingRow,
      (¬ ∃ r ∈ s.playerStats, r.player_name = (parsePlayer row.Player).name ∧
        r.format = formatOfLabel "bowling_" format) →
      ∃ new : Stat,
        (bowlingRowStep parseFloat format s row).playerStats = s.playerStats ++ [new] ∧
        new.player_name = (parsePlayer row.Player).name ∧
        new.format = formatOfLabel "bowling_" format ∧
        new.not_out = 0 ∧ new.runs = 0 ∧ new.highest = "" ∧ new.average = 0 ∧
        new.balls_faced = 0 ∧ new.strike_rate = 0 ∧ new.hundreds = 0 ∧ new.fifties = 0 ∧
        new.fours = 0 ∧ new.sixes = 0 ∧
        new.matchesPlayed = intOrZero row.Mat ∧ new.innings = intOrZero row.Inns) ∧
    (∀ row : FieldingRow,
      (¬ ∃ r ∈ s.playerStats, r.player_name = (parsePlayer row.Player).name ∧
        r.format = formatOfLabel "fielding_" format) →
      ∃ new : Stat,
        (fieldingRowStep format s row).playerStats = s.playerStats ++ [new] ∧
        new.player_name = (parsePlayer row.Player).name ∧
        new.format = formatOfLabel "fielding_" format ∧
        new.not_out = 0 ∧ new.runs = 0 ∧ new.highest = "" ∧ new.average = 0 ∧
        new.balls_faced = 0 ∧ new.strike_rate = 0 ∧ new.hundreds = 0 ∧ new.fifties = 0 ∧
        new.fours = 0 ∧ new.sixes = 0 ∧
        new.matchesPlayed = intOrZero row.Mat ∧ new.innings = intOrZero row.Inns) := by
  constructor
  · intro row h
    have hany := any_key_false _ _ _ h
    obtain ⟨q, hq⟩ := playersGet_after_ensure s.players (parsePlayer row.Player).name
      { id := s.players.length + 1, name := (parsePlayer row.Player).name,
        country := (parsePlayer row.Player).country, primary_role := "bowler" } rfl
    unfold bowlingRowStep
    simp only [hq, hany, Bool.false_eq_true, if_false]
    exact ⟨_, rfl, rfl, rfl, rfl, rfl, rfl, rfl, rfl, rfl, rfl, rfl, rfl, rfl, rfl, rfl⟩
  · intro row h
    have hany := any_key_false _ _ _ h
    unfold fieldingRowStep
    simp only [hany, Bool.false_eq_true, if_false]
    exact ⟨_, rfl, rfl, rfl, rfl, rfl, rfl, rfl, rfl, rfl, rfl, rfl, rfl, rfl, rfl, rfl⟩

/-- An instance of the amended C15: the bowling row of the sample on the empty
store. -/
theorem created_record_batting_fields_witness :
    (¬ ∃ r ∈ Store.empty.playerStats, r.player_name = (parsePlayer sachinBowlingRow.Player).name ∧
      r.format = formatOfLabel "bowling_" "Bowling_ODI") ∧
    ∃ new : Stat,
      (bowlingRowStep sampleParseFloat "Bowling_ODI" Store.empty sachinBowlingRow).playerStats =
        Store.empty.playerStats ++ [new] ∧
      new.player_name = (parsePlayer sachinBowlingRow.Player).name ∧
      new.format = formatOfLabel "bowling_" "Bowling_ODI" ∧
      new.not_out = 0 ∧ new.runs = 0 ∧ new.highest = "" ∧ new.average = 0 ∧
      new.balls_faced = 0 ∧ new.strike_rate = 0 ∧ new.hundreds = 0 ∧ new.fifties = 0 ∧
      new.fours = 0 ∧ new.sixes = 0 ∧
      new.matchesPlayed = intOrZero sachinBowlingRow.Mat ∧
      new.innings = intOrZero sachinBowlingRow.Inns :=
  ⟨by decide,
   (created_record_batting_fields sampleParseFloat "Bowling_ODI" Store.empty).1
     sachinBowlingRow (by decide)⟩

/-- C15 as stated fails: the record that the bowling row of the sample creates
on the empty store has `matches = 463` and `innings = 270`, and the record that
a fielding row creates has the `Mat` and `Inns` of that row. -/
theorem created_record_matches_not_zero :
    (bowlingRowStep sampleParseFloat "Bowling_ODI" Store.empty sachinBowlingRow).playerStats.map
      (fun r => (r.matchesPlayed, r.innings, r.runs)) = [(463, 270, 0)] ∧
    (fieldingRowStep "Fielding_ODI" Store.empty jayasuriyaFieldingRow).playerStats.map
      (fun r => (r.matchesPlayed, r.innings, r.runs)) = [(445, 441, 0)] ∧
    ¬ (bowlingRowStep sampleParseFloat "Bowling_ODI" Store.empty
        sachinBowlingRow).playerStats.Forall
      (fun r => r.matchesPlayed = 0 ∧ r.innings = 0) := by
  decide

/-! ### Order of a batting row and a bowling row -/

/-- C16, the code at the failing input: from the empty store, the batting row
and the bowling row of the sample (same name, same format) leave one merged
record when the batting row comes first, and two records, one per domain, when
the bowling row comes first; the two stat lists do not hold the same records. -/
theorem batting_bowling_order_matters :
    ((parsePlayer sachinBattingRow.Player).name = (parsePlayer sachinBowlingRow.Player).name ∧
      formatOfLabel " data" "ODI data" = formatOfLabel "bowling_" "Bowling_ODI") ∧
    (bowlingRowStep sampleParseFloat "Bowling_ODI"
        (battingRowStep sampleParseFloat "ODI data" Store.empty sachinBattingRow)
        sachinBowlingRow).playerStats.map (fun r => (r.player_name, r.format, r.runs, r.wickets)) =
      [("Sachin Tendulkar", "odi", 18426, 154)] ∧
    (battingRowStep sampleParseFloat "ODI data"
        (bowlingRowStep sampleParseFloat "Bowling_ODI" Store.empty sachinBowlingRow)
        sachinBattingRow).playerStats.map (fun r => (r.player_name, r.format, r.runs, r.wickets)) =
      [("Sachin Tendulkar", "odi", 0, 154), ("Sachin Tendulkar", "odi", 18426, 0)] ∧
    ¬ (∀ r : Stat,
      r ∈ (bowlingRowStep sampleParseFloat "Bowling_ODI"
          (battingRowStep sampleParseFloat "ODI data" Store.empty sachinBattingRow)
          sachinBowlingRow).playerStats ↔
      r ∈ (battingRowStep sampleParseFloat "ODI data"
          (bowlingRowStep sampleParseFloat "Bowling_ODI" Store.empty sachinBowlingRow)
          sachinBattingRow).playerStats) := by
  have hA : (bowlingRowStep sampleParseFloat "Bowling_ODI"
        (battingRowStep sampleParseFloat "ODI data" Store.empty sachinBattingRow)
        sachinBowlingRow).playerStats.map (fun r => (r.player_name, r.format, r.runs, r.wickets)) =
      [("Sachin Tendulkar", "odi", 18426, 154)] := by decide
  have hB : (battingRowStep sampleParseFloat "ODI data"
        (bowlingRowStep sampleParseFloat "Bowling_ODI" Store.empty sachinBowlingRow)
        sachinBattingRow).playerStats.map (fun r => (r.player_name, r.format, r.runs, r.wickets)) =
      [("Sachin Tendulkar", "odi", 0, 154), ("Sachin Tendulkar", "odi", 18426, 0)] := by decide
  refine ⟨by decide, hA, hB, ?_⟩
  intro hsame
  have h0 : ("Sachin Tendulkar", "odi", (0 : Int), (154 : Int)) ∈
      (battingRowStep sampleParseFloat "ODI data"
        (bowlingRowStep sampleParseFloat "Bowling_ODI" Store.empty sachinBowlingRow)
        sachinBattingRow).playerStats.map
        (fun r => (r.player_name, r.format, r.runs, r.wickets)) := by
    rw [hB]; exact List.mem_cons_self _ _
  obtain ⟨r, hr, e⟩ := List.mem_map.1 h0
  have hr2 := (hsame r).2 hr
  have h1 := List.mem_map_of_mem (fun r => (r.player_name, r.format, r.runs, r.wickets)) hr2
  rw [hA] at h1
  simp only [] at h1
  rw [e] at h1
  revert h1
  decide

/-! ### Comparison -/

/-- C17, the code at the failing input: with the metric list `runs` the
comparison gives the per-format objects of the selected player all eight
fields, not only `runs`, and the metric list `wickets` gives the very same
answer; the answer never depends on the metric list. -/
theorem comparePlayers_ignores_metrics :
    comparePlayers sampleSnapshotPlayers sampleSnapshotStats (some "1") "runs" =
      CompareResponse.ok
        [{ id := 1, name := "A", country := "IND", primary_role := "batsman",
           stats := [("odi", comparedFields (sampleStat "A" "IND" "odi" 100 0)),
                     ("test", comparedFields (sampleStat "A" "IND" "test" 50 1))] }] ∧
    (comparedFields (sampleStat "A" "IND" "odi" 100 0)).map (fun kv => kv.1) =
      ["runs", "average", "strike_rate", "hundreds", "fifties", "wickets", "bowling_average",
       "matches"] ∧
    (comparedFields (sampleStat "A" "IND" "odi" 100 0)).map (fun kv => kv.1) ≠ ["runs"] ∧
    comparePlayers sampleSnapshotPlayers sampleSnapshotStats (some "1") "runs" =
      comparePlayers sampleSnapshotPlayers sampleSnapshotStats (some "1") "wickets" ∧
    (∀ (players : List Player) (playerStats : List Stat) (playerIds : Option String)
        (metrics1 metrics2 : String),
      comparePlayers players playerStats playerIds metrics1 =
        comparePlayers players playerStats playerIds metrics2) := by
  refine ⟨by with_unfolding_all decide, by decide, by decide, rfl, ?_⟩
  intro players playerStats playerIds m1 m2
  rfl

/-- C20: the comparison answers with the bad-request error exactly when the id
list is absent (the parameter is missing or empty); for every non-empty id list
it answers without error with one entry for each player of the snapshot whose
id occurs among the parsed ids, in snapshot order, so an id that matches no
player produces no entry. -/
theorem comparePlayers_entries (players : List Player) (playerStats : List Stat)
    (metrics : String) :
    (∀ playerIds : Option String,
      comparePlayers players playerStats playerIds metrics = CompareResponse.badRequest ↔
        (playerIds = none ∨ playerIds = some "")) ∧
    (∀ text : String, text ≠ "" →
      ∃ comparison : List CompareEntry,
        comparePlayers players playerStats (some text) metrics =
          CompareResponse.ok comparison ∧
        List.Forall₂
          (fun p e => e.id = p.id ∧ e.name = p.name ∧ e.country = p.country ∧
            e.primary_role = p.primary_role)
          (players.filter (fun p => decide (some (p.id : Int) ∈ parseIdList text)))
          comparison) := by
  constructor
  · intro playerIds
    cases playerIds with
    | none => simp [comparePlayers]
    | some text =>
      by_cases h : text = ""
      · simp [comparePlayers, h]
      · simp [comparePlayers, h]
  · intro text h
    refine ⟨(players.filter (fun p => decide (some (p.id : Int) ∈ parseIdList text))).map
      (compareEntry playerStats), by simp only [comparePlayers, h, if_false], ?_⟩
    rw [List.forall₂_map_right_iff]
    apply List.forall₂_same.2
    intro p _
    exact ⟨rfl, rfl, rfl, rfl⟩

/-- An instance of C20: the id list `2, 7,x,1` selects the players 1 and 2 of
the sample in snapshot order; the ids 7 and `x` produce no entry. -/
theorem comparePlayers_entries_witness :
    "2, 7,x,1" ≠ "" ∧
    parseIdList "2, 7,x,1" = [some 2, some 7, none, some 1] ∧
    ∃ comparison : List CompareEntry,
      comparePlayers sampleSnapshotPlayers sampleSnapshotStats (some "2, 7,x,1") "runs" =
        CompareResponse.ok comparison ∧
      List.Forall₂
        (fun p e => e.id = p.id ∧ e.name = p.name ∧ e.country = p.country ∧
          e.primary_role = p.primary_role)
        (sampleSnapshotPlayers.filter
          (fun p => decide (some (p.id : Int) ∈ parseIdList "2, 7,x,1")))
        comparison :=
  ⟨by decide, by decide,
   (comparePlayers_entries sampleSnapshotPlayers sampleSnapshotStats "runs").2 "2, 7,x,1"
     (by decide)⟩
/-! ### Single lookup -/

/-- C18: the single lookup answers with the not-found error exactly when no
player of the snapshot has the id that the path parameter denotes; otherwise it
answers with the first player of that id and exactly the stat records whose
`player_name` is the name of that player, in snapshot order. -/
theorem playerById_spec (players : List Player) (playerStats : List Stat) (id : String) :
    (playerById players playerStats id = LookupResponse.notFound ↔
      ∀ p ∈ players, some (p.id : Int) ≠ parseInt id) ∧
    ((∃ p ∈ players, some (p.id : Int) = parseInt id) →
      ∃ before player after,
        players = before ++ player :: after ∧
        (∀ q ∈ before, some (q.id : Int) ≠ parseInt id) ∧
        some (player.id : Int) = parseInt id ∧
        playerById players playerStats id =
          LookupResponse.found player
            (playerStats.filter (fun stat => decide (stat.player_name = player.name)))) := by
  constructor
  · unfold playerById
    simp only []
    cases hf : players.find? (fun p => decide (some (p.id : Int) = parseInt id)) with
    | none =>
      rw [List.find?_eq_none] at hf
      simp only [true_iff]
      intro p hp
      simpa using hf p hp
    | some player =>
      simp only [reduceCtorEq, false_iff]
      intro hall
      have hm := List.mem_of_find?_eq_some hf
      have hp := List.find?_some hf
      exact hall player hm (by simpa using hp)
  · rintro ⟨p, hp, he⟩
    cases hf : players.find? (fun p => decide (some (p.id : Int) = parseInt id)) with
    | none =>
      rw [List.find?_eq_none] at hf
      exact absurd (by simpa using he) (hf p hp)
    | some player =>
      obtain ⟨hpl, before, after, hsplit, hbefore⟩ := List.find?_eq_some.1 hf
      refine ⟨before, player, after, hsplit, ?_, by simpa using hpl, ?_⟩
      · intro q hq
        simpa using hbefore q hq
      · unfold playerById
        simp only [hf]

/-- An instance of C18: the path parameter `2` finds the second player of the
sample with its one record, and `7` finds nobody. -/
theorem playerById_spec_witness :
    (∃ p ∈ sampleSnapshotPlayers, some (p.id : Int) = parseInt "2") ∧
    playerById sampleSnapshotPlayers sampleSnapshotStats "2" =
      LookupResponse.found
        { id := 2, name := "B", country := "AUS", primary_role := "bowler" }
        [sampleStat "B" "AUS" "odi" 20 30] ∧
    playerById sampleSnapshotPlayers sampleSnapshotStats "7" = LookupResponse.notFound ∧
    ∃ before player after,
      sampleSnapshotPlayers = before ++ player :: after ∧
      (∀ q ∈ before, some (q.id : Int) ≠ parseInt "2") ∧
      some (player.id : Int) = parseInt "2" ∧
      playerById sampleSnapshotPlayers sampleSnapshotStats "2" =
        LookupResponse.found player
          (sampleSnapshotStats.filter (fun stat => decide (stat.player_name = player.name))) :=
  ⟨by decide, by with_unfolding_all decide, by decide,
   (playerById_spec sampleSnapshotPlayers sampleSnapshotStats "2").2 (by decide)⟩
/-! ### The player list -/

theorem startsWithChars_iff (hay needle : List Char) :
    startsWithChars hay needle = true ↔ ∃ post, hay = needle ++ post := by
  induction needle generalizing hay with
  | nil => simp [startsWithChars]
  | cons n ns ih =>
    cases hay with
    | nil => simp [startsWithChars]
    | cons h hs =>
      simp only [startsWithChars, Bool.and_eq_true, decide_eq_true_eq, ih, List.cons_append,
        List.cons.injEq]
      constructor
      · rintro ⟨rfl, post, rfl⟩
        exact ⟨post, rfl, rfl⟩
      · rintro ⟨post, rfl, rfl⟩
        exact ⟨rfl, post, rfl⟩

/-- `includes` is containment as a contiguous part. -/
theorem includesChars_iff (hay needle : List Char) :
    includesChars hay needle = true ↔ ∃ before after, hay = before ++ needle ++ after := by
  induction hay with
  | nil =>
    cases needle with
    | nil => simp [includesChars]
    | cons n ns => simp [includesChars]
  | cons h hs ih =>
    simp only [includesChars, Bool.or_eq_true, startsWithChars_iff, ih]
    constructor
    · rintro (⟨post, e⟩ | ⟨before, after, e⟩)
      · exact ⟨[], post, by simpa using e⟩
      · exact ⟨h :: before, after, by simp [e]⟩
    · rintro ⟨before, after, e⟩
      cases before with
      | nil => exact Or.inl ⟨after, by simpa using e⟩
      | cons b bs =>
        simp only [List.cons_append, List.cons.injEq] at e
        exact Or.inr ⟨bs, after, by simpa using e.2⟩

theorem filterWhenGiven_eq {α : Type} (param : Option String) (keep : String → α → Bool)
    (l : List α) :
    filterWhenGiven param keep l = l.filter (fun x => passes param (fun v => keep v x)) := by
  cases param with
  | none => simp [filterWhenGiven, passes]
  | some v =>
    by_cases h : v = ""
    · simp [filterWhenGiven, passes, h]
    · simp [filterWhenGiven, passes, h]

theorem any_filter_format (playerStats : List Stat) (name f : String) :
    (playerStats.filter (fun stat => decide (stat.player_name = name))).any
        (fun stat => decide (stat.format = f)) =
      playerStats.any (fun stat => decide (stat.player_name = name ∧ stat.format = f)) := by
  induction playerStats with
  | nil => rfl
  | cons r rs ih =>
    by_cases h : r.player_name = name
    · simp [List.filter_cons, h, ih]
    · simp [List.filter_cons, h, ih]

/-- C19: the list before pagination is the list of the snapshot players that
satisfy every filter that is given, in snapshot order, each with all stat
records of its name (of every format); a player satisfies the filters exactly
when its lower-cased name contains the lower-cased search text, its country is
the country filter, its role is the role filter, and some stat record of its
name has the format filter, each condition only for a filter that is given. -/
theorem finalPlayers_spec (toLowerCase : String → String) (players : List Player)
    (playerStats : List Stat) (search country role format : Option String) :
    finalPlayers toLowerCase players playerStats search country role format =
      (players.filter (selected toLowerCase playerStats search country role format)).map
        (fun p =>
          { player := p
            stats := playerStats.filter (fun stat => decide (stat.player_name = p.name)) }) ∧
    (∀ p : Player,
      selected toLowerCase playerStats search country role format p = true ↔
        ((∀ s, search = some s → s ≠ "" →
            ∃ before after,
              (toLowerCase p.name).toList = before ++ (toLowerCase s).toList ++ after) ∧
          (∀ c, country = some c → c ≠ "" → p.country = c) ∧
          (∀ r, role = some r → r ≠ "" → p.primary_role = r) ∧
          (∀ f, format = some f → f ≠ "" →
            ∃ stat ∈ playerStats, stat.player_name = p.name ∧ stat.format = f))) ∧
    (∀ (page limit : Int),
      listPlayers toLowerCase players playerStats search country role format page limit =
        paginate
          ((players.filter (selected toLowerCase playerStats search country role format)).map
            (fun p =>
              { player := p
                stats := playerStats.filter (fun stat => decide (stat.player_name = p.name)) }))
          page limit) := by
  have hmain : finalPlayers toLowerCase players playerStats search country role format =
      (players.filter (selected toLowerCase playerStats search country role format)).map
        (fun p =>
          { player := p
            stats := playerStats.filter (fun stat => decide (stat.player_name = p.name)) }) := by
    unfold finalPlayers
    simp only [filterWhenGiven_eq, List.filter_filter, List.filter_map]
    congr 1
    apply List.filter_congr
    intro p _
    simp only [Function.comp, selected, any_filter_format]
    cases passes search (fun s =>
        includesChars (toLowerCase p.name).toList (toLowerCase s).toList) <;>
      cases passes country (fun c => decide (p.country = c)) <;>
      cases passes role (fun r => decide (p.primary_role = r)) <;>
      cases passes format (fun f =>
        playerStats.any (fun stat => decide (stat.player_name = p.name ∧ stat.format = f))) <;>
      rfl
  refine ⟨hmain, ?_, ?_⟩
  · intro p
    have hpass : ∀ (param : Option String) (test : String → Bool),
        passes param test = true ↔ ∀ v, param = some v → v ≠ "" → test v = true := by
      intro param test
      cases param with
      | none => simp [passes]
      | some v =>
        by_cases h : v = ""
        · simp [passes, h]
        · simp [passes, h]
    simp only [selected, Bool.and_eq_true, hpass, includesChars_iff, decide_eq_true_eq,
      List.any_eq_true, and_assoc]
  · intro page limit
    unfold listPlayers
    rw [hmain]

/-- An instance of C19: the search text `A` (any case), the country `IND` and
the format `test` select the first player of the sample, who is returned with
both of its records, the ODI one included; an empty role filter asks nothing. -/
theorem finalPlayers_spec_witness :
    finalPlayers sampleToLower sampleSnapshotPlayers sampleSnapshotStats
        (some "A") (some "IND") (some "") (some "test") =
      [{ player := { id := 1, name := "A", country := "IND", primary_role := "batsman" },
         stats := [sampleStat "A" "IND" "odi" 100 0, sampleStat "A" "IND" "test" 50 1] }] ∧
    finalPlayers sampleToLower sampleSnapshotPlayers sampleSnapshotStats
        (some "A") (some "IND") (some "") (some "test") =
      (sampleSnapshotPlayers.filter
        (selected sampleToLower sampleSnapshotStats (some "A") (some "IND") (some "")
          (some "test"))).map
        (fun p =>
          { player := p
            stats := sampleSnapshotStats.filter
              (fun stat => decide (stat.player_name = p.name)) }) :=
  ⟨by with_unfolding_all decide,
   (finalPlayers_spec sampleToLower sampleSnapshotPlayers sampleSnapshotStats
      (some "A") (some "IND") (some "") (some "test")).1⟩

/-! ### The two orders of a batting row and a bowling row, in general -/

theorem updateFirst_append_of_any (pred : Stat → Bool) (f : Stat → Stat) (l m : List Stat)
    (h : l.any pred = true) : updateFirst pred f (l ++ m) = updateFirst pred f l ++ m := by
  induction l with
  | nil => simp at h
  | cons r rs ih =>
    by_cases hr : pred r = true
    · simp [updateFirst, hr]
    · have hr2 : pred r = false := by
        cases hb : pred r with
        | true => exact absurd hb hr
        | false => rfl
      have h2 : rs.any pred = true := by simpa [List.any_cons, hr2] using h
      simp [updateFirst, hr2, ih h2]

/-- The id under which a row finds its player after
`if (!players.has(name)) players.set(name, p)`: the id of the registered player
of that name, or the id of the new entry. -/
theorem playersGet_ensure_id (players : List Player) (name : String) (p q : Player)
    (hp : p.name = name)
    (hq : playersGet (if !playersHas players name then playersSet players name p else players)
      name = some q) :
    q.id = match playersGet players name with
      | some e => e.id
      | none => p.id := by
  rcases ensure_cases players name p with ⟨hh, e⟩ | ⟨hh, e⟩
  · rw [e] at hq
    rw [hq]
  · rw [e] at hq
    have hnone := playersGet_of_not_has players name hh
    rw [hnone]
    unfold playersGet at hq hnone
    rw [List.find?_append, hnone] at hq
    simp [List.find?_cons, hp] at hq
    rw [hq]

/-- The two orders of a batting row and a bowling row of one key: when the
store holds a record of the key, both orders give the same stat list; when it
holds none, the batting-first order adds one record and the bowling-first order
adds two. -/
theorem batting_bowling_orders (parseFloat : String → Option Rat) (fb fw : String) (s : Store)
    (bat : BattingRow) (bowl : BowlingRow)
    (hname : (parsePlayer bat.Player).name = (parsePlayer bowl.Player).name)
    (hfmt : formatOfLabel " data" fb = formatOfLabel "bowling_" fw) :
    ((∃ r ∈ s.playerStats, r.player_name = (parsePlayer bowl.Player).name ∧
        r.format = formatOfLabel "bowling_" fw) →
      (bowlingRowStep parseFloat fw (battingRowStep parseFloat fb s bat) bowl).playerStats =
        (battingRowStep parseFloat fb (bowlingRowStep parseFloat fw s bowl) bat).playerStats) ∧
    ((¬ ∃ r ∈ s.playerStats, r.player_name = (parsePlayer bowl.Player).name ∧
        r.format = formatOfLabel "bowling_" fw) →
      (bowlingRowStep parseFloat fw (battingRowStep parseFloat fb s bat) bowl).playerStats.length =
        s.playerStats.length + 1 ∧
      (battingRowStep parseFloat fb (bowlingRowStep parseFloat fw s bowl) bat).playerStats.length =
        s.playerStats.length + 2) := by
  -- the player found by the batting row on `s`
  obtain ⟨q1, hq1⟩ := playersGet_after_ensure s.players (parsePlayer bat.Player).name
    { id := s.players.length + 1, name := (parsePlayer bat.Player).name,
      country := (parsePlayer bat.Player).country, primary_role := "batsman" } rfl
  have hid1 := playersGet_ensure_id s.players (parsePlayer bat.Player).name
    { id := s.players.length + 1, name := (parsePlayer bat.Player).name,
      country := (parsePlayer bat.Player).country, primary_role := "batsman" } q1 rfl hq1
  -- the player found by the bowling row on `s`
  obtain ⟨q2, hq2⟩ := playersGet_after_ensure s.players (parsePlayer bowl.Player).name
    { id := s.players.length + 1, name := (parsePlayer bowl.Player).name,
      country := (parsePlayer bowl.Player).country, primary_role := "bowler" } rfl
  have hid2 := playersGet_ensure_id s.players (parsePlayer bowl.Player).name
    { id := s.players.length + 1, name := (parsePlayer bowl.Player).name,
      country := (parsePlayer bowl.Player).country, primary_role := "bowler" } q2 rfl hq2
  have hbat : (battingRowStep parseFloat fb s bat).playerStats.length =
      s.playerStats.length + 1 := by
    unfold battingRowStep
    simp only [hq1, List.length_append, List.length_singleton]
  constructor
  · intro hex
    have hany : s.playerStats.any (fun stat =>
        decide (stat.player_name = (parsePlayer bowl.Player).name ∧
          stat.format = formatOfLabel "bowling_" fw)) = true := by
      rw [List.any_eq_true]
      obtain ⟨r, hr, hk⟩ := hex
      exact ⟨r, hr, by simpa using hk⟩
    -- bowling first
    have hW := bowlingRowStep_stats_of_existing parseFloat fw s bowl hany
    have hWp : (bowlingRowStep parseFloat fw s bowl).players =
        (if !playersHas s.players (parsePlayer bowl.Player).name then
          playersSet s.players (parsePlayer bowl.Player).name
            { id := s.players.length + 1, name := (parsePlayer bowl.Player).name,
              country := (parsePlayer bowl.Player).country, primary_role := "bowler" }
        else s.players) := by
      unfold bowlingRowStep
      simp only [hq2, hany, if_true]
    -- the batting row after the bowling row finds the same id
    have hhas2 : playersHas (bowlingRowStep parseFloat fw s bowl).players
        (parsePlayer bat.Player).name = true := by
      rw [hWp, hname]
      obtain ⟨hm, hn⟩ := playersGet_some _ _ _ hq2
      have hmem := playersHas_of_mem _ _ hm
      rw [hn] at hmem
      exact hmem
    have hget2 : playersGet (bowlingRowStep parseFloat fw s bowl).players
        (parsePlayer bat.Player).name = some q2 := by
      rw [hWp, hname]; exact hq2
    have hids : q1.id = q2.id := by
      rw [hid1, hid2, hname]
    -- batting first, then bowling
    have hany1 : (battingRowStep parseFloat fb s bat).playerStats.any (fun stat =>
        decide (stat.player_name = (parsePlayer bowl.Player).name ∧
          stat.format = formatOfLabel "bowling_" fw)) = true := by
      unfold battingRowStep
      simp only [hq1, List.any_append, hany, Bool.true_or]
    rw [bowlingRowStep_stats_of_existing parseFloat fw _ bowl hany1]
    have hB1 : (battingRowStep parseFloat fb s bat).playerStats =
        s.playerStats ++ [(battingRowStep parseFloat fb s bat).playerStats.getLast
          (by intro h; rw [h] at hbat; simp at hbat)] := by
      unfold battingRowStep
      simp only [hq1, List.getLast_append_singleton] 
    rw [hB1, updateFirst_append_of_any _ _ _ _ hany]
    unfold battingRowStep
    simp only [hhas2, Bool.not_true, Bool.false_eq_true, if_false, hget2, hW, hq1,
      List.getLast_append_singleton, hids]
  · intro hno
    have hany := any_key_false _ _ _ hno
    refine ⟨?_, ?_⟩
    · have hany1 : (battingRowStep parseFloat fb s bat).playerStats.any (fun stat =>
          decide (stat.player_name = (parsePlayer bowl.Player).name ∧
            stat.format = formatOfLabel "bowling_" fw)) = true := by
        unfold battingRowStep
        simp only [hq1]
        simp only [List.any_append, hany, Bool.false_or, List.any_cons, List.any_nil,
          Bool.or_false, hname, hfmt, and_self, decide_True]
      rw [bowlingRowStep_stats_of_existing parseFloat fw _ bowl hany1]
      have hlen : ∀ (pred : Stat → Bool) (f : Stat → Stat) (l : List Stat),
          (updateFirst pred f l).length = l.length := by
        intro pred f l
        induction l with
        | nil => rfl
        | cons r rs ih =>
          by_cases hr : pred r = true
          · simp [updateFirst, hr]
          · simp [updateFirst, hr, ih]
      rw [hlen, hbat]
    · have hWlen : (bowlingRowStep parseFloat fw s bowl).playerStats.length =
          s.playerStats.length + 1 := by
        unfold bowlingRowStep
        simp only [hq2, hany, Bool.false_eq_true, if_false, List.length_append,
          List.length_singleton]
      obtain ⟨q3, hq3⟩ := playersGet_after_ensure (bowlingRowStep parseFloat fw s bowl).players
        (parsePlayer bat.Player).name
        { id := (bowlingRowStep parseFloat fw s bowl).players.length + 1,
          name := (parsePlayer bat.Player).name,
          country := (parsePlayer bat.Player).country, primary_role := "batsman" } rfl
      have : (battingRowStep parseFloat fb (bowlingRowStep parseFloat fw s bowl) bat).playerStats.length
          = (bowlingRowStep parseFloat fw s bowl).playerStats.length + 1 := by
        unfold battingRowStep
        simp only [hq3, List.length_append, List.length_singleton]
      rw [this, hWlen]

/-! ### Buckets of the era distribution -/

theorem indicator_sum {κ M : Type} [DecidableEq κ] [AddCommMonoid M] (ks : List κ)
    (hnd : ks.Nodup) (c : κ) (hc : c ∈ ks) (x : M) :
    (ks.map (fun k => if c = k then x else 0)).sum = x := by
  induction ks with
  | nil => simp at hc
  | cons k ks ih =>
    rw [List.nodup_cons] at hnd
    by_cases hk : c = k
    · subst hk
      have hz : ks.map (fun k => if c = k then x else 0) = ks.map (fun _ => (0 : M)) := by
        apply List.map_congr_left
        intro k hk
        have : c ≠ k := fun h => hnd.1 (h ▸ hk)
        simp [this]
      simp [hz]
    · have hc2 : c ∈ ks := by
        rcases List.mem_cons.1 hc with h | h
        · exact absurd h hk
        · exact h
      simp [hk, ih hnd.2 hc2]

/-- Summing a quantity over the records of each key, and then over the keys,
gives the sum over all records. -/
theorem sum_by_key {α κ M : Type} [DecidableEq κ] [AddCommMonoid M] (key : α → κ) (f : α → M)
    (ks : List κ) (hnd : ks.Nodup) (l : List α) (hcover : ∀ r ∈ l, key r ∈ ks) :
    (ks.map (fun k => ((l.filter (fun r => decide (key r = k))).map f).sum)).sum =
      (l.map f).sum := by
  induction l with
  | nil => simp
  | cons r l ih =>
    have hstep : ks.map (fun k => (((r :: l).filter (fun r => decide (key r = k))).map f).sum) =
        ks.map (fun k => (if key r = k then f r else 0) +
          ((l.filter (fun r => decide (key r = k))).map f).sum) := by
      apply List.map_congr_left
      intro k _
      by_cases hk : key r = k
      · simp [List.filter_cons, hk]
      · simp [List.filter_cons, hk]
    rw [hstep, List.sum_map_add, indicator_sum ks hnd (key r) (hcover r (List.mem_cons_self _ _)),
      ih (fun r2 hr2 => hcover r2 (List.mem_cons_of_mem _ hr2))]
    simp

theorem decadeKey_floor (n : Int) :
    decadeKey n = toString (Int.floor ((n : Rat) / 10) * 10) ++ "s" := by
  unfold decadeKey
  have h : Int.floor ((n : Rat) / 10) = Int.fdiv n 10 := by
    have := Rat.floor_intCast_div_natCast n 10
    rw [Int.fdiv_eq_ediv n (by decide : (0 : Int) ≤ 10)]
    exact_mod_cast this
  rw [h]

theorem eraDistribution_buckets (strToNum : String → Option Rat) (playerStats : List Stat)
    (format metric : String) :
    ∃ distribution : List (String × List JSVal),
      eraDistribution strToNum playerStats format metric =
        distribution.map (fun kv => summarize strToNum kv.1 kv.2) ∧
      BucketInv metric distribution (playerStats.filter (fun r =>
        decide (r.format = format) && metricPositive strToNum metric r)) := by
  have hfilt : playerStats.filter (fun stat =>
      decide (stat.format = format) && truthy (getField stat metric) &&
        gtZero strToNum (getField stat metric)) =
      playerStats.filter (fun r =>
        decide (r.format = format) && metricPositive strToNum metric r) := by
    congr 1
    funext r
    exact era_filter_eq strToNum format metric r
  have hinv := eraFold_inv metric
    (playerStats.filter (fun r =>
      decide (r.format = format) && metricPositive strToNum metric r)) [] []
    ⟨by simp, by simp, by simp, by simp⟩
  rw [List.nil_append] at hinv
  refine ⟨_, ?_, hinv⟩
  unfold eraDistribution
  simp only []
  rw [hfilt]

theorem eraKey_year (r : Stat) (n : Int) (h : r.span_start = SpanBound.year n) (hn : n ≠ 0) :
    eraKey r = some (decadeKey n) := by
  unfold eraKey
  rw [h]
  simp [hn]

/-- C21 (amended): the decades of the returned buckets are distinct; every
returned bucket counts at least one record, and it counts exactly the records
of the format whose metric is present and positive and whose `span_start` gives
its label; every such record whose `span_start` is a year other than zero has
its bucket among the returned ones, the one labelled
`floor(span_start / 10) * 10` followed by `s`, and is counted in no bucket of
another label; the counts of all buckets sum to the number of those records. -/
theorem eraDistribution_partition (strToNum : String → Option Rat) (playerStats : List Stat)
    (format metric : String) :
    ((eraDistribution strToNum playerStats format metric).map (fun e => e.decade)).Nodup ∧
    (∀ e ∈ eraDistribution strToNum playerStats format metric,
      0 < e.count ∧
      e.count = (bucketRecords strToNum playerStats format metric e.decade).length) ∧
    (∀ r ∈ playerStats, ∀ n : Int, r.format = format →
      metricPositive strToNum metric r = true → r.span_start = SpanBound.year n → n ≠ 0 →
      decadeKey n = toString (Int.floor ((n : Rat) / 10) * 10) ++ "s" ∧
      decadeKey n ∈ (eraDistribution strToNum playerStats format metric).map (fun e => e.decade) ∧
      ∀ k, r ∈ bucketRecords strToNum playerStats format metric k ↔ k = decadeKey n) ∧
    ((eraDistribution strToNum playerStats format metric).map (fun e => e.count)).sum =
      (playerStats.filter (fun r => decide (r.format = format) &&
        metricPositive strToNum metric r && hasSpanStart r &&
        decide (r.span_start ≠ SpanBound.year 0))).length := by
  obtain ⟨dist, hd, i1, i2, i3, i4⟩ := eraDistribution_buckets strToNum playerStats format metric
  have hdec : (eraDistribution strToNum playerStats format metric).map (fun e => e.decade) =
      dist.map (fun kv => kv.1) := by
    rw [hd, List.map_map]
    rfl
  have hcount : ∀ kv ∈ dist, (summarize strToNum kv.1 kv.2).count =
      (bucketRecords strToNum playerStats format metric kv.1).length := by
    intro kv hkv
    show kv.2.length = _
    rw [i2 kv hkv, List.length_map]
    rfl
  refine ⟨?_, ?_, ?_, ?_⟩
  · rw [hdec]; exact i1
  · intro e he
    rw [hd] at he
    obtain ⟨kv, hkv, rfl⟩ := List.mem_map.1 he
    refine ⟨?_, hcount kv hkv⟩
    show 0 < kv.2.length
    exact List.length_pos.2 (i3 kv hkv)
  · intro r hr n hf hm hs hn
    have hk := eraKey_year r n hs hn
    have hmem : r ∈ playerStats.filter (fun r =>
        decide (r.format = format) && metricPositive strToNum metric r) := by
      rw [List.mem_filter]
      exact ⟨hr, by simp [hf, hm]⟩
    refine ⟨decadeKey_floor n, ?_, ?_⟩
    · rw [hdec]
      exact i4 r hmem _ hk
    · intro k
      unfold bucketRecords
      rw [List.mem_filter]
      constructor
      · rintro ⟨_, h⟩
        have h2 : eraKey r = some k := by simpa using h
        rw [hk] at h2
        exact (Option.some.inj h2).symm
      · intro h
        subst h
        exact ⟨hmem, by simp [hk]⟩
  · have hsum := sum_by_key (fun r : Stat => eraKey r) (fun _ => (1 : Nat))
      ((dist.map (fun kv => kv.1)).map some)
      (i1.map (fun a b h => Option.some.inj h))
      ((playerStats.filter (fun r =>
        decide (r.format = format) && metricPositive strToNum metric r)).filter
        (fun r => (eraKey r).isSome))
      (by
        intro r hr
        obtain ⟨hr1, hr2⟩ := List.mem_filter.1 hr
        show eraKey r ∈ _
        cases hk : eraKey r with
        | none => rw [hk] at hr2; simp at hr2
        | some k => exact List.mem_map_of_mem _ (i4 r hr1 k hk))
    have hfl : ∀ k : String,
        ((playerStats.filter (fun r =>
          decide (r.format = format) && metricPositive strToNum metric r)).filter
          (fun r => (eraKey r).isSome)).filter (fun r => decide (eraKey r = some k)) =
        bucketRecords strToNum playerStats format metric k := by
      intro k
      unfold bucketRecords
      rw [List.filter_filter]
      apply List.filter_congr
      intro r _
      by_cases h : eraKey r = some k
      · simp [h]
      · simp [h]
    have hlhs : (eraDistribution strToNum playerStats format metric).map (fun e => e.count) =
        ((dist.map (fun kv => kv.1)).map some).map (fun k =>
          ((((playerStats.filter (fun r =>
            decide (r.format = format) && metricPositive strToNum metric r)).filter
            (fun r => (eraKey r).isSome)).filter (fun r => decide (eraKey r = k))).map
            (fun _ => (1 : Nat))).sum) := by
      rw [hd, List.map_map, List.map_map, List.map_map]
      apply List.map_congr_left
      intro kv hkv
      simp only [Function.comp]
      rw [hcount kv hkv, hfl kv.1]
      simp
    rw [hlhs, hsum]
    simp only [List.map_const', List.sum_replicate, smul_eq_mul, mul_one, List.filter_filter]
    congr 1
    apply List.filter_congr
    intro r _
    unfold eraKey hasSpanStart
    cases hs : r.span_start with
    | null => simp
    | nan => simp
    | year n =>
      by_cases hn : n = 0
      · simp [hn]
      · simp [hn]

/-- An instance of C21: of the four records of the nineties, the one that
started in 1990 has its bucket, labelled `1990s`, among the returned ones and
is counted in the bucket of that label only. -/
theorem eraDistribution_partition_witness :
    decadeKey 1990 = "1990s" ∧
    decadeKey 1990 = toString (Int.floor ((1990 : Rat) / 10) * 10) ++ "s" ∧
    decadeKey 1990 ∈
      (eraDistribution sampleStrToNum sampleEraStats "odi" "runs").map (fun e => e.decade) ∧
    ∀ k, { sampleStat "A" "IND" "odi" 30 0 with span_start := SpanBound.year 1990 } ∈
      bucketRecords sampleStrToNum sampleEraStats "odi" "runs" k ↔ k = decadeKey 1990 :=
  ⟨by decide,
   by
    exact_mod_cast (eraDistribution_partition sampleStrToNum sampleEraStats "odi" "runs").2.2.1
     { sampleStat "A" "IND" "odi" 30 0 with span_start := SpanBound.year 1990 }
     (List.mem_cons_self _ _) 1990 rfl (by with_unfolding_all decide) rfl (by decide)⟩

/-- C21 as stated fails for a record whose `span_start` is the year zero (the
span cell `0-5` gives it): the record is of the format, its metric is positive
and it has a `span_start`, yet the era distribution returns no bucket, so the
counts sum to zero and not to one. -/
theorem eraDistribution_year_zero_dropped :
    zeroYearStat.span_start = SpanBound.year 0 ∧
    zeroYearStat.format = "odi" ∧
    metricPositive sampleStrToNum "runs" zeroYearStat = true ∧
    hasSpanStart zeroYearStat = true ∧
    eraDistribution sampleStrToNum [zeroYearStat] "odi" "runs" = [] ∧
    ((eraDistribution sampleStrToNum [zeroYearStat] "odi" "runs").map (fun e => e.count)).sum ≠
      ([zeroYearStat].filter (fun r => decide (r.format = "odi") &&
        metricPositive sampleStrToNum "runs" r && hasSpanStart r)).length := by
  refine ⟨by decide, by decide, by with_unfolding_all decide, by decide,
    by with_unfolding_all decide, by with_unfolding_all decide⟩

/-! ### Order of the summary of a bucket -/

theorem pairwise_getElem?_le (key : JSVal → Rat) (l : List JSVal)
    (h : l.Pairwise (fun a b => key a ≤ key b)) (i j : Nat) (hij : i ≤ j) (a b : JSVal)
    (ha : l[i]? = some a) (hb : l[j]? = some b) : key a ≤ key b := by
  rcases Nat.eq_or_lt_of_le hij with e | hlt
  · subst e
    rw [ha] at hb
    rw [Option.some.inj hb]
  · obtain ⟨hi, ea⟩ := List.getElem?_eq_some_iff.1 ha
    obtain ⟨hj, eb⟩ := List.getElem?_eq_some_iff.1 hb
    rw [← ea, ← eb]
    exact (List.pairwise_iff_getElem.1 h) i j hi hj hlt

/-- C22: every element that the era distribution returns summarises `n ≥ 1`
values (`n` is the divisor of the mean, `values.length`); the positions
`floor(n * 0.25)`, `floor(n * 0.5)` and `floor(n * 0.75)` are below `n`, the
length of the sorted values, and the summary fields are the sorted values at
the positions `0`, those three and `n - 1`; each of the five fields is a number
greater than zero, not `undefined`; and `min ≤ q1 ≤ median ≤ q3 ≤ max`. -/
theorem eraDistribution_summary_ordered (strToNum : String → Option Rat)
    (playerStats : List Stat) (format metric : String) :
    ∀ e ∈ eraDistribution strToNum playerStats format metric,
      1 ≤ e.count ∧
      floorFraction e.count 1 4 < e.count ∧
      floorFraction e.count 1 2 < e.count ∧
      floorFraction e.count 3 4 < e.count ∧
      (∃ sorted : List JSVal,
        sorted.length = e.count ∧
        sorted.Perm ((bucketRecords strToNum playerStats format metric e.decade).map
          (fun r => getField r metric)) ∧
        sorted.Pairwise (fun a b => numberOf strToNum a ≤ numberOf strToNum b) ∧
        sorted[0]? = some e.min ∧
        sorted[floorFraction e.count 1 4]? = some e.q1 ∧
        sorted[floorFraction e.count 1 2]? = some e.median ∧
        sorted[floorFraction e.count 3 4]? = some e.q3 ∧
        sorted[e.count - 1]? = some e.max) ∧
      (∀ v ∈ [e.min, e.q1, e.median, e.q3, e.max],
        v ≠ JSVal.undefined ∧ toNumber strToNum v = some (numberOf strToNum v) ∧
          0 < numberOf strToNum v) ∧
      numberOf strToNum e.min ≤ numberOf strToNum e.q1 ∧
      numberOf strToNum e.q1 ≤ numberOf strToNum e.median ∧
      numberOf strToNum e.median ≤ numberOf strToNum e.q3 ∧
      numberOf strToNum e.q3 ≤ numberOf strToNum e.max := by
  intro e he
  obtain ⟨dist, hd, _, i2, i3, _⟩ := eraDistribution_buckets strToNum playerStats format metric
  rw [hd] at he
  obtain ⟨kv, hkv, rfl⟩ := List.mem_map.1 he
  have hv := i2 kv hkv
  have hne := i3 kv hkv
  have hpos : ∀ v ∈ kv.2, toNumber strToNum v = some (numberOf strToNum v) ∧
      0 < numberOf strToNum v := by
    intro v hv2
    rw [hv] at hv2
    obtain ⟨r, hr, rfl⟩ := List.mem_map.1 hv2
    have hr2 := (List.mem_filter.1 (List.mem_filter.1 hr).1).2
    simp only [Bool.and_eq_true] at hr2
    have := metricPositive_spec strToNum metric r hr2.2
    exact ⟨this.2.1, this.2.2⟩
  obtain ⟨sorted, s1, s2, s3, s4, s5, s6, s7, s8, s9⟩ :=
    summarize_spec strToNum kv.1 kv.2 hne (fun v hv2 => (hpos v hv2).1)
  have hlen : sorted.length = (summarize strToNum kv.1 kv.2).count := by
    rw [s4]; exact s1.length_eq
  have hn : 0 < (summarize strToNum kv.1 kv.2).count := by
    rw [s4]; exact List.length_pos.2 hne
  have hq1 : floorFraction (summarize strToNum kv.1 kv.2).count 1 4 = kv.2.length / 4 := by
    rw [s4]; simp [floorFraction]
  have hq2 : floorFraction (summarize strToNum kv.1 kv.2).count 1 2 = kv.2.length / 2 := by
    rw [s4]; simp [floorFraction]
  have hq3 : floorFraction (summarize strToNum kv.1 kv.2).count 3 4 = 3 * kv.2.length / 4 := by
    rw [s4]; simp [floorFraction, Nat.mul_comm]
  have hmem : ∀ (i : Nat) (v : JSVal), sorted[i]? = some v → v ∈ kv.2 := by
    intro i v h
    obtain ⟨hi, e⟩ := List.getElem?_eq_some_iff.1 h
    exact s1.subset (e ▸ List.getElem_mem hi)
  have hfield : ∀ (i : Nat) (v : JSVal), sorted[i]? = some v →
      v ≠ JSVal.undefined ∧ toNumber strToNum v = some (numberOf strToNum v) ∧
        0 < numberOf strToNum v := by
    intro i v h
    obtain ⟨h1, h2⟩ := hpos v (hmem i v h)
    refine ⟨?_, h1, h2⟩
    intro hu
    rw [hu] at h1
    simp [toNumber] at h1
  refine ⟨hn, floorFraction_lt _ 1 4 hn (by decide), floorFraction_lt _ 1 2 hn (by decide),
    floorFraction_lt _ 3 4 hn (by decide), ?_, ?_, ?_, ?_, ?_, ?_⟩
  · refine ⟨sorted, hlen, ?_, s2, s5, ?_, ?_, ?_, ?_⟩
    · have hb : (bucketRecords strToNum playerStats format metric kv.1).map
          (fun r => getField r metric) = kv.2 := by
        rw [hv]; rfl
      rw [s3, hb]; exact s1
    · rw [hq1]; exact s6
    · rw [hq2]; exact s7
    · rw [hq3]; exact s8
    · rw [s4]; exact s9
  · intro v hv2
    simp only [List.mem_cons, List.mem_singleton, List.not_mem_nil, or_false] at hv2
    rcases hv2 with h | h | h | h | h
    · rw [h]; exact hfield _ _ s5
    · rw [h]; exact hfield _ _ s6
    · rw [h]; exact hfield _ _ s7
    · rw [h]; exact hfield _ _ s8
    · rw [h]; exact hfield _ _ s9
  · exact pairwise_getElem?_le _ sorted s2 _ _ (Nat.zero_le _) _ _ s5 s6
  · exact pairwise_getElem?_le _ sorted s2 _ _ (by omega) _ _ s6 s7
  · exact pairwise_getElem?_le _ sorted s2 _ _ (by omega) _ _ s7 s8
  · exact pairwise_getElem?_le _ sorted s2 _ _ (by have := List.length_pos.2 hne; omega) _ _ s8 s9

/-- An instance of C22: the one element returned for the four records of the
nineties, with runs 30, 10, 40 and 20. -/
theorem eraDistribution_summary_ordered_witness :
    eraDistribution sampleStrToNum sampleEraStats "odi" "runs" =
      [{ decade := "1990s", min := JSVal.num 10, q1 := JSVal.num 20, median := JSVal.num 30,
         q3 := JSVal.num 40, max := JSVal.num 40, count := 4 }] ∧
    floorFraction 4 1 4 < 4 ∧ floorFraction 4 1 2 < 4 ∧ floorFraction 4 3 4 < 4 ∧
    numberOf sampleStrToNum (JSVal.num 10) ≤ numberOf sampleStrToNum (JSVal.num 20) ∧
    numberOf sampleStrToNum (JSVal.num 20) ≤ numberOf sampleStrToNum (JSVal.num 30) ∧
    numberOf sampleStrToNum (JSVal.num 30) ≤ numberOf sampleStrToNum (JSVal.num 40) ∧
    numberOf sampleStrToNum (JSVal.num 40) ≤ numberOf sampleStrToNum (JSVal.num 40) :=
  have h := eraDistribution_summary_ordered sampleStrToNum sampleEraStats "odi" "runs"
    { decade := "1990s", min := JSVal.num 10, q1 := JSVal.num 20, median := JSVal.num 30,
      q3 := JSVal.num 40, max := JSVal.num 40, count := 4 }
    (by with_unfolding_all decide)
  ⟨by with_unfolding_all decide, h.2.1, h.2.2.1, h.2.2.2.1, h.2.2.2.2.2.2⟩

/-! ### Dashboard and country contribution -/

theorem foldl_add_sum (f : Stat → Int) (l : List Stat) (a : Int) :
    l.foldl (fun sum stat => sum + f stat) a = a + (l.map f).sum := by
  induction l generalizing a with
  | nil => simp
  | cons r l ih =>
    rw [List.foldl_cons, ih, List.map_cons, List.sum_cons]
    ring

theorem distinctNames_snoc (names : List String) (x : String) :
    distinctNames (names ++ [x]) = setAdd (distinctNames names) x := by
  unfold distinctNames
  rw [List.foldl_append]
  rfl

theorem setAdd_fold_length (names acc : List String) :
    (names.foldl setAdd acc).length ≤ acc.length + names.length := by
  induction names generalizing acc with
  | nil => simp
  | cons x xs ih =>
    rw [List.foldl_cons]
    have h := ih (setAdd acc x)
    have h2 : (setAdd acc x).length ≤ acc.length + 1 := by
      unfold setAdd
      by_cases hx : x ∈ acc
      · simp [hx]
      · simp [hx]
    rw [List.length_cons]
    omega

theorem distinctNames_length_le (names : List String) :
    (distinctNames names).length ≤ names.length := by
  have := setAdd_fold_length names []
  simpa [distinctNames] using this

theorem setAdd_fold_nodup (names acc : List String) (h : (acc ++ names).Nodup) :
    names.foldl setAdd acc = acc ++ names := by
  induction names generalizing acc with
  | nil => simp
  | cons x xs ih =>
    rw [List.foldl_cons]
    have hx : x ∉ acc := by
      intro hc
      rw [List.nodup_append] at h
      exact h.2.2 hc (List.mem_cons_self _ _)
    have hs : setAdd acc x = acc ++ [x] := by
      unfold setAdd
      simp [hx]
    rw [hs, ih (acc ++ [x]) (by simpa [List.append_assoc] using h)]
    simp [List.append_assoc]

theorem distinctNames_of_nodup (names : List String) (h : names.Nodup) :
    distinctNames names = names := by
  have := setAdd_fold_nodup names [] (by simpa using h)
  simpa [distinctNames] using this

theorem dashboardTotals_snoc (seen : List Stat) (r : Stat) (c : String) :
    dashboardTotals (seen ++ [r]) c =
      if r.player_country = c then
        { dashboardTotals seen c with
          players := setAdd (dashboardTotals seen c).players r.player_name
          totalRuns := (dashboardTotals seen c).totalRuns + r.runs
          totalWickets := (dashboardTotals seen c).totalWickets + r.wickets }
      else dashboardTotals seen c := by
  unfold dashboardTotals
  by_cases h : r.player_country = c
  · simp [List.filter_append, h, distinctNames_snoc]
  · simp [List.filter_append, h]

theorem dashboardCountryStep_inv (acc : List DashboardCountry) (seen : List Stat) (r : Stat)
    (hp : r.player_country ∉ objectPrototypeKeys) (h : DashboardInv acc seen) :
    ∃ acc1, dashboardCountryStep acc r = some acc1 ∧ DashboardInv acc1 (seen ++ [r]) := by
  obtain ⟨h1, h2, h3, h4⟩ := h
  unfold dashboardCountryStep
  simp only [hp, if_false]
  refine ⟨_, rfl, ?_⟩
  have hkeys : ∀ l : List DashboardCountry,
      (l.map (fun e =>
        if e.country = r.player_country then
          { e with
            players := setAdd e.players r.player_name
            totalRuns := e.totalRuns + r.runs
            totalWickets := e.totalWickets + r.wickets }
        else e)).map (fun e => e.country) = l.map (fun e => e.country) := by
    intro l
    rw [List.map_map]
    apply List.map_congr_left
    intro e _
    by_cases hc : e.country = r.player_country <;> simp [hc]
  have hupd : ∀ e : DashboardCountry, e = dashboardTotals seen e.country →
      (if e.country = r.player_country then
          { e with
            players := setAdd e.players r.player_name
            totalRuns := e.totalRuns + r.runs
            totalWickets := e.totalWickets + r.wickets }
        else e) =
      dashboardTotals (seen ++ [r])
        (if e.country = r.player_country then
          { e with
            players := setAdd e.players r.player_name
            totalRuns := e.totalRuns + r.runs
            totalWickets := e.totalWickets + r.wickets }
        else e).country := by
    intro e he
    by_cases hc : e.country = r.player_country
    · simp only [hc, if_true]
      rw [dashboardTotals_snoc, if_pos rfl]
      rw [← hc, ← he]
    · simp only [hc, if_false]
      rw [dashboardTotals_snoc, if_neg (fun hh => hc hh.symm)]
      exact he
  by_cases hany : acc.any (fun e => decide (e.country = r.player_country)) = true
  · simp only [hany, if_true]
    refine ⟨by rw [hkeys]; exact h1, ?_, ?_, ?_⟩
    · intro e he
      obtain ⟨e0, he0, rfl⟩ := List.mem_map.1 he
      exact hupd e0 (h2 e0 he0)
    · intro e he
      have hc : e.country ∈ acc.map (fun e => e.country) := by
        rw [← hkeys acc]; exact List.mem_map_of_mem _ he
      obtain ⟨e0, he0, e0c⟩ := List.mem_map.1 hc
      rw [← e0c, List.map_append]
      exact List.mem_append_left _ (h3 e0 he0)
    · intro r2 hr2
      rw [hkeys]
      rcases List.mem_append.1 hr2 with hr2 | hr2
      · exact h4 r2 hr2
      · rw [List.mem_singleton] at hr2
        subst hr2
        rw [List.any_eq_true] at hany
        obtain ⟨e, he, hc⟩ := hany
        exact List.mem_map.2 ⟨e, he, by simpa using hc⟩
  · have hany2 : acc.any (fun e => decide (e.country = r.player_country)) = false := by
      cases hb : acc.any (fun e => decide (e.country = r.player_country)) with
      | true => exact absurd hb hany
      | false => rfl
    simp only [hany2, Bool.false_eq_true, if_false]
    have hnot : r.player_country ∉ acc.map (fun e => e.country) := by
      intro hc
      obtain ⟨e, he, ec⟩ := List.mem_map.1 hc
      have := (List.any_eq_false.1 hany2) e he
      simp [ec] at this
    have hnone : seen.filter (fun x => decide (x.player_country = r.player_country)) = [] := by
      rw [List.filter_eq_nil_iff]
      intro r2 hr2 hc
      have hc2 : r2.player_country = r.player_country := by simpa using hc
      exact hnot (hc2 ▸ h4 r2 hr2)
    refine ⟨?_, ?_, ?_, ?_⟩
    · rw [hkeys, List.map_append, List.nodup_append]
      refine ⟨h1, by simp, ?_⟩
      intro x hx hx2
      simp only [List.map_cons, List.map_nil, List.mem_singleton] at hx2
      subst hx2
      exact hnot hx
    · intro e he
      obtain ⟨e0, he0, rfl⟩ := List.mem_map.1 he
      apply hupd
      rcases List.mem_append.1 he0 with he0 | he0
      · exact h2 e0 he0
      · rw [List.mem_singleton] at he0
        subst he0
        simp [dashboardTotals, hnone, distinctNames]
    · intro e he
      have hc := List.mem_map_of_mem (fun e : DashboardCountry => e.country) he
      rw [hkeys] at hc
      simp only [] at hc
      rw [List.map_append] at hc
      rcases List.mem_append.1 hc with hc | hc
      · obtain ⟨e0, he0, e0c⟩ := List.mem_map.1 hc
        rw [← e0c, List.map_append]
        exact List.mem_append_left _ (h3 e0 he0)
      · simp only [List.map_cons, List.map_nil, List.mem_singleton] at hc
        rw [hc]
        simp
    · intro r2 hr2
      rw [hkeys, List.map_append]
      rcases List.mem_append.1 hr2 with hr2 | hr2
      · exact List.mem_append_left _ (h4 r2 hr2)
      · rw [List.mem_singleton] at hr2
        subst hr2
        simp

theorem dashboardCountries_inv (l : List Stat) (acc : List DashboardCountry) (seen : List Stat)
    (hp : ∀ r ∈ l, r.player_country ∉ objectPrototypeKeys) (h : DashboardInv acc seen) :
    ∃ acc1, dashboardCountries l acc = some acc1 ∧ DashboardInv acc1 (seen ++ l) := by
  induction l generalizing acc seen with
  | nil => exact ⟨acc, rfl, by simpa using h⟩
  | cons r l ih =>
    obtain ⟨acc1, e1, inv1⟩ := dashboardCountryStep_inv acc seen r
      (hp r (List.mem_cons_self _ _)) h
    obtain ⟨acc2, e2, inv2⟩ := ih acc1 (seen ++ [r])
      (fun r2 hr2 => hp r2 (List.mem_cons_of_mem _ hr2)) inv1
    refine ⟨acc2, ?_, by simpa [List.append_assoc] using inv2⟩
    simp only [dashboardCountries, e1]
    exact e2

theorem dashboardCountries_none (l : List Stat) (acc : List DashboardCountry)
    (h : ∃ r ∈ l, r.player_country ∈ objectPrototypeKeys) : dashboardCountries l acc = none := by
  induction l generalizing acc with
  | nil => simp at h
  | cons r l ih =>
    by_cases hr : r.player_country ∈ objectPrototypeKeys
    · simp only [dashboardCountries, dashboardCountryStep, hr, if_true]
    · obtain ⟨r2, hr2, hp2⟩ := h
      have hmem : r2 ∈ l := by
        rcases List.mem_cons.1 hr2 with e | e
        · exact absurd (e ▸ hp2) hr
        · exact e
      cases hs : dashboardCountryStep acc r with
      | none => simp only [dashboardCountries, hs]
      | some acc1 =>
        simp only [dashboardCountries, hs]
        exact ih acc1 ⟨r2, hmem, hp2⟩

theorem ownProperties_perm {β : Type} (acc : List (String × β)) :
    (ownProperties acc).Perm acc := by
  unfold ownProperties
  have h1 := List.perm_insertionSort
    (fun a b : String × β => (arrayIndex a.1).getD 0 ≤ (arrayIndex b.1).getD 0)
    (acc.filter (fun kv => (arrayIndex kv.1).isSome))
  exact (h1.append_right _).trans (List.filter_append_perm _ acc)

theorem jsSort_perm {α : Type} (cmp : α → α → Option Rat) (l : List α) :
    (jsSort cmp l).Perm l := by
  unfold jsSort
  exact List.perm_insertionSort _ _

/-- The body of the dashboard when the country loop does not throw. -/
theorem dashboardStats_of_countries (players : List Player) (playerStats : List Stat)
    (format : String) (acc : List DashboardCountry)
    (h : dashboardCountries (playerStats.filter (fun r => decide (r.format = format))) [] =
      some acc) :
    ∃ d, dashboardStats players playerStats format = some d ∧
      d.summary.totalRuns =
        ((playerStats.filter (fun r => decide (r.format = format))).map (fun r => r.runs)).sum ∧
      d.summary.totalWickets =
        ((playerStats.filter (fun r => decide (r.format = format))).map
          (fun r => r.wickets)).sum ∧
      ∀ t ∈ d.topCountries, ∃ e ∈ acc,
        t.country = e.country ∧ t.playerCount = e.players.length := by
  unfold dashboardStats
  simp only [h]
  refine ⟨_, rfl, ?_, ?_, ?_⟩
  · simp only [foldl_add_sum, zero_add]
  · simp only [foldl_add_sum, zero_add]
  · intro t ht
    simp only [] at ht
    have h1 := (jsSlice_sublist _ _ _).subset ht
    have h2 := (jsSort_perm _ _).subset h1
    obtain ⟨data, hdata, rfl⟩ := List.mem_map.1 h2
    obtain ⟨kv, hkv, rfl⟩ := List.mem_map.1 hdata
    have h3 := (ownProperties_perm _).subset hkv
    obtain ⟨e, he, rfl⟩ := List.mem_map.1 h3
    exact ⟨e, he, rfl, rfl⟩

/-- The dashboard sends no body when a record of the format has a country that
names an inherited member of the accumulator object. -/
theorem dashboardStats_inherited (players : List Player) (playerStats : List Stat)
    (format : String)
    (h : ∃ r ∈ playerStats, r.format = format ∧ r.player_country ∈ objectPrototypeKeys) :
    dashboardStats players playerStats format = none := by
  obtain ⟨r, hr, hf, hp⟩ := h
  have hn := dashboardCountries_none (playerStats.filter (fun r => decide (r.format = format))) []
    ⟨r, List.mem_filter.2 ⟨hr, by simpa using hf⟩, hp⟩
  unfold dashboardStats
  simp only [hn]

/-- What holds of C23 on every snapshot in which no record of the format has a
country that names an inherited member of the accumulator objects: the
dashboard sends a body; the `total_runs`, `total_wickets` and `player_count` of
the country contribution sum to the dashboard's `totalRuns`, to its
`totalWickets` and to the number of records of the format; and every element of
`topCountries` has its country in the country contribution, with a
`playerCount` of at most that entry's `player_count`, and equal to it when no
two records of the format share a `player_name`. -/
theorem contribution_matches_dashboard (players : List Player) (playerStats : List Stat)
    (format : String)
    (hp : ∀ r ∈ playerStats, r.format = format → r.player_country ∉ objectPrototypeKeys) :
    ∃ d, dashboardStats players playerStats format = some d ∧
      ((countryContribution playerStats format).map (fun e => e.total_runs)).sum =
        d.summary.totalRuns ∧
      ((countryContribution playerStats format).map (fun e => e.total_wickets)).sum =
        d.summary.totalWickets ∧
      ((countryContribution playerStats format).map (fun e => e.player_count)).sum =
        (playerStats.filter (fun r => decide (r.format = format))).length ∧
      ∀ t ∈ d.topCountries, ∃ e ∈ countryContribution playerStats format,
        e.country = t.country ∧ t.playerCount ≤ e.player_count ∧
        (((playerStats.filter (fun r => decide (r.format = format))).map
            (fun r => r.player_name)).Nodup → t.playerCount = e.player_count) := by
  have hp2 : ∀ r ∈ playerStats.filter (fun r => decide (r.format = format)),
      r.player_country ∉ objectPrototypeKeys := by
    intro r hr
    obtain ⟨hr1, hr2⟩ := List.mem_filter.1 hr
    exact hp r hr1 (by simpa using hr2)
  obtain ⟨acc, hacc, _, j2, j3, _⟩ := dashboardCountries_inv
    (playerStats.filter (fun r => decide (r.format = format))) [] [] hp2
    ⟨by simp, by simp, by simp, by simp⟩
  rw [List.nil_append] at j2 j3
  obtain ⟨d, hd, d1, d2, d3⟩ := dashboardStats_of_countries players playerStats format acc hacc
  obtain ⟨g1, g2, g3, _⟩ := countryContribution_groups playerStats format
  have hcover : ∀ r ∈ playerStats.filter (fun r => decide (r.format = format)),
      r.player_country ∈ (countryContribution playerStats format).map (fun e => e.country) := by
    intro r hr
    exact (g2 _).2 ⟨List.mem_map_of_mem _ hr, hp2 r hr⟩
  refine ⟨d, hd, ?_, ?_, ?_, ?_⟩
  · rw [d1, ← sum_by_key (fun r : Stat => r.player_country) (fun r => r.runs) _ g1 _ hcover,
      List.map_map]
    congr 1
    apply List.map_congr_left
    intro e he
    exact congrArg CountryEntry.total_runs (g3 e he)
  · rw [d2, ← sum_by_key (fun r : Stat => r.player_country) (fun r => r.wickets) _ g1 _ hcover,
      List.map_map]
    congr 1
    apply List.map_congr_left
    intro e he
    exact congrArg CountryEntry.total_wickets (g3 e he)
  · have hlen : (playerStats.filter (fun r => decide (r.format = format))).length =
        ((playerStats.filter (fun r => decide (r.format = format))).map
          (fun _ => (1 : Nat))).sum := by
      simp
    rw [hlen, ← sum_by_key (fun r : Stat => r.player_country) (fun _ => (1 : Nat)) _ g1 _ hcover,
      List.map_map]
    congr 1
    apply List.map_congr_left
    intro e he
    have := congrArg CountryEntry.player_count (g3 e he)
    rw [this]
    simp [countryTotals]
  · intro t ht
    obtain ⟨e, he, tc, tp⟩ := d3 t ht
    have hin : e.country ∈ (countryContribution playerStats format).map (fun e => e.country) :=
      (g2 _).2 ⟨j3 e he, by
        obtain ⟨r, hr, hrc⟩ := List.mem_map.1 (j3 e he)
        rw [← hrc]
        exact hp2 r hr⟩
    obtain ⟨c, hc, hcc⟩ := List.mem_map.1 hin
    have hcount : c.player_count =
        ((playerStats.filter (fun r => decide (r.format = format))).filter
          (fun r => decide (r.player_country = e.country))).length := by
      have := congrArg CountryEntry.player_count (g3 c hc)
      rw [this, hcc]
      rfl
    have hplayers : e.players = distinctNames
        (((playerStats.filter (fun r => decide (r.format = format))).filter
          (fun r => decide (r.player_country = e.country))).map (fun r => r.player_name)) := by
      have := congrArg DashboardCountry.players (j2 e he)
      rw [this]
      rfl
    refine ⟨c, hc, by rw [tc]; exact hcc, ?_, ?_⟩
    · rw [tp, hplayers, hcount]
      have := distinctNames_length_le
        (((playerStats.filter (fun r => decide (r.format = format))).filter
          (fun r => decide (r.player_country = e.country))).map (fun r => r.player_name))
      simpa using this
    · intro hnd
      have hsub : (((playerStats.filter (fun r => decide (r.format = format))).filter
          (fun r => decide (r.player_country = e.country))).map (fun r => r.player_name)).Nodup :=
        hnd.sublist ((List.filter_sublist _).map _)
      rw [tp, hplayers, hcount, distinctNames_of_nodup _ hsub, List.length_map]

/-- An instance: for two records of `IND` with runs 100 and 200 the dashboard
sends a body whose `totalRuns` is the sum of the `total_runs` of the country
contribution, 300. -/
theorem contribution_matches_dashboard_witness :
    (∀ r ∈ indiaStats, r.format = "odi" → r.player_country ∉ objectPrototypeKeys) ∧
    ∃ d, dashboardStats [] indiaStats "odi" = some d ∧
      ((countryContribution indiaStats "odi").map (fun e => e.total_runs)).sum =
        d.summary.totalRuns ∧
      d.summary.totalRuns = 300 :=
  ⟨by decide,
   match contribution_matches_dashboard [] indiaStats "odi" (by decide) with
   | ⟨d, h1, h2, _⟩ => ⟨d, h1, h2, by
      rw [← h2]
      with_unfolding_all decide⟩⟩

/-- C23, the code at the failing input: of two records of the format, one for
`IND` with 100 runs and one with 50 runs whose country is `constructor`, the
country contribution returns the entry of `IND` only, so its `total_runs` sum to
100 and not to the 150 runs of the format, and its `player_count` sum to 1 and
not to the 2 records of the format; and the dashboard sends no body. -/
theorem dashboard_inherited_name :
    (inheritedCountryStats.filter (fun r => decide (r.format = "odi"))).length = 2 ∧
    ((inheritedCountryStats.filter (fun r => decide (r.format = "odi"))).map
      (fun r => r.runs)).sum = 150 ∧
    countryContribution inheritedCountryStats "odi" =
      [{ country := "IND", player_count := 1, total_runs := 100, total_wickets := 0 }] ∧
    ((countryContribution inheritedCountryStats "odi").map (fun e => e.total_runs)).sum = 100 ∧
    ((countryContribution inheritedCountryStats "odi").map (fun e => e.player_count)).sum = 1 ∧
    dashboardStats [] inheritedCountryStats "odi" = none := by
  refine ⟨by decide, by decide, by with_unfolding_all decide, by with_unfolding_all decide,
    by with_unfolding_all decide, ?_⟩
  exact dashboardStats_inherited [] inheritedCountryStats "odi"
    ⟨sampleStat "B" "constructor" "odi" 50 0, List.mem_cons_of_mem _ (List.mem_cons_self _ _),
      rfl, by decide⟩

end Cricket
